import Mathlib

/-! Leader-side follower channel of the raft log replication (`kvstore/raftex/Host.cpp`).

A shallow embedding of `nebula::raftex::Host`: the fields guarded by `lock_` become a
record, every critical section becomes a function on that record, and the asynchronous
pipeline (requests built, requests handed to the transport, completions still to be
handled) becomes a transition system whose steps are the critical sections.

Conventions.
* `TermID`, `LogID` and `ClusterID` are 64-bit signed integers in the source; they are
  embedded as `Int`.  The only arithmetic on them is `lastLogIdSent_ + 1`, which does not
  overflow below the largest 64-bit log id.
* `CHECK` failures and `LOG(FATAL)` end the process; an exception thrown by
  `SharedPromise::setValue` leaves the continuation.  All three are results of type
  `Failure`, and a run of the transition system ends at the first of them.
* Every shared promise carries a ghost identity (a serial number taken from `promiseSeq`),
  so that "the same promise" can be said of a promise that has been moved between the two
  slots.
-/

namespace nebula.raftex

/-! ## Wire types and collaborators -/

abbrev TermID := Int
abbrev LogID := Int
abbrev ClusterID := Int

/-- Modelled from the spec: the error codes of section 6 (the generated enumeration
`cpp2::ErrorCode` is not among the sources).  `other` stands for every further code a
follower may surface. -/
inductive ErrorCode where
  | SUCCEEDED
  | E_LOG_GAP
  | E_HOST_STOPPED
  | E_NOT_A_LEADER
  | E_TOO_MANY_REQUESTS
  | E_EXCEPTION
  | other (code : Nat)
  deriving DecidableEq, Repr

/-- Modelled from the spec: the wire type `AppendLogResponse` of section 6 (generated
code, not among the sources). -/
structure AppendLogResponse where
  error_code : ErrorCode
  current_term : TermID
  last_log_id : LogID
  last_log_term : TermID
  committed_log_id : LogID
  deriving DecidableEq, Repr

/-- A default-constructed response on which only `set_error_code` has been called, as in
`cpp2::AppendLogResponse r; r.set_error_code(c);`. -/
def AppendLogResponse.withCode (c : ErrorCode) : AppendLogResponse :=
  { error_code := c, current_term := 0, last_log_id := 0, last_log_term := 0,
    committed_log_id := 0 }

/-- Modelled from the spec: one element of `log_str_list` (cluster id and opaque payload). -/
structure LogEntry where
  cluster : ClusterID
  log_str : List Nat
  deriving DecidableEq, Repr

/-- Modelled from the spec: the wire type `AppendLogRequest` of section 6 (generated
code, not among the sources). -/
structure AppendLogRequest where
  space : Int
  part : Int
  current_term : TermID
  last_log_id : LogID
  leader_ip : Int
  leader_port : Int
  committed_log_id : LogID
  last_log_term_sent : TermID
  last_log_id_sent : LogID
  log_term : TermID
  log_str_list : List LogEntry
  deriving DecidableEq, Repr

/-- What a valid Wal iterator exposes at its position: `logTerm()`, `logSource()` and
`logMsg()`. -/
structure WalRecord where
  logTerm : TermID
  logSource : ClusterID
  logMsg : List Nat
  deriving DecidableEq, Repr

/-- Modelled from the spec: the write-ahead log (`kvstore/wal` is not among the sources),
"consumed only as an iterator from an inclusive log-id range".  The log is a lookup from
log ids to records. -/
structure Wal where
  record : LogID → Option WalRecord

/-- The records an iterator yields from position `i` on, at most `n` of them, stopping at
the first id the log does not hold. -/
def Wal.scan (w : Wal) : Nat → LogID → List WalRecord
  | 0, _ => []
  | n + 1, i =>
    match w.record i with
    | none => []
    | some r => r :: Wal.scan w n (i + 1)

/-- Modelled from the spec: `iterator(from_inclusive, to_inclusive)`.  The iterator is
represented by the list of records it yields; `valid()` at the start is non-emptiness. -/
def Wal.iterator (w : Wal) (first last : LogID) : List WalRecord :=
  w.scan (last + 1 - first).toNat first

/-- The part of the owning `RaftPart` the channel reads: `spaceId()`, `partitionId()`,
`address()` and `wal()`. -/
structure RaftPart where
  spaceId : Int
  partitionId : Int
  address : Int × Int
  wal : Wal

/-- The two gflags read by the channel. -/
structure Flags where
  max_appendlog_batch_size : Nat
  max_outstanding_requests : Nat
  deriving DecidableEq, Repr

/-- The defaults of the `DEFINE_uint32` lines. -/
def Flags.default : Flags :=
  { max_appendlog_batch_size := 128, max_outstanding_requests := 1024 }

/-- How a critical section can end other than by returning. -/
inductive Failure where
  | checkFailed
  | fatal
  | promiseAlreadySatisfied
  deriving DecidableEq, Repr

/-! ## The shared promise -/

/-- Modelled from the spec: the shared-broadcast promise (`folly::SharedPromise`, a
library type).  `size` counts the futures handed out, `value` is the result once the
promise is fulfilled, `id` is the ghost identity. -/
structure SharedPromise where
  id : Nat
  size : Nat
  value : Option AppendLogResponse
  deriving DecidableEq, Repr

/-- A newly constructed promise: no observer, no result. -/
def SharedPromise.fresh (id : Nat) : SharedPromise :=
  { id := id, size := 0, value := none }

/-- The promise after `getFuture()`: one more observer. -/
def SharedPromise.getFuture (p : SharedPromise) : SharedPromise :=
  { p with size := p.size + 1 }

/-- The promise after `setValue(r)`; fulfilling a fulfilled promise throws. -/
def SharedPromise.setValue (p : SharedPromise) (r : AppendLogResponse) :
    Except Failure SharedPromise :=
  if p.value.isSome then .error Failure.promiseAlreadySatisfied
  else .ok { p with value := some r }

/-- The future a submitter gets back: a ready response, or a future of the shared promise
with the given identity. -/
inductive AppendFuture where
  | ready (r : AppendLogResponse)
  | ofPromise (id : Nat)
  deriving DecidableEq, Repr

/-! ## The channel state -/

abbrev PendingReq := TermID × LogID × LogID × TermID × LogID

/-- The all-zero tuple `std::make_tuple(0, 0, 0, 0, 0)` that encodes "no pending request". -/
def emptyTup : PendingReq := (0, 0, 0, 0, 0)

/-- The fields of `Host` guarded by `lock_`.  `promiseSeq` is ghost: the identity the next
constructed promise gets. -/
structure Host where
  paused : Bool
  stopped : Bool
  requestOnGoing : Bool
  promise : SharedPromise
  cachingPromise : SharedPromise
  pendingReq : PendingReq
  logIdToSend : LogID
  logTermToSend : TermID
  lastLogIdSent : LogID
  lastLogTermSent : TermID
  committedLogId : LogID
  promiseSeq : Nat
  deriving DecidableEq, Repr

namespace Host

/-- Modelled from the spec: the initial idle state (the in-class initialisers of `Host.h`
are not among the sources): counters zero, nothing pending, flags clear, two promises
without observers. -/
def init : Host :=
  { paused := false, stopped := false, requestOnGoing := false,
    promise := SharedPromise.fresh 0, cachingPromise := SharedPromise.fresh 1,
    pendingReq := emptyTup, logIdToSend := 0, logTermToSend := 0, lastLogIdSent := 0,
    lastLogTermSent := 0, committedLogId := 0, promiseSeq := 2 }

/-- `Host::checkStatus` (lines 51-65). -/
def checkStatus (s : Host) : ErrorCode :=
  if s.stopped then ErrorCode.E_HOST_STOPPED
  else if s.paused then ErrorCode.E_NOT_A_LEADER
  else ErrorCode.SUCCEEDED

/-- `Host::noRequest` (lines 393-397). -/
def noRequest (s : Host) : Bool :=
  decide (s.pendingReq = emptyTup)

/-- The loop of `Host::prepareAppendLogRequest` (lines 345-354): entries are taken while
the iterator is valid, the term is `term` and `cnt` is below the batch size. -/
def collectLogs (term : TermID) (batch : Nat) : List WalRecord → Nat → List LogEntry
  | [], _ => []
  | r :: rest, cnt =>
    if r.logTerm = term ∧ cnt < batch then
      { cluster := r.logSource, log_str := r.logMsg } :: collectLogs term batch rest (cnt + 1)
    else []

/-- `Host::prepareAppendLogRequest` (lines 321-361).  An iterator that is not valid at its
first position is `LOG(FATAL)`. -/
def prepareAppendLogRequest (flags : Flags) (part : RaftPart) (s : Host) :
    Except Failure AppendLogRequest :=
  match part.wal.iterator (s.lastLogIdSent + 1) s.logIdToSend with
  | [] => .error Failure.fatal
  | r :: rest =>
    .ok { space := part.spaceId
          part := part.partitionId
          current_term := s.logTermToSend
          last_log_id := s.logIdToSend
          leader_ip := part.address.1
          leader_port := part.address.2
          committed_log_id := s.committedLogId
          last_log_term_sent := s.lastLogTermSent
          last_log_id_sent := s.lastLogIdSent
          log_term := r.logTerm
          log_str_list := collectLogs r.logTerm flags.max_appendlog_batch_size (r :: rest) 0 }

/-- What the critical section of `appendLogs` hands back: the new state, the future
returned to the submitter, and the request passed on to `appendLogsInternal` (if any). -/
structure Submitted where
  host : Host
  ret : AppendFuture
  req : Option AppendLogRequest
  deriving DecidableEq, Repr

/-- The state the accept branch of `appendLogs` installs (lines 160-170). -/
def accepted (s : Host) (term : TermID) (logId committedLogId : LogID)
    (prevLogTerm : TermID) (prevLogId : LogID) : Host :=
  { s with
    logTermToSend := term
    logIdToSend := logId
    lastLogTermSent := prevLogTerm
    lastLogIdSent := prevLogId
    committedLogId := committedLogId
    pendingReq := emptyTup
    promise := s.cachingPromise.getFuture
    cachingPromise := SharedPromise.fresh s.promiseSeq
    promiseSeq := s.promiseSeq + 1
    requestOnGoing := true }

/-- `Host::appendLogs` (lines 86-179), the critical section of lines 106-173 together
with the request it passes to `appendLogsInternal` at line 176. -/
def appendLogs (flags : Flags) (part : RaftPart) (s : Host) (term : TermID)
    (logId committedLogId : LogID) (prevLogTerm : TermID) (prevLogId : LogID) :
    Except Failure Submitted :=
  let res := s.checkStatus
  -- lines 110-128
  if logId = s.logIdToSend ∧ s.requestOnGoing = true then
    .ok { host := s, ret := .ready (AppendLogResponse.withCode ErrorCode.SUCCEEDED), req := none }
  else if logId ≠ s.logIdToSend ∧ logId < s.logIdToSend then
    .ok { host := s, ret := .ready (AppendLogResponse.withCode ErrorCode.SUCCEEDED), req := none }
  -- lines 130-145
  else if s.requestOnGoing = true ∧ res = ErrorCode.SUCCEEDED then
    if s.cachingPromise.size ≤ flags.max_outstanding_requests then
      .ok { host := { s with
                      pendingReq := (term, logId, committedLogId, prevLogTerm, prevLogId)
                      cachingPromise := s.cachingPromise.getFuture }
            ret := .ofPromise s.cachingPromise.id
            req := none }
    else
      .ok { host := s
            ret := .ready (AppendLogResponse.withCode ErrorCode.E_TOO_MANY_REQUESTS)
            req := none }
  -- lines 147-153
  else if res ≠ ErrorCode.SUCCEEDED then
    .ok { host := s, ret := .ready (AppendLogResponse.withCode res), req := none }
  -- lines 158-172
  else if prevLogTerm < s.lastLogTermSent then .error Failure.checkFailed
  else if prevLogId < s.lastLogIdSent then .error Failure.checkFailed
  else
    let s1 := s.accepted term logId committedLogId prevLogTerm prevLogId
    match prepareAppendLogRequest flags part s1 with
    | .error e => .error e
    | .ok req => .ok { host := s1, ret := .ofPromise s.cachingPromise.id, req := some req }

/-- The effects of `Host::setResponse`, or of one run of the continuation: the response
returned, the request chained through `appendLogsInternal` (if any), whether
`noMoreRequestCV_.notify_all()` was called, and the promises fulfilled, in order, each
with its identity and the value set. -/
structure Completion where
  ret : AppendLogResponse
  newReq : Option AppendLogRequest
  notified : Bool
  fulfilled : List (Nat × AppendLogResponse)
  deriving DecidableEq, Repr

/-- `Host::setResponse` (lines 181-188); the second component lists the two promises
fulfilled. -/
def setResponse (s : Host) (r : AppendLogResponse) :
    Except Failure (Host × List (Nat × AppendLogResponse)) :=
  match s.promise.setValue r with
  | .error e => .error e
  | .ok p =>
    match s.cachingPromise.setValue r with
    | .error e => .error e
    | .ok c =>
      .ok ({ s with
             promise := p
             cachingPromise := SharedPromise.fresh s.promiseSeq
             promiseSeq := s.promiseSeq + 1
             pendingReq := emptyTup
             requestOnGoing := false },
           [(p.id, r), (c.id, r)])

/-- The terminal paths of the continuation: `setResponse(r)` under the lock, then
`notify_all()`, then `return r`. -/
def quiesce (s : Host) (r : AppendLogResponse) : Except Failure (Host × Completion) :=
  match s.setResponse r with
  | .error e => .error e
  | .ok (s1, done) => .ok (s1, { ret := r, newReq := none, notified := true, fulfilled := done })

/-- What the transport delivers to the continuation: `folly::Try<AppendLogResponse>`. -/
inductive Try where
  | exception
  | value (resp : AppendLogResponse)
  deriving DecidableEq, Repr

/-- The state after lines 231-232 (and 290-291): the baseline is taken from the response. -/
def rebased (s : Host) (resp : AppendLogResponse) : Host :=
  { s with lastLogIdSent := resp.last_log_id, lastLogTermSent := resp.last_log_term }

/-- The `SUCCEEDED` case of the continuation (lines 215-274). -/
def onSucceeded (flags : Flags) (part : RaftPart) (s : Host) (resp : AppendLogResponse) :
    Except Failure (Host × Completion) :=
  let res := s.checkStatus
  if res ≠ ErrorCode.SUCCEEDED then
    s.quiesce (AppendLogResponse.withCode res)
  else
    let s1 := s.rebased resp
    if s1.lastLogIdSent < s1.logIdToSend then
      -- more to send (lines 233-237)
      match prepareAppendLogRequest flags part s1 with
      | .error e => .error e
      | .ok req => .ok (s1, { ret := resp, newReq := some req, notified := false, fulfilled := [] })
    else
      -- fulfil the promise (line 242)
      match s1.promise.setValue resp with
      | .error e => .error e
      | .ok p =>
        let s2 := { s1 with promise := p }
        if s2.noRequest then
          .ok ({ s2 with requestOnGoing := false },
               { ret := resp, newReq := none, notified := true, fulfilled := [(p.id, resp)] })
        else
          -- adopt the pending request (lines 248-260)
          let s3 := { s2 with
                      logTermToSend := s2.pendingReq.1
                      logIdToSend := s2.pendingReq.2.1
                      committedLogId := s2.pendingReq.2.2.1 }
          match prepareAppendLogRequest flags part s3 with
          | .error e => .error e
          | .ok req =>
            .ok ({ s3 with
                   promise := s3.cachingPromise
                   cachingPromise := SharedPromise.fresh s3.promiseSeq
                   promiseSeq := s3.promiseSeq + 1
                   pendingReq := emptyTup },
                 { ret := resp, newReq := some req, notified := false,
                   fulfilled := [(p.id, resp)] })

/-- The `E_LOG_GAP` case of the continuation (lines 275-302). -/
def onLogGap (flags : Flags) (part : RaftPart) (s : Host) (resp : AppendLogResponse) :
    Except Failure (Host × Completion) :=
  let res := s.checkStatus
  if res ≠ ErrorCode.SUCCEEDED then
    s.quiesce (AppendLogResponse.withCode res)
  else
    let s1 := s.rebased resp
    match prepareAppendLogRequest flags part s1 with
    | .error e => .error e
    | .ok req => .ok (s1, { ret := resp, newReq := some req, notified := false, fulfilled := [] })

/-- The continuation installed by `Host::appendLogsInternal` (lines 193-317), run on the
outcome of the request. -/
def appendLogsInternal (flags : Flags) (part : RaftPart) (s : Host) (t : Try) :
    Except Failure (Host × Completion) :=
  match t with
  | .exception => s.quiesce (AppendLogResponse.withCode ErrorCode.E_EXCEPTION)
  | .value resp =>
    match resp.error_code with
    | ErrorCode.SUCCEEDED => onSucceeded flags part s resp
    | ErrorCode.E_LOG_GAP => onLogGap flags part s resp
    | _ => s.quiesce resp

/-- What `sendAppendLogRequest` returns: the transport's future for the request, or a
ready response carrying the status. -/
inductive SendResult where
  | refused (resp : AppendLogResponse)
  | toTransport (req : AppendLogRequest)
  deriving DecidableEq, Repr

/-- `Host::sendAppendLogRequest` (lines 364-391); it reads the state and changes nothing. -/
def sendAppendLogRequest (s : Host) (req : AppendLogRequest) : SendResult :=
  let res := s.checkStatus
  if res ≠ ErrorCode.SUCCEEDED then .refused (AppendLogResponse.withCode res)
  else .toTransport req

/-- Modelled from the spec: `pause()` of section 4.5 (defined in `Host.h`, not among the
sources): set `paused`. -/
def pause (s : Host) : Host := { s with paused := true }

/-- Modelled from the spec: `resume()` of section 4.5: clear `paused`. -/
def resume (s : Host) : Host := { s with paused := false }

/-- Modelled from the spec: `stop()` of section 4.5: set `stopped`. -/
def stop (s : Host) : Host := { s with stopped := true }

/-- The request a critical section passes on, `none` when it fails. -/
def Submitted.request : Except Failure Submitted → Option AppendLogRequest
  | .ok r => r.req
  | .error _ => none

/-- The request the continuation chains, `none` when it fails. -/
def chained : Except Failure (Host × Completion) → Option AppendLogRequest
  | .ok (_, c) => c.newReq
  | .error _ => none

end Host

/-! ## The channel with its asynchronous pipeline -/

/-- The channel and what is under way outside the lock.
* `built`: requests returned by a critical section for which `appendLogsInternal` has not
  yet run the check of `sendAppendLogRequest`;
* `dispatching`: requests that have passed the check of `sendAppendLogRequest` (lines
  369-379, under the lock) and have not yet been handed to the transport (lines 389-390,
  after the lock is released);
* `inFlight`: requests handed to the transport (`future_appendLog`) and not yet answered;
* `refused`: ready responses returned by `sendAppendLogRequest` whose continuation has not
  yet run;
* `wire`: ghost, every request handed to the transport so far, oldest first. -/
structure Channel where
  host : Host
  built : List AppendLogRequest
  dispatching : List AppendLogRequest
  inFlight : List AppendLogRequest
  refused : List AppendLogResponse
  wire : List AppendLogRequest
  deriving DecidableEq, Repr

/-- The steps of the channel; each is one critical section, except `handOff`, the call of
the transport that `sendAppendLogRequest` makes after it has released the lock.  `send`
is the critical section of `sendAppendLogRequest`, the check of the status. -/
inductive Action where
  | appendLogs (term : TermID) (logId committedLogId : LogID) (prevLogTerm : TermID)
      (prevLogId : LogID)
  | send (i : Nat)
  | handOff (i : Nat)
  | complete (i : Nat) (t : Host.Try)
  | completeRefused (i : Nat)
  | pause
  | resume
  | stop
  deriving DecidableEq, Repr

namespace Channel

/-- A channel around a host with nothing under way. -/
def start (h : Host) : Channel :=
  { host := h, built := [], dispatching := [], inFlight := [], refused := [], wire := [] }

/-- The number of requests and completions under way. -/
def underWay (c : Channel) : Nat :=
  c.built.length + c.dispatching.length + c.inFlight.length + c.refused.length

/-- The channel after the continuation has run: new host, chained request queued. -/
def afterCompletion (c : Channel) (r : Host × Host.Completion) : Channel :=
  { c with host := r.1, built := c.built ++ r.2.newReq.toList }

/-- One step.  `none` when the action is not enabled (no such request or completion) or
the critical section fails.  The check of `sendAppendLogRequest` (`send`) and its call
of the transport (`handOff`) are two steps: the lock is released between them. -/
def step (flags : Flags) (part : RaftPart) (c : Channel) : Action → Option Channel
  | .appendLogs term logId committedLogId prevLogTerm prevLogId =>
    match c.host.appendLogs flags part term logId committedLogId prevLogTerm prevLogId with
    | .error _ => none
    | .ok r => some { c with host := r.host, built := c.built ++ r.req.toList }
  | .send i =>
    match c.built.get? i with
    | none => none
    | some req =>
      match c.host.sendAppendLogRequest req with
      | .refused resp =>
        some { c with built := c.built.eraseIdx i, refused := c.refused ++ [resp] }
      | .toTransport req1 =>
        some { c with built := c.built.eraseIdx i, dispatching := c.dispatching ++ [req1] }
  | .handOff i =>
    match c.dispatching.get? i with
    | none => none
    | some req =>
      some { c with dispatching := c.dispatching.eraseIdx i, inFlight := c.inFlight ++ [req],
                    wire := c.wire ++ [req] }
  | .complete i t =>
    match c.inFlight.get? i with
    | none => none
    | some _ =>
      match c.host.appendLogsInternal flags part t with
      | .error _ => none
      | .ok r => some (afterCompletion { c with inFlight := c.inFlight.eraseIdx i } r)
  | .completeRefused i =>
    match c.refused.get? i with
    | none => none
    | some resp =>
      match c.host.appendLogsInternal flags part (.value resp) with
      | .error _ => none
      | .ok r => some (afterCompletion { c with refused := c.refused.eraseIdx i } r)
  | .pause => some { c with host := c.host.pause }
  | .resume => some { c with host := c.host.resume }
  | .stop => some { c with host := c.host.stop }

/-- A run: the steps of `acts` one after the other. -/
def run (flags : Flags) (part : RaftPart) (c : Channel) : List Action → Option Channel
  | [] => some c
  | a :: rest =>
    match step flags part c a with
    | none => none
    | some c1 => run flags part c1 rest

end Channel

/-! ## Sample collaborators -/

/-- A log holding ids 1 to 20, all of term 2. -/
def sampleWal : Wal :=
  { record := fun i => if 1 ≤ i ∧ i ≤ 20 then some { logTerm := 2, logSource := 0, logMsg := [] }
                       else none }

/-- A partition owning `sampleWal`. -/
def samplePart : RaftPart :=
  { spaceId := 1, partitionId := 1, address := (0, 0), wal := sampleWal }

/-- A log whose entries below id 10 have been cleaned up: it holds ids 10 to 20, all of
term 2. -/
def trimmedWal : Wal :=
  { record := fun i => if 10 ≤ i ∧ i ≤ 20 then some { logTerm := 2, logSource := 0, logMsg := [] }
                       else none }

/-- A partition owning `trimmedWal`. -/
def trimmedPart : RaftPart :=
  { spaceId := 1, partitionId := 1, address := (0, 0), wal := trimmedWal }

/-- Flags with a backpressure threshold of two waiters. -/
def smallFlags : Flags :=
  { max_appendlog_batch_size := 2, max_outstanding_requests := 2 }

/-- The sample channel after the straight append `(T=2, L=7, C=5, pT=2, pL=5)` has been
accepted and handed to the transport. -/
def inFlightSample : Channel :=
  (Channel.run smallFlags samplePart (Channel.start Host.init)
    [.appendLogs 2 7 5 2 5, .send 0, .handOff 0]).getD (Channel.start Host.init)

/-- The sample channel with a request for `L = 7` in flight and the submissions `L = 9`
and `L = 11` coalesced behind it. -/
def coalescedSample : Channel :=
  (Channel.run smallFlags samplePart (Channel.start Host.init)
    [.appendLogs 2 7 5 2 5, .send 0, .handOff 0, .appendLogs 2 9 5 2 7, .appendLogs 2 11 5 2 9]).getD
    (Channel.start Host.init)

/-- The sample channel stopped while the request for `L = 7` is in flight. -/
def stoppedSample : Channel :=
  (Channel.run smallFlags samplePart (Channel.start Host.init)
    [.appendLogs 2 7 5 2 5, .send 0, .handOff 0, .stop]).getD (Channel.start Host.init)

/-- The channel over the trimmed log after `(T=2, L=20, C=0, pT=2, pL=12)` has been
accepted and handed to the transport. -/
def trimmedInFlight : Channel :=
  (Channel.run smallFlags trimmedPart (Channel.start Host.init)
    [.appendLogs 2 20 0 2 12, .send 0, .handOff 0]).getD (Channel.start Host.init)

/-- The sample channel after `(T=2, L=12, C=5, pT=2, pL=10)` has been accepted and handed
to the transport: target 12 from base 10. -/
def catchUpSample : Channel :=
  (Channel.run smallFlags samplePart (Channel.start Host.init)
    [.appendLogs 2 12 5 2 10, .send 0, .handOff 0]).getD (Channel.start Host.init)

/-- The error code of a future that is ready at once, `none` for a future of a promise. -/
def AppendFuture.immediateCode : AppendFuture → Option ErrorCode
  | .ready r => some r.error_code
  | .ofPromise _ => none

/-! ## Predicates on states and runs -/

/-- An idle channel state: no request on going, nothing pending, a caching promise
without observers and without result. -/
def Host.Idle (s : Host) : Prop :=
  s.requestOnGoing = false ∧ s.pendingReq = emptyTup ∧
  s.cachingPromise.size = 0 ∧ s.cachingPromise.value = none

/-- The state after the live promise has been fulfilled with `resp` on the fully delivered
path (lines 231-242). -/
def Host.delivered (s : Host) (resp : AppendLogResponse) : Host :=
  { s.rebased resp with promise := { s.promise with value := some resp } }

/-- The state after the pending request has been adopted (lines 248-260). -/
def Host.adopted (s : Host) : Host :=
  { s with
    logTermToSend := s.pendingReq.1
    logIdToSend := s.pendingReq.2.1
    committedLogId := s.pendingReq.2.2.1
    promise := s.cachingPromise
    cachingPromise := SharedPromise.fresh s.promiseSeq
    promiseSeq := s.promiseSeq + 1
    pendingReq := emptyTup }

/-- The state after `setResponse(r)` (lines 183-187). -/
def Host.answered (s : Host) (r : AppendLogResponse) : Host :=
  { s with
    promise := { s.promise with value := some r }
    cachingPromise := SharedPromise.fresh s.promiseSeq
    promiseSeq := s.promiseSeq + 1
    pendingReq := emptyTup
    requestOnGoing := false }

/-- The follower does not acknowledge beyond the target: a `SUCCEEDED` response handled
with status OK and nothing pending carries a `last_log_id` of at most `log_id_to_send`. -/
def Channel.withinTarget (c : Channel) : Action → Prop
  | .complete _ (.value resp) =>
    resp.error_code = ErrorCode.SUCCEEDED → c.host.checkStatus = ErrorCode.SUCCEEDED →
      c.host.pendingReq = emptyTup → resp.last_log_id ≤ c.host.logIdToSend
  | _ => True

/-- Every action of the run satisfies `G` in the state it is applied to. -/
def Channel.allowed (G : Channel → Action → Prop) (flags : Flags) (part : RaftPart) :
    Channel → List Action → Prop
  | _, [] => True
  | c, a :: rest =>
    G c a ∧
    match Channel.step flags part c a with
    | none => True
    | some c1 => Channel.allowed G flags part c1 rest

/-- At most one request or completion is under way, and none while no request is on
going. -/
def Channel.Exclusive (c : Channel) : Prop :=
  c.underWay ≤ 1 ∧ (c.host.requestOnGoing = false → c.underWay = 0)

/-- The bookkeeping of the pending request and the two promises is consistent. -/
structure Host.Good (s : Host) : Prop where
  target_nonneg : 0 ≤ s.logIdToSend
  no_waiters : s.pendingReq = emptyTup → s.cachingPromise.size = 0
  pending_ahead : s.pendingReq ≠ emptyTup → s.logIdToSend < s.pendingReq.2.1
  idle_clear : s.requestOnGoing = false → s.pendingReq = emptyTup
  caching_open : s.cachingPromise.value = none
  live_open : s.requestOnGoing = true → s.promise.value = none

/-- The baseline does not exceed the target, and no refused completion carries
`SUCCEEDED`. -/
def Channel.Bounded (c : Channel) : Prop :=
  c.host.lastLogIdSent ≤ c.host.logIdToSend ∧
  ∀ r ∈ c.refused, r.error_code ≠ ErrorCode.SUCCEEDED

/-- A channel state reached by some run from an idle state with a non-negative
`log_id_to_send` (the initial state is one). -/
def Channel.Reachable (flags : Flags) (part : RaftPart) (c : Channel) : Prop :=
  ∃ (s0 : Host) (acts : List Action), s0.Idle ∧ 0 ≤ s0.logIdToSend ∧
    Channel.run flags part (Channel.start s0) acts = some c

/-- The batch in the words of the specification: the longest prefix of the range whose
entries all have the term of its first entry, truncated to `batch` entries. -/
def singleTermBatch (batch : Nat) : List WalRecord → List WalRecord
  | [] => []
  | r :: rest => ((r :: rest).takeWhile (fun x => decide (x.logTerm = r.logTerm))).take batch

/-- The arguments of one call of `appendLogs`. -/
structure Submission where
  term : TermID
  logId : LogID
  committedLogId : LogID
  prevLogTerm : TermID
  prevLogId : LogID
  deriving DecidableEq, Repr

/-- The tuple `appendLogs` stores in `pendingReq_` for a submission. -/
def Submission.tuple (x : Submission) : PendingReq :=
  (x.term, x.logId, x.committedLogId, x.prevLogTerm, x.prevLogId)

/-- Calls of `appendLogs` one after the other, with nothing else in between; the futures
returned, in order. -/
def Host.submitAll (flags : Flags) (part : RaftPart) :
    Host → List Submission → Except Failure (Host × List AppendFuture)
  | s, [] => .ok (s, [])
  | s, x :: rest =>
    match s.appendLogs flags part x.term x.logId x.committedLogId x.prevLogTerm x.prevLogId with
    | .error e => .error e
    | .ok r =>
      match Host.submitAll flags part r.host rest with
      | .error e => .error e
      | .ok (s1, futures) => .ok (s1, r.ret :: futures)

/-! ## The vote pass-through -/

/-- Modelled from the spec: the wire type `AskForVoteRequest` of section 6 (generated
code, not among the sources).  The specification does not list its fields and the
channel never reads them; they are kept as one payload. -/
structure AskForVoteRequest where
  payload : List Int
  deriving DecidableEq, Repr

/-- Modelled from the spec: the wire type `AskForVoteResponse` of section 6, of which the
channel sets the error code only. -/
structure AskForVoteResponse where
  error_code : ErrorCode
  deriving DecidableEq, Repr

/-- The future `askForVote` returns: a ready response, or the future the transport
returns for the forwarded request. -/
inductive VoteFuture where
  | ready (resp : AskForVoteResponse)
  | ofTransport (req : AskForVoteRequest)
  deriving DecidableEq, Repr

/-- `Host::askForVote` (lines 68-83): the state after the call and the future returned. -/
def Host.askForVote (s : Host) (req : AskForVoteRequest) : Host × VoteFuture :=
  let res := s.checkStatus
  if res ≠ ErrorCode.SUCCEEDED then (s, .ready { error_code := res })
  else (s, .ofTransport req)

/-! ## More sample states -/

/-- An idle channel whose follower holds the log up to id 5 of term 2. -/
def idleAtFive : Host :=
  { Host.init with logIdToSend := 5, logTermToSend := 2, lastLogIdSent := 5,
                   lastLogTermSent := 2, committedLogId := 5 }

/-- The channel started idle at 5 after the straight append `(T=2, L=7, C=5, pT=2, pL=5)`
has been accepted and handed to the transport. -/
def straightSample : Channel :=
  (Channel.run smallFlags samplePart (Channel.start idleAtFive)
    [.appendLogs 2 7 5 2 5, .send 0, .handOff 0]).getD (Channel.start idleAtFive)

/-- The sample channel after the straight append has been fully delivered: idle again,
baseline and target both 7. -/
def deliveredSample : Channel :=
  (Channel.run smallFlags samplePart (Channel.start Host.init)
    [.appendLogs 2 7 5 2 5, .send 0, .handOff 0,
     .complete 0 (.value ⟨ErrorCode.SUCCEEDED, 2, 7, 2, 5⟩)]).getD (Channel.start Host.init)

/-- The sample channel after the request of the straight append has failed with a
transport exception: idle again, baseline 5, target 7. -/
def retrySample : Channel :=
  (Channel.run smallFlags samplePart (Channel.start Host.init)
    [.appendLogs 2 7 5 2 5, .send 0, .handOff 0, .complete 0 .exception]).getD (Channel.start Host.init)

/-- The sample channel stopped after the straight append has been accepted and before
its request is dispatched. -/
def stoppedBuilt : Channel :=
  (Channel.run smallFlags samplePart (Channel.start Host.init)
    [.appendLogs 2 7 5 2 5, .stop]).getD (Channel.start Host.init)

/-- The sample channel with a request in flight and three submissions coalesced behind
it, against a threshold of two. -/
def crowdedSample : Channel :=
  (Channel.run smallFlags samplePart (Channel.start Host.init)
    [.appendLogs 2 7 5 2 5, .send 0, .handOff 0, .appendLogs 2 9 5 2 7, .appendLogs 2 11 5 2 9,
     .appendLogs 2 13 5 2 11]).getD (Channel.start Host.init)

/-! ## The order of fulfilments -/

/-- The promises one step fulfils, in order, each with its identity and value: the
fulfilments of the continuation for a completion, none for every other step (and none
for a step that is not enabled or fails). -/
def Channel.events (flags : Flags) (part : RaftPart) (c : Channel) :
    Action → List (Nat × AppendLogResponse)
  | .complete i t =>
    match c.inFlight.get? i with
    | none => []
    | some _ =>
      match c.host.appendLogsInternal flags part t with
      | .error _ => []
      | .ok r => r.2.fulfilled
  | .completeRefused i =>
    match c.refused.get? i with
    | none => []
    | some resp =>
      match c.host.appendLogsInternal flags part (.value resp) with
      | .error _ => []
      | .ok r => r.2.fulfilled
  | _ => []

/-- The fulfilments of a run, oldest first. -/
def Channel.runLog (flags : Flags) (part : RaftPart) :
    Channel → List Action → List (Nat × AppendLogResponse)
  | _, [] => []
  | c, a :: rest =>
    match Channel.step flags part c a with
    | none => []
    | some c1 => Channel.events flags part c a ++ Channel.runLog flags part c1 rest

/-- The ghost identities are in order of construction: the live promise is older than the
caching promise, which is older than the next promise to be constructed. -/
def Host.FreshIds (s : Host) : Prop :=
  s.promise.id < s.cachingPromise.id ∧ s.cachingPromise.id < s.promiseSeq

/-- The identities `ids` fulfilled so far are increasing, all older than the caching
promise, and older than the live promise while a request is on going. -/
def Host.Fifo (s : Host) (ids : List Nat) : Prop :=
  s.FreshIds ∧ ids.Pairwise (fun a b => a < b) ∧
  (∀ id ∈ ids, id < s.cachingPromise.id) ∧
  (s.requestOnGoing = true → ∀ id ∈ ids, id < s.promise.id)

/-- No promise is left behind.  The promises tracked are the caching promise of the
start (`first`) and those constructed since (identities from `seq0` on): each of them has
been fulfilled (it is among `ids`), or still is the caching promise, or is the live
promise of a request on going, or has not been constructed yet; and the promises in the
two slots are tracked. -/
structure Host.Settled (first seq0 : Nat) (s : Host) (ids : List Nat) : Prop where
  seq_le : seq0 ≤ s.promiseSeq
  caching_tracked : s.cachingPromise.id = first ∨ seq0 ≤ s.cachingPromise.id
  live_tracked : s.requestOnGoing = true → (s.promise.id = first ∨ seq0 ≤ s.promise.id)
  complete : ∀ id, (id = first ∨ seq0 ≤ id) →
    id ∈ ids ∨ id = s.cachingPromise.id ∨
      (id = s.promise.id ∧ s.requestOnGoing = true) ∨ s.promiseSeq ≤ id

/-! ## The driver against an acknowledging follower -/

/-- The follower of the drain scenario: it answers every request with `SUCCEEDED` and a
`last_log_id` of the request's `last_log_id_sent` plus the number of entries sent. -/
def ackAll (req : AppendLogRequest) : AppendLogResponse :=
  { error_code := ErrorCode.SUCCEEDED
    current_term := req.current_term
    last_log_id := req.last_log_id_sent + req.log_str_list.length
    last_log_term := req.log_term
    committed_log_id := req.committed_log_id }

/-- The driver run to quiescence against `ackAll` with nothing interleaved: the check of
`sendAppendLogRequest`, the continuation on the answer, and again for the chained
request, at most `fuel` times.  The result is the final state, the requests handed to
the transport and the fulfilments, both in order; `none` when the fuel runs out or a
critical section fails. -/
def Host.drain (flags : Flags) (part : RaftPart) :
    Nat → Host → AppendLogRequest →
      Option (Host × List AppendLogRequest × List (Nat × AppendLogResponse))
  | 0, _, _ => none
  | fuel + 1, s, req =>
    let dispatched : List AppendLogRequest × AppendLogResponse :=
      match s.sendAppendLogRequest req with
      | .refused resp => ([], resp)
      | .toTransport r => ([r], ackAll r)
    match s.appendLogsInternal flags part (.value dispatched.2) with
    | .error _ => none
    | .ok (s1, comp) =>
      match comp.newReq with
      | none => some (s1, dispatched.1, comp.fulfilled)
      | some next =>
        match Host.drain flags part fuel s1 next with
        | none => none
        | some (s2, sent, done) => some (s2, dispatched.1 ++ sent, comp.fulfilled ++ done)

/-- A log that holds ids 1 to 20, all of term 2; the message of id `i` is `[i]`. -/
def numberedWal : Wal :=
  { record := fun i =>
      if 1 ≤ i ∧ i ≤ 20 then some { logTerm := 2, logSource := 0, logMsg := [i.toNat] }
      else none }

/-- A partition owning `numberedWal`. -/
def numberedPart : RaftPart :=
  { spaceId := 1, partitionId := 1, address := (0, 0), wal := numberedWal }

/-- The conditions under which the continuation adopts the pending request (lines
215-260): the response is `SUCCEEDED`, the status is OK, the response reaches the target
and `pending_req` is not the all-zero tuple. -/
def Host.Adopting (s : Host) (t : Host.Try) : Prop :=
  ∃ resp, t = .value resp ∧ resp.error_code = ErrorCode.SUCCEEDED ∧
    s.checkStatus = ErrorCode.SUCCEEDED ∧ s.logIdToSend ≤ resp.last_log_id ∧
    s.pendingReq ≠ emptyTup

/-- A pending request that is not the all-zero tuple has an observer on the caching
promise. -/
def Host.Waiting (s : Host) : Prop :=
  s.pendingReq ≠ emptyTup → 0 < s.cachingPromise.size

/-- Flags with a batch size of zero. -/
def zeroBatchFlags : Flags :=
  { max_appendlog_batch_size := 0, max_outstanding_requests := 2 }

/-! ## The submission gate -/

namespace Host

/-- C1, as amended: with status OK, no request on going, `L > log_id_to_send`,
`pT ≥ last_log_term_sent`, `pL ≥ last_log_id_sent` and a Wal iterator over `[pL + 1, L]`
that is valid, `appendLogs` returns with the five counters set from the submission,
`pending_req` empty, `request_on_going` true, the former caching promise (one observer
more, the returned future) as live promise, a fresh caching promise, and exactly the
request built from the new state. -/
theorem appendLogs_accept (flags : Flags) (part : RaftPart) (s : Host) (T : TermID)
    (L C : LogID) (pT : TermID) (pL : LogID)
    (hstopped : s.stopped = false) (hpaused : s.paused = false)
    (hidle : s.requestOnGoing = false) (hL : L > s.logIdToSend)
    (hT : pT ≥ s.lastLogTermSent) (hI : pL ≥ s.lastLogIdSent)
    (hwal : part.wal.iterator (pL + 1) L ≠ []) :
    ∃ r req, s.appendLogs flags part T L C pT pL = .ok r ∧
      r.host.logTermToSend = T ∧ r.host.logIdToSend = L ∧
      r.host.lastLogTermSent = pT ∧ r.host.lastLogIdSent = pL ∧
      r.host.committedLogId = C ∧ r.host.pendingReq = emptyTup ∧
      r.host.requestOnGoing = true ∧
      r.host.paused = false ∧ r.host.stopped = false ∧
      r.host.promise = s.cachingPromise.getFuture ∧
      r.host.promise.id = s.cachingPromise.id ∧
      r.host.promise.size = s.cachingPromise.size + 1 ∧
      r.host.cachingPromise = SharedPromise.fresh s.promiseSeq ∧
      r.host.cachingPromise.size = 0 ∧
      r.ret = .ofPromise r.host.promise.id ∧
      r.req = some req ∧
      prepareAppendLogRequest flags part r.host = .ok req := by
  have hne : ¬ (L = s.logIdToSend) := ne_of_gt hL
  have hge : ¬ (L < s.logIdToSend) := not_lt.mpr (le_of_lt hL)
  have hT1 : ¬ (pT < s.lastLogTermSent) := not_lt.mpr hT
  have hI1 : ¬ (pL < s.lastLogIdSent) := not_lt.mpr hI
  have hst : s.checkStatus = ErrorCode.SUCCEEDED := by simp [checkStatus, hstopped, hpaused]
  cases hit : part.wal.iterator (pL + 1) L with
  | nil => exact absurd hit hwal
  | cons r0 rest =>
    have hprep : ∃ req, prepareAppendLogRequest flags part (s.accepted T L C pT pL) = .ok req := by
      simp [prepareAppendLogRequest, accepted, hit]
    obtain ⟨req, hreq⟩ := hprep
    refine ⟨{ host := s.accepted T L C pT pL, ret := .ofPromise s.cachingPromise.id,
              req := some req }, req, ?_, ?_⟩
    · simp [appendLogs, hne, hge, hidle, hst, hT1, hI1, hreq]
    · exact ⟨rfl, rfl, rfl, rfl, rfl, rfl, rfl, hpaused, hstopped, rfl, rfl, rfl, rfl, rfl,
        rfl, rfl, hreq⟩

/-- Witness of `appendLogs_accept`: the straight append `(T=2, L=7, C=5, pT=2, pL=5)` on
the initial state. -/
theorem appendLogs_accept_witness :
    ∃ r req, Host.init.appendLogs smallFlags samplePart 2 7 5 2 5 = .ok r ∧
      r.host.logTermToSend = 2 ∧ r.host.logIdToSend = 7 ∧
      r.host.lastLogTermSent = 2 ∧ r.host.lastLogIdSent = 5 ∧
      r.host.committedLogId = 5 ∧ r.host.pendingReq = emptyTup ∧
      r.host.requestOnGoing = true ∧
      r.host.paused = false ∧ r.host.stopped = false ∧
      r.host.promise = Host.init.cachingPromise.getFuture ∧
      r.host.promise.id = Host.init.cachingPromise.id ∧
      r.host.promise.size = Host.init.cachingPromise.size + 1 ∧
      r.host.cachingPromise = SharedPromise.fresh Host.init.promiseSeq ∧
      r.host.cachingPromise.size = 0 ∧
      r.ret = .ofPromise r.host.promise.id ∧
      r.req = some req ∧
      prepareAppendLogRequest smallFlags samplePart r.host = .ok req :=
  appendLogs_accept smallFlags samplePart Host.init 2 7 5 2 5 rfl rfl rfl (by decide)
    (by decide) (by decide) (by decide)

/-- C1 as stated fails: on the initial state the submission `(T=2, L=20, C=0, pT=0, pL=0)`
meets every condition of the accept row, but the log no longer holds id 1 (a follower
that would need a snapshot), so the iterator over `[1, 20]` is not valid, building the
request is fatal and no request is dispatched. -/
theorem appendLogs_accept_counterexample :
    Host.init.stopped = false ∧ Host.init.paused = false ∧
    Host.init.requestOnGoing = false ∧ (20 : LogID) > Host.init.logIdToSend ∧
    (0 : TermID) ≥ Host.init.lastLogTermSent ∧ (0 : LogID) ≥ Host.init.lastLogIdSent ∧
    Host.init.appendLogs Flags.default trimmedPart 2 20 0 0 0 = .error Failure.fatal ∧
    Submitted.request (Host.init.appendLogs Flags.default trimmedPart 2 20 0 0 0) = none := by
  refine ⟨rfl, rfl, rfl, by decide, by decide, by decide, rfl, rfl⟩

/-- C2: with status OK, a request on going, `L > log_id_to_send` and at most
`max_outstanding_requests` observers on the caching promise, `appendLogs` overwrites
`pending_req` with the submission, hands out a future of the caching promise (one observer
more) and changes nothing else; no request is built. -/
theorem appendLogs_coalesce (flags : Flags) (part : RaftPart) (s : Host) (T : TermID)
    (L C : LogID) (pT : TermID) (pL : LogID)
    (hstopped : s.stopped = false) (hpaused : s.paused = false)
    (hbusy : s.requestOnGoing = true) (hL : L > s.logIdToSend)
    (hroom : s.cachingPromise.size ≤ flags.max_outstanding_requests) :
    s.appendLogs flags part T L C pT pL =
      .ok { host := { s with
                      pendingReq := (T, L, C, pT, pL)
                      cachingPromise := { s.cachingPromise with
                                          size := s.cachingPromise.size + 1 } }
            ret := .ofPromise s.cachingPromise.id
            req := none } := by
  have hne : ¬ (L = s.logIdToSend) := ne_of_gt hL
  have hge : ¬ (L < s.logIdToSend) := not_lt.mpr (le_of_lt hL)
  have hst : s.checkStatus = ErrorCode.SUCCEEDED := by simp [checkStatus, hstopped, hpaused]
  simp [appendLogs, hne, hge, hbusy, hst, hroom, SharedPromise.getFuture]

/-- Witness of `appendLogs_coalesce`: `(L = 11)` submitted while a request for `L = 7` is on
going and `(L = 9)` is already pending with one waiter. -/
theorem appendLogs_coalesce_witness :
    Host.appendLogs smallFlags samplePart
        { Host.init with requestOnGoing := true, logIdToSend := 7,
                         pendingReq := (2, 9, 5, 2, 7),
                         cachingPromise := { id := 1, size := 1, value := none } }
        2 11 5 2 9 =
      .ok { host := { Host.init with requestOnGoing := true, logIdToSend := 7,
                                     pendingReq := (2, 11, 5, 2, 9),
                                     cachingPromise := { id := 1, size := 2, value := none } }
            ret := .ofPromise 1
            req := none } :=
  appendLogs_coalesce smallFlags samplePart
    { Host.init with requestOnGoing := true, logIdToSend := 7,
                     pendingReq := (2, 9, 5, 2, 7),
                     cachingPromise := { id := 1, size := 1, value := none } }
    2 11 5 2 9 rfl rfl rfl (by decide) (by decide)

/-- C3: with status OK, a request on going and `L > log_id_to_send`, `appendLogs` returns,
and what it returns is an immediate `E_TOO_MANY_REQUESTS` exactly when the caching promise
already has more than `max_outstanding_requests` observers; in that case the state
(`pending_req` and the observers of the caching promise included) is untouched and no
request is built. -/
theorem appendLogs_backpressure (flags : Flags) (part : RaftPart) (s : Host) (T : TermID)
    (L C : LogID) (pT : TermID) (pL : LogID)
    (hstopped : s.stopped = false) (hpaused : s.paused = false)
    (hbusy : s.requestOnGoing = true) (hL : L > s.logIdToSend) :
    ∃ r, s.appendLogs flags part T L C pT pL = .ok r ∧
      (r.ret.immediateCode = some ErrorCode.E_TOO_MANY_REQUESTS ↔
        flags.max_outstanding_requests < s.cachingPromise.size) ∧
      (flags.max_outstanding_requests < s.cachingPromise.size →
        r.ret = .ready (AppendLogResponse.withCode ErrorCode.E_TOO_MANY_REQUESTS) ∧
        r.host = s ∧ r.host.pendingReq = s.pendingReq ∧
        r.host.cachingPromise.size = s.cachingPromise.size ∧ r.req = none) := by
  have hne : ¬ (L = s.logIdToSend) := ne_of_gt hL
  have hge : ¬ (L < s.logIdToSend) := not_lt.mpr (le_of_lt hL)
  have hst : s.checkStatus = ErrorCode.SUCCEEDED := by simp [checkStatus, hstopped, hpaused]
  by_cases hroom : s.cachingPromise.size ≤ flags.max_outstanding_requests
  · refine ⟨{ host := { s with
                        pendingReq := (T, L, C, pT, pL)
                        cachingPromise := s.cachingPromise.getFuture }
              ret := .ofPromise s.cachingPromise.id
              req := none }, ?_, ?_, ?_⟩
    · simp [appendLogs, hne, hge, hbusy, hst, hroom]
    · simp [AppendFuture.immediateCode, hroom]
    · intro h
      exact absurd hroom (not_le.mpr h)
  · refine ⟨{ host := s
              ret := .ready (AppendLogResponse.withCode ErrorCode.E_TOO_MANY_REQUESTS)
              req := none }, ?_, ?_, ?_⟩
    · simp [appendLogs, hne, hge, hbusy, hst, hroom]
    · simp [AppendFuture.immediateCode, AppendLogResponse.withCode, not_le.mp hroom]
    · intro _
      exact ⟨rfl, rfl, rfl, rfl, rfl⟩

/-- Witness of `appendLogs_backpressure`: three waiters against a threshold of two. -/
theorem appendLogs_backpressure_witness :
    ∃ r, Host.appendLogs smallFlags samplePart
        { Host.init with requestOnGoing := true, logIdToSend := 7,
                         cachingPromise := { id := 1, size := 3, value := none } }
        2 9 5 2 7 = .ok r ∧
      (r.ret.immediateCode = some ErrorCode.E_TOO_MANY_REQUESTS ↔
        smallFlags.max_outstanding_requests < 3) ∧
      (smallFlags.max_outstanding_requests < 3 →
        r.ret = .ready (AppendLogResponse.withCode ErrorCode.E_TOO_MANY_REQUESTS) ∧
        r.host = { Host.init with requestOnGoing := true, logIdToSend := 7,
                                  cachingPromise := { id := 1, size := 3, value := none } } ∧
        r.host.pendingReq = emptyTup ∧
        r.host.cachingPromise.size = 3 ∧ r.req = none) :=
  appendLogs_backpressure smallFlags samplePart
    { Host.init with requestOnGoing := true, logIdToSend := 7,
                     cachingPromise := { id := 1, size := 3, value := none } }
    2 9 5 2 7 rfl rfl rfl (by decide)

/-- C4: a submission with `L == log_id_to_send` while a request is on going, and a
submission with `L < log_id_to_send`, return an immediate `SUCCEEDED` in every state
(whatever the status), build no request and leave the whole state as it was. -/
theorem appendLogs_immediate_success (flags : Flags) (part : RaftPart) (s : Host)
    (T : TermID) (L C : LogID) (pT : TermID) (pL : LogID)
    (h : (L = s.logIdToSend ∧ s.requestOnGoing = true) ∨ L < s.logIdToSend) :
    s.appendLogs flags part T L C pT pL =
      .ok { host := s, ret := .ready (AppendLogResponse.withCode ErrorCode.SUCCEEDED),
            req := none } := by
  rcases h with ⟨h1, h2⟩ | h
  · simp [appendLogs, h1, h2]
  · have hne : ¬ (L = s.logIdToSend) := ne_of_lt h
    simp [appendLogs, hne, h]

/-- Witness of `appendLogs_immediate_success`: the heartbeat `L = 10` against
`log_id_to_send = 10` with a request on going. -/
theorem appendLogs_immediate_success_witness :
    Host.appendLogs smallFlags samplePart
        { Host.init with requestOnGoing := true, logIdToSend := 10 } 2 10 5 2 5 =
      .ok { host := { Host.init with requestOnGoing := true, logIdToSend := 10 }
            ret := .ready (AppendLogResponse.withCode ErrorCode.SUCCEEDED)
            req := none } :=
  appendLogs_immediate_success smallFlags samplePart
    { Host.init with requestOnGoing := true, logIdToSend := 10 } 2 10 5 2 5
    (Or.inl ⟨rfl, rfl⟩)

/-- C5, as amended: a submission that is neither stale (`L < log_id_to_send`) nor a
re-send during an on-going request (`L == log_id_to_send` with `request_on_going`)
returns at once `E_HOST_STOPPED` on a stopped channel and `E_NOT_A_LEADER` on a paused,
not stopped channel, with the state untouched and no request built. -/
theorem appendLogs_status_fail_fast (flags : Flags) (part : RaftPart) (s : Host)
    (T : TermID) (L C : LogID) (pT : TermID) (pL : LogID)
    (hresend : ¬ (L = s.logIdToSend ∧ s.requestOnGoing = true))
    (hstale : ¬ (L < s.logIdToSend)) :
    (s.stopped = true →
      s.appendLogs flags part T L C pT pL =
        .ok { host := s, ret := .ready (AppendLogResponse.withCode ErrorCode.E_HOST_STOPPED),
              req := none }) ∧
    (s.stopped = false → s.paused = true →
      s.appendLogs flags part T L C pT pL =
        .ok { host := s, ret := .ready (AppendLogResponse.withCode ErrorCode.E_NOT_A_LEADER),
              req := none }) := by
  constructor
  · intro hs
    have hst : s.checkStatus = ErrorCode.E_HOST_STOPPED := by simp [checkStatus, hs]
    simp [appendLogs, hresend, hstale, hst]
  · intro hs hp
    have hst : s.checkStatus = ErrorCode.E_NOT_A_LEADER := by simp [checkStatus, hs, hp]
    simp [appendLogs, hresend, hstale, hst]

/-- Witness of `appendLogs_status_fail_fast`: a new submission to the stopped, respectively
paused, initial channel. -/
theorem appendLogs_status_fail_fast_witness :
    Host.init.stop.appendLogs smallFlags samplePart 2 7 5 2 5 =
      .ok { host := Host.init.stop
            ret := .ready (AppendLogResponse.withCode ErrorCode.E_HOST_STOPPED)
            req := none } ∧
    Host.init.pause.appendLogs smallFlags samplePart 2 7 5 2 5 =
      .ok { host := Host.init.pause
            ret := .ready (AppendLogResponse.withCode ErrorCode.E_NOT_A_LEADER)
            req := none } :=
  ⟨(appendLogs_status_fail_fast smallFlags samplePart Host.init.stop 2 7 5 2 5 (by decide)
      (by decide)).1 rfl,
    (appendLogs_status_fail_fast smallFlags samplePart Host.init.pause 2 7 5 2 5 (by decide)
      (by decide)).2 rfl rfl⟩

/-- C6: whenever `appendLogs` returns an immediate response carrying `E_HOST_STOPPED`,
`E_NOT_A_LEADER` or `E_TOO_MANY_REQUESTS`, the state after the call is the state before
it and no request is built. -/
theorem appendLogs_refused_atomic (flags : Flags) (part : RaftPart) (s : Host)
    (T : TermID) (L C : LogID) (pT : TermID) (pL : LogID) (r : Submitted)
    (resp : AppendLogResponse)
    (hcall : s.appendLogs flags part T L C pT pL = .ok r)
    (hret : r.ret = .ready resp)
    (_hcode : resp.error_code = ErrorCode.E_HOST_STOPPED ∨
      resp.error_code = ErrorCode.E_NOT_A_LEADER ∨
      resp.error_code = ErrorCode.E_TOO_MANY_REQUESTS) :
    r.host = s ∧ r.req = none := by
  unfold appendLogs at hcall
  simp only at hcall
  split_ifs at hcall
  all_goals first
    | (cases hcall; exact ⟨rfl, rfl⟩)
    | (cases hcall; simp at hret)
    | skip
  split at hcall
  · cases hcall
  · cases hcall
    simp at hret

/-- Witness of `appendLogs_refused_atomic`: a new submission to the stopped initial
channel is refused with `E_HOST_STOPPED`. -/
theorem appendLogs_refused_atomic_witness :
    ∃ r, Host.init.stop.appendLogs smallFlags samplePart 2 7 5 2 5 = .ok r ∧
      r.ret = .ready (AppendLogResponse.withCode ErrorCode.E_HOST_STOPPED) ∧
      r.host = Host.init.stop ∧ r.req = none :=
  ⟨_, rfl, rfl,
    appendLogs_refused_atomic smallFlags samplePart Host.init.stop 2 7 5 2 5 _
      (AppendLogResponse.withCode ErrorCode.E_HOST_STOPPED) rfl rfl (Or.inl rfl)⟩

/-- C5 as stated fails: after an accepted submission and `stop`, the channel is stopped,
yet the re-send `L = 7` and the stale `L = 3` both return an immediate `SUCCEEDED`. -/
theorem appendLogs_status_fail_fast_counterexample :
    ∃ c, Channel.run smallFlags samplePart (Channel.start Host.init)
        [.appendLogs 2 7 5 2 5, .stop] = some c ∧
      c.host.stopped = true ∧
      c.host.appendLogs smallFlags samplePart 2 7 5 2 5 =
        .ok { host := c.host, ret := .ready (AppendLogResponse.withCode ErrorCode.SUCCEEDED),
              req := none } ∧
      c.host.appendLogs smallFlags samplePart 2 3 5 2 2 =
        .ok { host := c.host, ret := .ready (AppendLogResponse.withCode ErrorCode.SUCCEEDED),
              req := none } :=
  ⟨_, rfl, rfl, rfl, rfl⟩

/-! ## Shapes of the results -/

/-- The ways `appendLogs` can return: an immediate response with the state untouched, the
coalesce branch, or the accept branch. -/
theorem appendLogs_cases {flags : Flags} {part : RaftPart} {s : Host} {T : TermID}
    {L C : LogID} {pT : TermID} {pL : LogID} {r : Submitted}
    (h : s.appendLogs flags part T L C pT pL = .ok r) :
    (r.host = s ∧ r.req = none ∧ ∃ resp, r.ret = .ready resp) ∨
    (s.requestOnGoing = true ∧ s.checkStatus = ErrorCode.SUCCEEDED ∧ s.logIdToSend < L ∧
      s.cachingPromise.size ≤ flags.max_outstanding_requests ∧
      r.host = { s with pendingReq := (T, L, C, pT, pL)
                        cachingPromise := s.cachingPromise.getFuture } ∧
      r.req = none ∧ r.ret = .ofPromise s.cachingPromise.id) ∨
    (s.requestOnGoing = false ∧ s.checkStatus = ErrorCode.SUCCEEDED ∧ s.logIdToSend ≤ L ∧
      s.lastLogTermSent ≤ pT ∧ s.lastLogIdSent ≤ pL ∧
      r.host = s.accepted T L C pT pL ∧ r.ret = .ofPromise s.cachingPromise.id ∧
      ∃ req, r.req = some req ∧ prepareAppendLogRequest flags part r.host = .ok req) := by
  unfold appendLogs at h
  simp only at h
  split_ifs at h with h1 h2 h3 h4 h5 h6 h7
  · cases h; exact Or.inl ⟨rfl, rfl, _, rfl⟩
  · cases h; exact Or.inl ⟨rfl, rfl, _, rfl⟩
  · cases h
    refine Or.inr (Or.inl ⟨h3.1, h3.2, ?_, h4, rfl, rfl, rfl⟩)
    rcases lt_trichotomy L s.logIdToSend with hlt | heq | hgt
    · exact absurd ⟨ne_of_lt hlt, hlt⟩ h2
    · exact absurd ⟨heq, h3.1⟩ h1
    · exact hgt
  · cases h; exact Or.inl ⟨rfl, rfl, _, rfl⟩
  · cases h; exact Or.inl ⟨rfl, rfl, _, rfl⟩
  · split at h
    · cases h
    · rename_i req hreq
      cases h
      have hst : s.checkStatus = ErrorCode.SUCCEEDED := not_not.mp h5
      have hidle : s.requestOnGoing = false := by
        cases hb : s.requestOnGoing
        · rfl
        · exact absurd ⟨hb, hst⟩ h3
      refine Or.inr (Or.inr ⟨hidle, hst, ?_, not_lt.mp h6, not_lt.mp h7, rfl, rfl, req, rfl,
        hreq⟩)
      rcases lt_trichotomy L s.logIdToSend with hlt | heq | hgt
      · exact absurd ⟨ne_of_lt hlt, hlt⟩ h2
      · exact le_of_eq heq.symm
      · exact le_of_lt hgt

/-- A terminal path returns only when both promises were unfulfilled, and then the state is
the one `setResponse` installs. -/
theorem quiesce_cases {s : Host} {r : AppendLogResponse} {s' : Host} {c : Completion}
    (h : s.quiesce r = .ok (s', c)) :
    s.promise.value = none ∧ s.cachingPromise.value = none ∧ s' = s.answered r ∧
    c = { ret := r, newReq := none, notified := true,
          fulfilled := [(s.promise.id, r), (s.cachingPromise.id, r)] } := by
  unfold quiesce setResponse SharedPromise.setValue at h
  cases hp : s.promise.value <;> cases hc : s.cachingPromise.value <;>
    simp [hp, hc] at h
  obtain ⟨h1, h2⟩ := h
  subst h1 h2
  exact ⟨rfl, rfl, rfl, rfl⟩

/-- Building a request reads the five counters only. -/
theorem prepareAppendLogRequest_congr (flags : Flags) (part : RaftPart) (s s' : Host)
    (h1 : s'.logTermToSend = s.logTermToSend) (h2 : s'.logIdToSend = s.logIdToSend)
    (h3 : s'.lastLogTermSent = s.lastLogTermSent) (h4 : s'.lastLogIdSent = s.lastLogIdSent)
    (h5 : s'.committedLogId = s.committedLogId) :
    prepareAppendLogRequest flags part s' = prepareAppendLogRequest flags part s := by
  unfold prepareAppendLogRequest
  rw [h1, h2, h3, h4, h5]

/-- The ways the continuation can return: quiesced through `setResponse`, chained from
the response's baseline (more to send, or gap), fully delivered with nothing pending, or
fully delivered with the pending request adopted. -/
theorem appendLogsInternal_cases {flags : Flags} {part : RaftPart} {s : Host} {t : Try}
    {s' : Host} {c : Completion}
    (h : s.appendLogsInternal flags part t = .ok (s', c)) :
    (∃ r, s.quiesce r = .ok (s', c) ∧
      (t = .exception ∧ r = AppendLogResponse.withCode ErrorCode.E_EXCEPTION ∨
       (s.checkStatus ≠ ErrorCode.SUCCEEDED ∧ r = AppendLogResponse.withCode s.checkStatus ∧
         ∃ resp, t = .value resp ∧ (resp.error_code = ErrorCode.SUCCEEDED ∨
           resp.error_code = ErrorCode.E_LOG_GAP)) ∨
       (t = .value r ∧ r.error_code ≠ ErrorCode.SUCCEEDED ∧
         r.error_code ≠ ErrorCode.E_LOG_GAP))) ∨
    (s.checkStatus = ErrorCode.SUCCEEDED ∧ ∃ resp req, t = .value resp ∧
      ((resp.error_code = ErrorCode.SUCCEEDED ∧ resp.last_log_id < s.logIdToSend) ∨
        resp.error_code = ErrorCode.E_LOG_GAP) ∧
      s' = s.rebased resp ∧ prepareAppendLogRequest flags part s' = .ok req ∧
      c = { ret := resp, newReq := some req, notified := false, fulfilled := [] }) ∨
    (s.checkStatus = ErrorCode.SUCCEEDED ∧ ∃ resp, t = .value resp ∧
      resp.error_code = ErrorCode.SUCCEEDED ∧ s.logIdToSend ≤ resp.last_log_id ∧
      s.promise.value = none ∧ s.pendingReq = emptyTup ∧
      s' = { s.delivered resp with requestOnGoing := false } ∧
      c = { ret := resp, newReq := none, notified := true,
            fulfilled := [(s.promise.id, resp)] }) ∨
    (s.checkStatus = ErrorCode.SUCCEEDED ∧ ∃ resp req, t = .value resp ∧
      resp.error_code = ErrorCode.SUCCEEDED ∧ s.logIdToSend ≤ resp.last_log_id ∧
      s.promise.value = none ∧ s.pendingReq ≠ emptyTup ∧
      s' = (s.delivered resp).adopted ∧ prepareAppendLogRequest flags part s' = .ok req ∧
      c = { ret := resp, newReq := some req, notified := false,
            fulfilled := [(s.promise.id, resp)] }) := by
  unfold appendLogsInternal at h
  cases t with
  | exception => exact Or.inl ⟨_, h, Or.inl ⟨rfl, rfl⟩⟩
  | value resp =>
    simp only at h
    split at h
    · -- SUCCEEDED
      rename_i hcode
      unfold onSucceeded at h
      simp only at h
      split_ifs at h with hst hmore
      · exact Or.inl ⟨_, h, Or.inr (Or.inl ⟨hst, rfl, resp, rfl, Or.inl hcode⟩)⟩
      · split at h
        · cases h
        · rename_i req hreq
          cases h
          exact Or.inr (Or.inl ⟨not_not.mp hst, resp, req, rfl, Or.inl ⟨hcode, hmore⟩, rfl,
            hreq, rfl⟩)
      · split at h
        · cases h
        · rename_i p hp
          simp only [SharedPromise.setValue, rebased] at hp
          split_ifs at hp with hv
          cases hp
          have hval : s.promise.value = none := by
            cases hq : s.promise.value
            · rfl
            · simp [hq] at hv
          split_ifs at h with hno
          · cases h
            have hpend : s.pendingReq = emptyTup := by
              simpa [noRequest, rebased] using hno
            exact Or.inr (Or.inr (Or.inl ⟨not_not.mp hst, resp, rfl, hcode, not_lt.mp hmore,
              hval, hpend, rfl, rfl⟩))
          · have hpend : s.pendingReq ≠ emptyTup := by
              simpa [noRequest, rebased] using hno
            split at h
            · cases h
            · rename_i req hreq
              cases h
              refine Or.inr (Or.inr (Or.inr ⟨not_not.mp hst, resp, req, rfl, hcode,
                not_lt.mp hmore, hval, hpend, rfl, ?_, rfl⟩))
              rw [← hreq]
              exact prepareAppendLogRequest_congr flags part _ _ rfl rfl rfl rfl rfl
    · -- E_LOG_GAP
      rename_i hcode
      unfold onLogGap at h
      simp only at h
      split_ifs at h with hst
      · exact Or.inl ⟨_, h, Or.inr (Or.inl ⟨hst, rfl, resp, rfl, Or.inr hcode⟩)⟩
      · split at h
        · cases h
        · rename_i req hreq
          cases h
          exact Or.inr (Or.inl ⟨not_not.mp hst, resp, req, rfl, Or.inr hcode, rfl, hreq, rfl⟩)
    · rename_i h1 h2
      exact Or.inl ⟨_, h, Or.inr (Or.inr ⟨rfl, h1, h2⟩)⟩

/-- The continuation either chains a request and leaves `request_on_going` as it was, or
chains none and leaves it false. -/
theorem appendLogsInternal_onGoing {flags : Flags} {part : RaftPart} {s : Host} {t : Try}
    {s' : Host} {c : Completion}
    (h : s.appendLogsInternal flags part t = .ok (s', c)) :
    (c.newReq = none ∧ s'.requestOnGoing = false) ∨
    (∃ req, c.newReq = some req ∧ s'.requestOnGoing = s.requestOnGoing) := by
  rcases appendLogsInternal_cases h with ⟨r, hq, _⟩ | ⟨_, resp, req, _, _, hs, _, hc⟩ |
    ⟨_, resp, _, _, _, _, _, hs, hc⟩ | ⟨_, resp, req, _, _, _, _, _, hs, _, hc⟩
  · obtain ⟨_, _, hs, hc⟩ := quiesce_cases hq
    subst hs hc
    exact Or.inl ⟨rfl, rfl⟩
  · subst hs hc
    exact Or.inr ⟨req, rfl, rfl⟩
  · subst hs hc
    exact Or.inl ⟨rfl, rfl⟩
  · subst hs hc
    exact Or.inr ⟨req, rfl, rfl⟩

/-- The continuation does not touch `paused` and `stopped`. -/
theorem appendLogsInternal_status {flags : Flags} {part : RaftPart} {s : Host} {t : Try}
    {s' : Host} {c : Completion}
    (h : s.appendLogsInternal flags part t = .ok (s', c)) :
    s'.stopped = s.stopped ∧ s'.paused = s.paused := by
  rcases appendLogsInternal_cases h with ⟨r, hq, _⟩ | ⟨_, resp, req, _, _, hs, _, hc⟩ |
    ⟨_, resp, _, _, _, _, _, hs, hc⟩ | ⟨_, resp, req, _, _, _, _, _, hs, _, hc⟩
  · obtain ⟨_, _, hs, hc⟩ := quiesce_cases hq
    subst hs hc
    exact ⟨rfl, rfl⟩
  all_goals
    subst hs hc
    exact ⟨rfl, rfl⟩

/-- A request is chained only with status OK. -/
theorem appendLogsInternal_chained_status {flags : Flags} {part : RaftPart} {s : Host}
    {t : Try} {s' : Host} {c : Completion} {req : AppendLogRequest}
    (h : s.appendLogsInternal flags part t = .ok (s', c)) (hreq : c.newReq = some req) :
    s.checkStatus = ErrorCode.SUCCEEDED := by
  rcases appendLogsInternal_cases h with ⟨r, hq, _⟩ | ⟨hst, _⟩ |
    ⟨_, resp, _, _, _, _, _, hs, hc⟩ | ⟨hst, _⟩
  · obtain ⟨_, _, hs, hc⟩ := quiesce_cases hq
    subst hc
    cases hreq
  · exact hst
  · subst hc
    cases hreq
  · exact hst

/-- A request can be built only over a range that starts at or below its end. -/
theorem prepareAppendLogRequest_range {flags : Flags} {part : RaftPart} {s : Host}
    {req : AppendLogRequest} (h : prepareAppendLogRequest flags part s = .ok req) :
    s.lastLogIdSent < s.logIdToSend := by
  unfold prepareAppendLogRequest Wal.iterator at h
  by_contra hge
  have hz : (s.logIdToSend + 1 - (s.lastLogIdSent + 1)).toNat = 0 := by
    have hle : s.logIdToSend ≤ s.lastLogIdSent := not_lt.mp hge
    apply Int.toNat_eq_zero.mpr
    simp only [LogID] at *
    omega
  rw [hz] at h
  simp [Wal.scan] at h

/-- A tuple whose log id is positive is not the all-zero tuple. -/
theorem ne_emptyTup_of_pos {T : TermID} {L C : LogID} {pT : TermID} {pL : LogID}
    (h : 0 < L) : ((T, L, C, pT, pL) : PendingReq) ≠ emptyTup := by
  intro heq
  have h2 : L = 0 := congrArg (fun t : PendingReq => t.2.1) heq
  rw [h2] at h
  exact absurd h (lt_irrefl _)

/-- The submission gate keeps the bookkeeping consistent. -/
theorem good_appendLogs {flags : Flags} {part : RaftPart} {s : Host} {T : TermID}
    {L C : LogID} {pT : TermID} {pL : LogID} {r : Submitted} (hg : s.Good)
    (h : s.appendLogs flags part T L C pT pL = .ok r) : r.host.Good := by
  rcases appendLogs_cases h with ⟨hh, _⟩ | ⟨hbusy, _, hL, _, hh, _⟩ |
    ⟨_, _, hL, _, _, hh, _⟩
  · rw [hh]; exact hg
  · rw [hh]
    have hpos : 0 < L := lt_of_le_of_lt hg.target_nonneg hL
    exact { target_nonneg := hg.target_nonneg
            no_waiters := fun he => absurd he (ne_emptyTup_of_pos hpos)
            pending_ahead := fun _ => hL
            idle_clear := fun hf => by simp [hbusy] at hf
            caching_open := hg.caching_open
            live_open := hg.live_open }
  · rw [hh]
    exact { target_nonneg := le_trans hg.target_nonneg hL
            no_waiters := fun _ => rfl
            pending_ahead := fun hne => absurd rfl hne
            idle_clear := fun _ => rfl
            caching_open := rfl
            live_open := fun _ => hg.caching_open }

/-- The continuation keeps the bookkeeping consistent. -/
theorem good_appendLogsInternal {flags : Flags} {part : RaftPart} {s : Host} {t : Try}
    {s' : Host} {c : Completion} (hg : s.Good)
    (h : s.appendLogsInternal flags part t = .ok (s', c)) : s'.Good := by
  rcases appendLogsInternal_cases h with ⟨r, hq, _⟩ | ⟨_, resp, req, _, _, hs, _, _⟩ |
    ⟨_, resp, _, _, _, _, hpend, hs, _⟩ | ⟨_, resp, req, _, _, _, _, hpend, hs, _, _⟩
  · obtain ⟨_, _, hs, _⟩ := quiesce_cases hq
    subst hs
    exact { target_nonneg := hg.target_nonneg
            no_waiters := fun _ => rfl
            pending_ahead := fun hne => absurd rfl hne
            idle_clear := fun _ => rfl
            caching_open := rfl
            live_open := fun hf => by simp [answered] at hf }
  · subst hs
    exact { target_nonneg := hg.target_nonneg
            no_waiters := hg.no_waiters
            pending_ahead := hg.pending_ahead
            idle_clear := hg.idle_clear
            caching_open := hg.caching_open
            live_open := hg.live_open }
  · subst hs
    exact { target_nonneg := hg.target_nonneg
            no_waiters := hg.no_waiters
            pending_ahead := hg.pending_ahead
            idle_clear := fun _ => hpend
            caching_open := hg.caching_open
            live_open := fun hf => by simp at hf }
  · subst hs
    exact { target_nonneg := le_of_lt (lt_of_le_of_lt hg.target_nonneg (hg.pending_ahead hpend))
            no_waiters := fun _ => rfl
            pending_ahead := fun hne => absurd rfl hne
            idle_clear := fun _ => rfl
            caching_open := rfl
            live_open := fun _ => hg.caching_open }

/-- With both promises unfulfilled the continuation never ends by the exception of
`setValue`: it returns, or building the follow-up request is fatal. -/
theorem appendLogsInternal_no_throw (flags : Flags) (part : RaftPart) (s : Host) (t : Try)
    (hlive : s.promise.value = none) (hcaching : s.cachingPromise.value = none) :
    s.appendLogsInternal flags part t ≠ .error Failure.promiseAlreadySatisfied := by
  have hq : ∀ r, ∃ x, s.quiesce r = .ok x := by
    intro r
    simp [quiesce, setResponse, SharedPromise.setValue, hlive, hcaching]
  have hprep : ∀ s1 : Host,
      prepareAppendLogRequest flags part s1 = .error Failure.promiseAlreadySatisfied →
      False := by
    intro s1 h
    unfold prepareAppendLogRequest at h
    split at h <;> cases h
  intro h
  unfold appendLogsInternal at h
  cases t with
  | exception =>
    obtain ⟨x, hx⟩ := hq (AppendLogResponse.withCode ErrorCode.E_EXCEPTION)
    simp only at h
    rw [hx] at h
    cases h
  | value resp =>
    simp only at h
    split at h
    · unfold onSucceeded at h
      simp only at h
      split_ifs at h with hst hmore
      · obtain ⟨x, hx⟩ := hq (AppendLogResponse.withCode s.checkStatus)
        rw [hx] at h
        cases h
      · split at h
        · rename_i e he
          cases h
          exact hprep _ he
        · cases h
      · simp only [SharedPromise.setValue, rebased, hlive] at h
        simp only [Option.isSome_none, Bool.false_eq_true, if_false] at h
        split_ifs at h with hno
        split at h
        · rename_i e he
          cases h
          exact hprep _ he
        · cases h
    · unfold onLogGap at h
      simp only at h
      split_ifs at h with hst
      · obtain ⟨x, hx⟩ := hq (AppendLogResponse.withCode s.checkStatus)
        rw [hx] at h
        cases h
      · split at h
        · rename_i e he
          cases h
          exact hprep _ he
        · cases h
    · obtain ⟨x, hx⟩ := hq resp
      rw [hx] at h
      cases h

end Host

namespace Channel

/-- Erasing an element that is there shortens the list by one. -/
theorem length_eraseIdx_of_get? {α : Type} {l : List α} {i : Nat} {a : α}
    (h : l.get? i = some a) : (l.eraseIdx i).length + 1 = l.length := by
  obtain ⟨hi, _⟩ := List.get?_eq_some.mp h
  rw [List.length_eraseIdx_of_lt hi]
  omega

/-- Every step keeps the pipeline exclusive. -/
theorem step_exclusive {flags : Flags} {part : RaftPart} {c c' : Channel} {a : Action}
    (hinv : c.Exclusive) (hstep : step flags part c a = some c') : c'.Exclusive := by
  obtain ⟨h1, h2⟩ := hinv
  cases a with
  | appendLogs T L C pT pL =>
    simp only [step] at hstep
    split at hstep
    · cases hstep
    · rename_i r hr
      cases hstep
      rcases Host.appendLogs_cases hr with ⟨hh, hq, _⟩ | ⟨hbusy, _, _, _, hh, hq, _⟩ |
        ⟨hidle, _, _, _, _, hh, _, req, hq, _⟩
      · simp only [Exclusive, underWay, hh, hq, Option.toList, List.append_nil] at *
        exact ⟨h1, h2⟩
      · simp only [Exclusive, underWay, hh, hq, Option.toList, List.append_nil] at *
        exact ⟨h1, by simp [hbusy]⟩
      · have h0 := h2 hidle
        simp only [Exclusive, underWay, hh, hq, Option.toList, List.length_append,
          List.length_singleton, Host.accepted] at *
        constructor
        · omega
        · intro hf
          cases hf
  | send i =>
    simp only [step] at hstep
    split at hstep
    · cases hstep
    · rename_i req hget
      have hlen := length_eraseIdx_of_get? hget
      split at hstep <;> cases hstep <;>
        simp only [Exclusive, underWay, List.length_append, List.length_singleton] at * <;>
        exact ⟨by omega, fun hf => by have := h2 hf; omega⟩
  | handOff i =>
    simp only [step] at hstep
    split at hstep
    · cases hstep
    · rename_i req hget
      have hlen := length_eraseIdx_of_get? hget
      cases hstep
      simp only [Exclusive, underWay, List.length_append, List.length_singleton] at *
      exact ⟨by omega, fun hf => by have := h2 hf; omega⟩
  | complete i t =>
    simp only [step] at hstep
    split at hstep
    · cases hstep
    · rename_i req hget
      have hlen := length_eraseIdx_of_get? hget
      split at hstep
      · cases hstep
      · rename_i r hr
        cases hstep
        obtain ⟨s', comp⟩ := r
        have hbusy : c.host.requestOnGoing = true := by
          cases hb : c.host.requestOnGoing
          · have := h2 hb
            simp only [underWay] at this
            omega
          · rfl
        rcases Host.appendLogsInternal_onGoing hr with ⟨hn, hf⟩ | ⟨req1, hn, hf⟩
        · simp only [Exclusive, underWay, afterCompletion, hn, Option.toList,
            List.append_nil] at *
          exact ⟨by omega, fun _ => by omega⟩
        · simp only [Exclusive, underWay, afterCompletion, hn, Option.toList,
            List.length_append, List.length_singleton, hf, hbusy] at *
          exact ⟨by omega, fun hf => by cases hf⟩
  | completeRefused i =>
    simp only [step] at hstep
    split at hstep
    · cases hstep
    · rename_i req hget
      have hlen := length_eraseIdx_of_get? hget
      split at hstep
      · cases hstep
      · rename_i r hr
        cases hstep
        obtain ⟨s', comp⟩ := r
        have hbusy : c.host.requestOnGoing = true := by
          cases hb : c.host.requestOnGoing
          · have := h2 hb
            simp only [underWay] at this
            omega
          · rfl
        rcases Host.appendLogsInternal_onGoing hr with ⟨hn, hf⟩ | ⟨req1, hn, hf⟩
        · simp only [Exclusive, underWay, afterCompletion, hn, Option.toList,
            List.append_nil] at *
          exact ⟨by omega, fun _ => by omega⟩
        · simp only [Exclusive, underWay, afterCompletion, hn, Option.toList,
            List.length_append, List.length_singleton, hf, hbusy] at *
          exact ⟨by omega, fun hf => by cases hf⟩
  | pause =>
    cases hstep
    exact ⟨h1, h2⟩
  | resume =>
    cases hstep
    exact ⟨h1, h2⟩
  | stop =>
    cases hstep
    exact ⟨h1, h2⟩

/-- A property kept by every step holds at the end of every run. -/
theorem run_induction {flags : Flags} {part : RaftPart} (P : Channel → Prop)
    (G : Channel → Action → Prop)
    (hstep : ∀ c a c', P c → G c a → step flags part c a = some c' → P c') :
    ∀ (acts : List Action) (c c' : Channel), P c → allowed G flags part c acts →
      run flags part c acts = some c' → P c' := by
  intro acts
  induction acts with
  | nil =>
    intro c c' hP _ hrun
    simp only [run] at hrun
    cases hrun
    exact hP
  | cons a rest ih =>
    intro c c' hP hall hrun
    simp only [run] at hrun
    simp only [allowed] at hall
    obtain ⟨hG, hrest⟩ := hall
    cases hs : step flags part c a with
    | none => simp [hs] at hrun
    | some c1 =>
      simp only [hs] at hrun hrest
      exact ih c1 c' (hstep c a c1 hP hG hs) hrest hrun

/-- The guard that allows everything is met by every run. -/
theorem allowed_true (flags : Flags) (part : RaftPart) :
    ∀ (acts : List Action) (c : Channel), allowed (fun _ _ => True) flags part c acts := by
  intro acts
  induction acts with
  | nil => intro c; trivial
  | cons a rest ih =>
    intro c
    simp only [allowed]
    refine ⟨trivial, ?_⟩
    cases step flags part c a with
    | none => trivial
    | some c1 => exact ih c1

/-- A step that queues a new request is an accepting `appendLogs` on a channel with no
request on going, or the completion of the one request under way. -/
theorem step_queues {flags : Flags} {part : RaftPart} {c c' : Channel} {a : Action}
    (hinv : c.Exclusive) (hstep : step flags part c a = some c')
    (hgrow : c.built.length < c'.built.length) :
    ((∃ T L C pT pL, a = .appendLogs T L C pT pL) ∧ c.host.requestOnGoing = false ∧
      c.underWay = 0) ∨
    (((∃ i t, a = .complete i t) ∨ (∃ i, a = .completeRefused i)) ∧
      c.host.requestOnGoing = true ∧ c.underWay = 1) := by
  obtain ⟨h1, h2⟩ := hinv
  have hbusy_of : 0 < c.underWay → c.host.requestOnGoing = true := by
    intro hpos
    cases hb : c.host.requestOnGoing
    · have := h2 hb
      omega
    · rfl
  cases a with
  | appendLogs T L C pT pL =>
    simp only [step] at hstep
    split at hstep
    · cases hstep
    · rename_i r hr
      cases hstep
      rcases Host.appendLogs_cases hr with ⟨_, hq, _⟩ | ⟨_, _, _, _, _, hq, _⟩ |
        ⟨hidle, _⟩
      · simp [hq] at hgrow
      · simp [hq] at hgrow
      · exact Or.inl ⟨⟨T, L, C, pT, pL, rfl⟩, hidle, h2 hidle⟩
  | send i =>
    simp only [step] at hstep
    split at hstep
    · cases hstep
    · rename_i req hget
      have hlen := length_eraseIdx_of_get? hget
      split at hstep <;> cases hstep <;> simp only at hgrow <;> omega
  | handOff i =>
    simp only [step] at hstep
    split at hstep
    · cases hstep
    · cases hstep
      exact absurd hgrow (lt_irrefl _)
  | complete i t =>
    simp only [step] at hstep
    split at hstep
    · cases hstep
    · rename_i req hget
      have hlen := length_eraseIdx_of_get? hget
      have hpos : 0 < c.underWay := by
        simp only [underWay]
        omega
      exact Or.inr ⟨Or.inl ⟨i, t, rfl⟩, hbusy_of hpos, by omega⟩
  | completeRefused i =>
    simp only [step] at hstep
    split at hstep
    · cases hstep
    · rename_i req hget
      have hlen := length_eraseIdx_of_get? hget
      have hpos : 0 < c.underWay := by
        simp only [underWay]
        omega
      exact Or.inr ⟨Or.inr ⟨i, rfl⟩, hbusy_of hpos, by omega⟩
  | pause => cases hstep; simp at hgrow
  | resume => cases hstep; simp at hgrow
  | stop => cases hstep; simp at hgrow

/-- Every run from a channel with nothing under way ends in an exclusive channel. -/
theorem run_exclusive {flags : Flags} {part : RaftPart} {s0 : Host} {acts : List Action}
    {c : Channel} (hrun : run flags part (start s0) acts = some c) : c.Exclusive :=
  run_induction Exclusive (fun _ _ => True)
    (fun _ _ _ hP _ hs => step_exclusive hP hs) acts (start s0) c
    ⟨by simp [underWay, start], fun _ => by simp [underWay, start]⟩
    (allowed_true flags part acts (start s0)) hrun

/-- Every step keeps the bookkeeping of the host consistent. -/
theorem step_good {flags : Flags} {part : RaftPart} {c c' : Channel} {a : Action}
    (hg : c.host.Good) (hstep : step flags part c a = some c') : c'.host.Good := by
  cases a with
  | appendLogs T L C pT pL =>
    simp only [step] at hstep
    split at hstep
    · cases hstep
    · rename_i r hr
      cases hstep
      exact Host.good_appendLogs hg hr
  | send i =>
    simp only [step] at hstep
    split at hstep
    · cases hstep
    · split at hstep <;> cases hstep <;> exact hg
  | handOff i =>
    simp only [step] at hstep
    split at hstep
    · cases hstep
    · cases hstep
      exact hg
  | complete i t =>
    simp only [step] at hstep
    split at hstep
    · cases hstep
    · split at hstep
      · cases hstep
      · rename_i r hr
        cases hstep
        exact Host.good_appendLogsInternal hg hr
  | completeRefused i =>
    simp only [step] at hstep
    split at hstep
    · cases hstep
    · split at hstep
      · cases hstep
      · rename_i r hr
        cases hstep
        exact Host.good_appendLogsInternal hg hr
  | pause =>
    cases hstep
    exact ⟨hg.target_nonneg, hg.no_waiters, hg.pending_ahead, hg.idle_clear, hg.caching_open,
      hg.live_open⟩
  | resume =>
    cases hstep
    exact ⟨hg.target_nonneg, hg.no_waiters, hg.pending_ahead, hg.idle_clear, hg.caching_open,
      hg.live_open⟩
  | stop =>
    cases hstep
    exact ⟨hg.target_nonneg, hg.no_waiters, hg.pending_ahead, hg.idle_clear, hg.caching_open,
      hg.live_open⟩

/-- An idle state with a non-negative target has consistent bookkeeping. -/
theorem good_of_idle {s0 : Host} (h0 : s0.Idle) (hpos : 0 ≤ s0.logIdToSend) : s0.Good :=
  { target_nonneg := hpos
    no_waiters := fun _ => h0.2.2.1
    pending_ahead := fun hne => absurd h0.2.1 hne
    idle_clear := fun _ => h0.2.1
    caching_open := h0.2.2.2
    live_open := fun hb => by simp [h0.1] at hb }

/-- Every run from an idle state with a non-negative target keeps the bookkeeping
consistent. -/
theorem run_good {flags : Flags} {part : RaftPart} {s0 : Host} {acts : List Action}
    {c : Channel} (h0 : s0.Idle) (hpos : 0 ≤ s0.logIdToSend)
    (hrun : run flags part (start s0) acts = some c) : c.host.Good :=
  run_induction (fun d => d.host.Good) (fun _ _ => True)
    (fun _ _ _ hP _ hs => step_good hP hs) acts (start s0) c
    (good_of_idle h0 hpos) (allowed_true flags part acts (start s0)) hrun

/-- Every step whose response stays within the target keeps the baseline at or below the
target. -/
theorem step_bounded {flags : Flags} {part : RaftPart} {c c' : Channel} {a : Action}
    (hb : c.Bounded) (hG : c.withinTarget a) (hstep : step flags part c a = some c') :
    c'.Bounded := by
  obtain ⟨hle, href⟩ := hb
  have handler : ∀ (t : Host.Try) (s' : Host) (comp : Host.Completion),
      c.host.appendLogsInternal flags part t = .ok (s', comp) →
      (∀ resp, t = .value resp → resp.error_code = ErrorCode.SUCCEEDED →
        c.host.checkStatus = ErrorCode.SUCCEEDED → c.host.pendingReq = emptyTup →
        resp.last_log_id ≤ c.host.logIdToSend) →
      s'.lastLogIdSent ≤ s'.logIdToSend := by
    intro t s' comp hr hguard
    rcases Host.appendLogsInternal_cases hr with ⟨r, hq, _⟩ |
      ⟨_, resp, req, _, _, _, hprep, _⟩ |
      ⟨hst, resp, ht, hcode, _, _, hpend, hs, _⟩ | ⟨_, resp, req, _, _, _, _, _, _, hprep, _⟩
    · obtain ⟨_, _, hs, _⟩ := Host.quiesce_cases hq
      subst hs
      exact hle
    · exact le_of_lt (Host.prepareAppendLogRequest_range hprep)
    · subst hs
      exact hguard resp ht hcode hst hpend
    · exact le_of_lt (Host.prepareAppendLogRequest_range hprep)
  cases a with
  | appendLogs T L C pT pL =>
    simp only [step] at hstep
    split at hstep
    · cases hstep
    · rename_i r hr
      cases hstep
      refine ⟨?_, href⟩
      rcases Host.appendLogs_cases hr with ⟨hh, _⟩ | ⟨_, _, _, _, hh, _⟩ |
        ⟨_, _, _, _, _, _, _, req, _, hprep⟩
      · simp only [hh]; exact hle
      · simp only [hh]; exact hle
      · exact le_of_lt (Host.prepareAppendLogRequest_range hprep)
  | send i =>
    simp only [step] at hstep
    split at hstep
    · cases hstep
    · rename_i req hget
      unfold Host.sendAppendLogRequest at hstep
      simp only at hstep
      split_ifs at hstep with hst
      · cases hstep
        refine ⟨hle, ?_⟩
        intro r hr
        rcases List.mem_append.mp hr with hr | hr
        · exact href r hr
        · rw [List.mem_singleton.mp hr]
          exact hst
      · cases hstep
        exact ⟨hle, href⟩
  | handOff i =>
    simp only [step] at hstep
    split at hstep
    · cases hstep
    · cases hstep
      exact ⟨hle, href⟩
  | complete i t =>
    simp only [step] at hstep
    split at hstep
    · cases hstep
    · split at hstep
      · cases hstep
      · rename_i r hr
        cases hstep
        obtain ⟨s', comp⟩ := r
        refine ⟨handler t s' comp hr ?_, href⟩
        intro resp ht
        subst ht
        exact hG
  | completeRefused i =>
    simp only [step] at hstep
    split at hstep
    · cases hstep
    · rename_i resp hget
      split at hstep
      · cases hstep
      · rename_i r hr
        cases hstep
        obtain ⟨s', comp⟩ := r
        refine ⟨handler _ s' comp hr ?_, ?_⟩
        · intro resp1 ht hcode
          cases ht
          exact absurd hcode (href resp (List.get?_mem hget))
        · intro r1 hr1
          exact href r1 (List.mem_of_mem_eraseIdx hr1)
  | pause => cases hstep; exact ⟨hle, href⟩
  | resume => cases hstep; exact ⟨hle, href⟩
  | stop => cases hstep; exact ⟨hle, href⟩

/-! ## Invariants of the channel -/

/-- C7: in every state reachable from a channel with nothing under way (the initial idle
state in particular) by any interleaving of submissions, status checks, hand-offs to the
transport, completions (any response or an exception), `pause`, `resume` and `stop`, at
most one request is with the transport (indeed at most one request or completion is
under way at all); nothing is under way while `request_on_going` is false; and a step
queues a new request only if it is an accepting `appendLogs` with `request_on_going`
false and nothing under way, or the completion of the single request under way. -/
theorem mutual_exclusion (flags : Flags) (part : RaftPart) (s0 : Host)
    (acts : List Action) (c : Channel)
    (hrun : run flags part (start s0) acts = some c) :
    c.inFlight.length ≤ 1 ∧ c.underWay ≤ 1 ∧
    (c.host.requestOnGoing = false →
      c.inFlight = [] ∧ c.built = [] ∧ c.dispatching = [] ∧ c.refused = []) ∧
    (∀ a c', step flags part c a = some c' →
      c'.inFlight.length ≤ 1 ∧
      (c.built.length < c'.built.length →
        ((∃ T L C pT pL, a = .appendLogs T L C pT pL) ∧ c.host.requestOnGoing = false ∧
          c.underWay = 0) ∨
        (((∃ i t, a = .complete i t) ∨ (∃ i, a = .completeRefused i)) ∧
          c.host.requestOnGoing = true ∧ c.underWay = 1))) := by
  have hex : c.Exclusive := run_exclusive hrun
  have hle : ∀ d : Channel, d.Exclusive → d.inFlight.length ≤ 1 := by
    intro d hd
    have := hd.1
    simp only [underWay] at this
    omega
  refine ⟨hle c hex, hex.1, ?_, ?_⟩
  · intro hidle
    have h0 := hex.2 hidle
    simp only [underWay] at h0
    refine ⟨?_, ?_, ?_, ?_⟩ <;> apply List.eq_nil_of_length_eq_zero <;> omega
  · intro a c' hstep
    exact ⟨hle c' (step_exclusive hex hstep), step_queues hex hstep⟩

/-- Witness of `mutual_exclusion`: after a submission has been accepted and dispatched,
exactly one request is in flight. -/
theorem mutual_exclusion_witness :
    ∃ c, run smallFlags samplePart (start Host.init) [.appendLogs 2 7 5 2 5, .send 0, .handOff 0] = some c ∧
      c.inFlight.length = 1 ∧ c.inFlight.length ≤ 1 ∧ c.underWay ≤ 1 :=
  ⟨_, rfl, rfl,
    (mutual_exclusion smallFlags samplePart Host.init [.appendLogs 2 7 5 2 5, .send 0, .handOff 0] _
      rfl).1,
    (mutual_exclusion smallFlags samplePart Host.init [.appendLogs 2 7 5 2 5, .send 0, .handOff 0] _
      rfl).2.1⟩

/-- C8, as amended: in every state reachable from a channel with nothing under way and
`last_log_id_sent ≤ log_id_to_send` (the initial idle state in particular) through
submissions, dispatches, `pause`, `resume`,
`stop` and the handling of follower responses, provided no `SUCCEEDED` response handled
with status OK and nothing pending reports a `last_log_id` above `log_id_to_send`,
`last_log_id_sent ≤ log_id_to_send` holds after every step. -/
theorem baseline_le_target (flags : Flags) (part : RaftPart) (s0 : Host)
    (acts : List Action) (c : Channel)
    (hle : s0.lastLogIdSent ≤ s0.logIdToSend)
    (hfollower : allowed withinTarget flags part (start s0) acts)
    (hrun : run flags part (start s0) acts = some c) :
    c.host.lastLogIdSent ≤ c.host.logIdToSend :=
  (run_induction Bounded withinTarget (fun _ _ _ hP hG hs => step_bounded hP hG hs) acts
    (start s0) c ⟨hle, fun _ hr => by simp [start] at hr⟩ hfollower hrun).1

/-- Witness of `baseline_le_target`: the straight append answered with
`{SUCCEEDED, last_log_id = 7}`. -/
theorem baseline_le_target_witness :
    ∃ c, run smallFlags samplePart (start Host.init)
        [.appendLogs 2 7 5 2 5, .send 0, .handOff 0,
         .complete 0 (.value ⟨ErrorCode.SUCCEEDED, 2, 7, 2, 5⟩)] = some c ∧
      c.host.lastLogIdSent = 7 ∧ c.host.lastLogIdSent ≤ c.host.logIdToSend :=
  ⟨_, rfl, rfl,
    baseline_le_target smallFlags samplePart Host.init
      [.appendLogs 2 7 5 2 5, .send 0, .handOff 0, .complete 0 (.value ⟨ErrorCode.SUCCEEDED, 2, 7, 2, 5⟩)]
      _ (by decide) ⟨trivial, trivial, trivial, (fun _ _ _ => by decide), trivial⟩ rfl⟩

/-- C8 as stated fails: the submission `(T=1, L=1, C=0, pT=0, pL=0)` is accepted on the
initial state and dispatched; the follower answers `{SUCCEEDED, last_log_id = 5}`; the
handler stores 5 as `last_log_id_sent` and quiesces with `log_id_to_send = 1`. -/
theorem baseline_le_target_counterexample :
    ∃ c, run smallFlags samplePart (start Host.init)
        [.appendLogs 1 1 0 0 0, .send 0, .handOff 0,
         .complete 0 (.value ⟨ErrorCode.SUCCEEDED, 1, 5, 2, 0⟩)] = some c ∧
      c.host.requestOnGoing = false ∧ c.host.lastLogIdSent = 5 ∧ c.host.logIdToSend = 1 ∧
      ¬ (c.host.lastLogIdSent ≤ c.host.logIdToSend) :=
  ⟨_, rfl, rfl, rfl, rfl, by decide⟩

/-- C9: in every state reachable from an idle state with a non-negative
`log_id_to_send` (the initial idle state in particular), `request_on_going = false`
implies that `pending_req` is empty and the caching promise has no observer; the same
holds again after every further step (`appendLogs`, or any branch of the completion
handler), and `setResponse` always leaves `request_on_going` false, `pending_req` empty
and a caching promise without observers. -/
theorem idle_nothing_pending (flags : Flags) (part : RaftPart) (s0 : Host)
    (acts : List Action) (c : Channel) (h0 : s0.Idle) (hpos : 0 ≤ s0.logIdToSend)
    (hrun : run flags part (start s0) acts = some c) :
    (c.host.requestOnGoing = false →
      c.host.pendingReq = emptyTup ∧ c.host.cachingPromise.size = 0) ∧
    (∀ a c', step flags part c a = some c' → c'.host.requestOnGoing = false →
      c'.host.pendingReq = emptyTup ∧ c'.host.cachingPromise.size = 0) ∧
    (∀ r s' done, c.host.setResponse r = .ok (s', done) →
      s'.requestOnGoing = false ∧ s'.pendingReq = emptyTup ∧ s'.cachingPromise.size = 0) := by
  have hg : c.host.Good := run_good h0 hpos hrun
  have key : ∀ s : Host, s.Good → s.requestOnGoing = false →
      s.pendingReq = emptyTup ∧ s.cachingPromise.size = 0 :=
    fun s hs hidle => ⟨hs.idle_clear hidle, hs.no_waiters (hs.idle_clear hidle)⟩
  refine ⟨key _ hg, fun a c' hstep => key _ (step_good hg hstep), ?_⟩
  intro r s' done hset
  unfold Host.setResponse SharedPromise.setValue at hset
  cases hp : c.host.promise.value <;> cases hc : c.host.cachingPromise.value <;>
    simp [hp, hc] at hset
  obtain ⟨h1, _⟩ := hset
  subst h1
  exact ⟨rfl, rfl, rfl⟩

/-- Witness of `idle_nothing_pending`: a submission coalesced behind an accepted one, the
accepted one answered by a transport exception. -/
theorem idle_nothing_pending_witness :
    ∃ c, run smallFlags samplePart (start Host.init)
        [.appendLogs 2 7 5 2 5, .send 0, .handOff 0, .appendLogs 2 9 5 2 7, .complete 0 .exception] =
          some c ∧
      c.host.requestOnGoing = false ∧
      (c.host.requestOnGoing = false →
        c.host.pendingReq = emptyTup ∧ c.host.cachingPromise.size = 0) :=
  ⟨_, rfl, rfl,
    (idle_nothing_pending smallFlags samplePart Host.init
      [.appendLogs 2 7 5 2 5, .send 0, .handOff 0, .appendLogs 2 9 5 2 7, .complete 0 .exception] _
      ⟨rfl, rfl, rfl, rfl⟩ (by decide) rfl).1⟩

/-- On a stopped channel `appendLogs` returns an immediate response with the state
untouched and no request. -/
theorem appendLogs_stopped (flags : Flags) (part : RaftPart) (s : Host)
    (hstopped : s.stopped = true) (T : TermID) (L C : LogID) (pT : TermID) (pL : LogID) :
    ∃ code, s.appendLogs flags part T L C pT pL =
      .ok { host := s, ret := .ready (AppendLogResponse.withCode code), req := none } := by
  have hst : s.checkStatus = ErrorCode.E_HOST_STOPPED := by simp [Host.checkStatus, hstopped]
  by_cases h1 : L = s.logIdToSend ∧ s.requestOnGoing = true
  · exact ⟨ErrorCode.SUCCEEDED, by simp [Host.appendLogs, h1]⟩
  · by_cases h2 : L ≠ s.logIdToSend ∧ L < s.logIdToSend
    · exact ⟨ErrorCode.SUCCEEDED, by simp [Host.appendLogs, h1, h2]⟩
    · exact ⟨ErrorCode.E_HOST_STOPPED, by simp [Host.appendLogs, h1, h2, hst]⟩

/-- On a stopped channel the check of `sendAppendLogRequest` refuses. -/
theorem sendAppendLogRequest_stopped (s : Host) (hstopped : s.stopped = true)
    (req : AppendLogRequest) :
    s.sendAppendLogRequest req =
      .refused (AppendLogResponse.withCode ErrorCode.E_HOST_STOPPED) := by
  simp [Host.sendAppendLogRequest, Host.checkStatus, hstopped]

/-- On a stopped channel the continuation chains nothing. -/
theorem chained_stopped (flags : Flags) (part : RaftPart) (s : Host)
    (hstopped : s.stopped = true) (t : Host.Try) :
    Host.chained (s.appendLogsInternal flags part t) = none := by
  have hst : s.checkStatus = ErrorCode.E_HOST_STOPPED := by simp [Host.checkStatus, hstopped]
  cases hr : s.appendLogsInternal flags part t with
  | error e => rfl
  | ok r =>
    obtain ⟨s', comp⟩ := r
    cases hn : comp.newReq with
    | none => simp [Host.chained, hn]
    | some req =>
      have := Host.appendLogsInternal_chained_status hr hn
      rw [hst] at this
      cases this

/-- A step of a stopped channel leaves it stopped, builds no request and lets none pass
the check; it leaves the wire as it is, unless it is the hand-off of a request that has
passed the check before. -/
theorem step_stopped {flags : Flags} {part : RaftPart} {c c' : Channel} {a : Action}
    (hstopped : c.host.stopped = true) (hstep : step flags part c a = some c') :
    c'.host.stopped = true ∧ c'.built.length ≤ c.built.length ∧
    c'.dispatching.length ≤ c.dispatching.length ∧
    ((c'.wire = c.wire ∧ c'.inFlight.length ≤ c.inFlight.length ∧
        c'.dispatching = c.dispatching) ∨
      ∃ i req, a = .handOff i ∧ c.dispatching.get? i = some req ∧
        c'.wire = c.wire ++ [req] ∧ c'.inFlight = c.inFlight ++ [req] ∧
        c'.dispatching = c.dispatching.eraseIdx i) := by
  have hcompl : ∀ (t : Host.Try) (r : Host × Host.Completion),
      c.host.appendLogsInternal flags part t = .ok r →
      r.2.newReq = none ∧ r.1.stopped = true := by
    intro t r hr
    have h1 := chained_stopped flags part c.host hstopped t
    rw [hr] at h1
    obtain ⟨s', comp⟩ := r
    exact ⟨h1, by rw [(Host.appendLogsInternal_status hr).1]; exact hstopped⟩
  cases a with
  | appendLogs T L C pT pL =>
    obtain ⟨code, hcode⟩ := appendLogs_stopped flags part c.host hstopped T L C pT pL
    simp only [step, hcode] at hstep
    cases hstep
    exact ⟨hstopped, by simp, le_refl _, Or.inl ⟨rfl, le_refl _, rfl⟩⟩
  | send i =>
    simp only [step] at hstep
    split at hstep
    · cases hstep
    · rename_i req hget
      have hlen := length_eraseIdx_of_get? hget
      rw [sendAppendLogRequest_stopped c.host hstopped req] at hstep
      cases hstep
      exact ⟨hstopped, by simp only; omega, le_refl _, Or.inl ⟨rfl, le_refl _, rfl⟩⟩
  | handOff i =>
    simp only [step] at hstep
    split at hstep
    · cases hstep
    · rename_i req hget
      have hlen := length_eraseIdx_of_get? hget
      cases hstep
      exact ⟨hstopped, le_refl _, by simp only; omega,
        Or.inr ⟨i, req, rfl, hget, rfl, rfl, rfl⟩⟩
  | complete i t =>
    simp only [step] at hstep
    split at hstep
    · cases hstep
    · rename_i req hget
      have hlen := length_eraseIdx_of_get? hget
      split at hstep
      · cases hstep
      · rename_i r hr
        cases hstep
        obtain ⟨hn, hs⟩ := hcompl t r hr
        refine ⟨hs, ?_, le_refl _, Or.inl ⟨rfl, ?_, rfl⟩⟩
        · simp [afterCompletion, hn]
        · simp only [afterCompletion]
          omega
  | completeRefused i =>
    simp only [step] at hstep
    split at hstep
    · cases hstep
    · rename_i resp hget
      split at hstep
      · cases hstep
      · rename_i r hr
        cases hstep
        obtain ⟨hn, hs⟩ := hcompl _ r hr
        refine ⟨hs, ?_, le_refl _, Or.inl ⟨rfl, le_refl _, rfl⟩⟩
        simp [afterCompletion, hn]
  | pause => cases hstep; exact ⟨hstopped, le_refl _, le_refl _, Or.inl ⟨rfl, le_refl _, rfl⟩⟩
  | resume =>
    cases hstep; exact ⟨hstopped, le_refl _, le_refl _, Or.inl ⟨rfl, le_refl _, rfl⟩⟩
  | stop => cases hstep; exact ⟨rfl, le_refl _, le_refl _, Or.inl ⟨rfl, le_refl _, rfl⟩⟩

/-- Along a run of a stopped channel the channel stays stopped and the wire grows only by
requests that had passed the check at the start. -/
theorem run_stopped {flags : Flags} {part : RaftPart} :
    ∀ (acts : List Action) (c c' : Channel), c.host.stopped = true →
      run flags part c acts = some c' →
      c'.host.stopped = true ∧
      ∃ sent, c'.wire = c.wire ++ sent ∧
        sent.length + c'.dispatching.length ≤ c.dispatching.length := by
  intro acts
  induction acts with
  | nil =>
    intro c c' hstopped hrun
    simp only [run] at hrun
    cases hrun
    exact ⟨hstopped, [], by simp, by simp⟩
  | cons a rest ih =>
    intro c c' hstopped hrun
    simp only [run] at hrun
    cases hs : step flags part c a with
    | none => simp [hs] at hrun
    | some c1 =>
      simp only [hs] at hrun
      obtain ⟨hst1, _, _, hwire⟩ := step_stopped hstopped hs
      obtain ⟨hst', sent1, hw1, hlen1⟩ := ih c1 c' hst1 hrun
      refine ⟨hst', ?_⟩
      rcases hwire with ⟨hw, _, hd⟩ | ⟨i, req, _, hget, hw, _, hd⟩
      · exact ⟨sent1, by rw [hw1, hw], by rw [← hd]; exact hlen1⟩
      · have hlen := length_eraseIdx_of_get? hget
        refine ⟨req :: sent1, by rw [hw1, hw, List.append_assoc]; rfl, ?_⟩
        rw [hd] at hlen1
        simp only [List.length_cons]
        omega

/-- C10, as amended: on a stopped channel `appendLogs` returns an immediate response with
the state untouched and no request (it never takes the accept branch), the check of
`sendAppendLogRequest` returns the status response `E_HOST_STOPPED` instead of calling the
transport, and the continuation chains no request whatever the outcome of the request in
flight; so no step builds a request or lets one pass the check, the channel stays
stopped, and a step hands a request to the transport only if it is the hand-off of a
request that had passed the check before (the check is made under the lock, the hand-off
after the lock is released); along every run from the stopped state the requests that
reach the wire are among those that had passed the check when the run started, at most
one when at most one request is under way, and none when none had passed the check. -/
theorem no_rpc_after_stop (flags : Flags) (part : RaftPart) (s : Host)
    (hstopped : s.stopped = true) :
    (∀ T L C pT pL, ∃ code, s.appendLogs flags part T L C pT pL =
      .ok { host := s, ret := .ready (AppendLogResponse.withCode code), req := none }) ∧
    (∀ req, s.sendAppendLogRequest req =
      .refused (AppendLogResponse.withCode ErrorCode.E_HOST_STOPPED)) ∧
    (∀ t, Host.chained (s.appendLogsInternal flags part t) = none) ∧
    (∀ (c c' : Channel) (a : Action), c.host = s → step flags part c a = some c' →
      c'.host.stopped = true ∧ c'.built.length ≤ c.built.length ∧
      c'.dispatching.length ≤ c.dispatching.length ∧
      ((c'.wire = c.wire ∧ c'.inFlight.length ≤ c.inFlight.length ∧
          c'.dispatching = c.dispatching) ∨
        ∃ i req, a = .handOff i ∧ c.dispatching.get? i = some req ∧
          c'.wire = c.wire ++ [req] ∧ c'.inFlight = c.inFlight ++ [req] ∧
          c'.dispatching = c.dispatching.eraseIdx i)) ∧
    (∀ (c c' : Channel) (acts : List Action), c.host = s →
      run flags part c acts = some c' →
      c'.host.stopped = true ∧
      ∃ sent, c'.wire = c.wire ++ sent ∧
        sent.length + c'.dispatching.length ≤ c.dispatching.length ∧
        (c.underWay ≤ 1 → sent.length ≤ 1) ∧
        (c.dispatching = [] → c'.wire = c.wire)) := by
  refine ⟨appendLogs_stopped flags part s hstopped,
    sendAppendLogRequest_stopped s hstopped, chained_stopped flags part s hstopped, ?_, ?_⟩
  · intro c c' a hc hstep
    subst hc
    exact step_stopped hstopped hstep
  · intro c c' acts hc hrun
    subst hc
    obtain ⟨hst, sent, hw, hlen⟩ := run_stopped acts c c' hstopped hrun
    refine ⟨hst, sent, hw, hlen, ?_, ?_⟩
    · intro hone
      simp only [underWay] at hone
      omega
    · intro hnil
      rw [hnil] at hlen
      have h0 : sent = [] :=
        List.eq_nil_of_length_eq_zero (by simp only [List.length_nil] at hlen; omega)
      rw [hw, h0, List.append_nil]

/-- Witness of `no_rpc_after_stop`: the initial channel after `stop`, a built request and
a `SUCCEEDED` response; and the sample channel stopped with its request in flight, whose
completion by an exception adds nothing to the wire. -/
theorem no_rpc_after_stop_witness :
    Host.init.stop.stopped = true ∧
    Host.init.stop.sendAppendLogRequest
        { space := 1, part := 1, current_term := 2, last_log_id := 7, leader_ip := 0,
          leader_port := 0, committed_log_id := 5, last_log_term_sent := 2,
          last_log_id_sent := 5, log_term := 2, log_str_list := [] } =
      .refused (AppendLogResponse.withCode ErrorCode.E_HOST_STOPPED) ∧
    Host.chained (Host.init.stop.appendLogsInternal smallFlags samplePart
      (.value ⟨ErrorCode.SUCCEEDED, 2, 7, 2, 5⟩)) = none ∧
    (∃ c', run smallFlags samplePart stoppedSample [.complete 0 .exception] = some c' ∧
      c'.host.stopped = true ∧ c'.wire = stoppedSample.wire) := by
  refine ⟨rfl,
    (no_rpc_after_stop smallFlags samplePart Host.init.stop rfl).2.1 _,
    (no_rpc_after_stop smallFlags samplePart Host.init.stop rfl).2.2.1 _, ?_⟩
  obtain ⟨hst, sent, _, _, _, hw⟩ :=
    (no_rpc_after_stop smallFlags samplePart stoppedSample.host rfl).2.2.2.2
      stoppedSample _ [.complete 0 .exception] rfl rfl
  exact ⟨_, rfl, hst, hw rfl⟩

/-- C10 as stated fails: the straight append is accepted on the initial state and its
request passes the check of `sendAppendLogRequest`; `stop` is called before the transport
is; the channel is then stopped with nothing on the wire, and the next step, the
hand-off, hands the request to the transport and puts it in flight. -/
theorem no_rpc_after_stop_counterexample :
    ∃ c c', run smallFlags samplePart (start Host.init)
        [.appendLogs 2 7 5 2 5, .send 0, .stop] = some c ∧
      c.host.stopped = true ∧ c.wire = [] ∧ c.inFlight = [] ∧
      step smallFlags samplePart c (.handOff 0) = some c' ∧
      c'.host.stopped = true ∧ c'.wire.length = 1 ∧ c'.inFlight.length = 1 ∧
      c'.wire ≠ c.wire :=
  ⟨_, _, rfl, rfl, rfl, rfl, rfl, rfl, rfl, rfl, by decide⟩

end Channel

/-! ## Exact results of the continuation -/

namespace Host

/-- With both promises unfulfilled a terminal path returns the state `setResponse`
installs and reports the two fulfilments. -/
theorem quiesce_open (s : Host) (r : AppendLogResponse)
    (hlive : s.promise.value = none) (hcaching : s.cachingPromise.value = none) :
    s.quiesce r = .ok (s.answered r,
      { ret := r, newReq := none, notified := true,
        fulfilled := [(s.promise.id, r), (s.cachingPromise.id, r)] }) := by
  simp [quiesce, setResponse, SharedPromise.setValue, hlive, hcaching, answered]

/-- A valid iterator lets the request be built. -/
theorem prepareAppendLogRequest_of_valid (flags : Flags) (part : RaftPart) (s : Host)
    (h : part.wal.iterator (s.lastLogIdSent + 1) s.logIdToSend ≠ []) :
    ∃ req, prepareAppendLogRequest flags part s = .ok req := by
  unfold prepareAppendLogRequest
  cases hit : part.wal.iterator (s.lastLogIdSent + 1) s.logIdToSend with
  | nil => exact absurd hit h
  | cons r rest => exact ⟨_, rfl⟩

/-- The header of a built request repeats the five counters and the identity of the
partition. -/
theorem prepareAppendLogRequest_header {flags : Flags} {part : RaftPart} {s : Host}
    {req : AppendLogRequest} (h : prepareAppendLogRequest flags part s = .ok req) :
    req.space = part.spaceId ∧ req.part = part.partitionId ∧
    req.current_term = s.logTermToSend ∧ req.last_log_id = s.logIdToSend ∧
    req.leader_ip = part.address.1 ∧ req.leader_port = part.address.2 ∧
    req.committed_log_id = s.committedLogId ∧
    req.last_log_term_sent = s.lastLogTermSent ∧ req.last_log_id_sent = s.lastLogIdSent := by
  unfold prepareAppendLogRequest at h
  split at h
  · cases h
  · cases h
    exact ⟨rfl, rfl, rfl, rfl, rfl, rfl, rfl, rfl, rfl⟩

/-- An exception is answered through `setResponse` with `E_EXCEPTION`. -/
theorem appendLogsInternal_exception (flags : Flags) (part : RaftPart) (s : Host) :
    s.appendLogsInternal flags part .exception =
      s.quiesce (AppendLogResponse.withCode ErrorCode.E_EXCEPTION) := rfl

/-- A response that is neither `SUCCEEDED` nor `E_LOG_GAP` is answered through
`setResponse` as it is. -/
theorem appendLogsInternal_other (flags : Flags) (part : RaftPart) (s : Host)
    (resp : AppendLogResponse) (h1 : resp.error_code ≠ ErrorCode.SUCCEEDED)
    (h2 : resp.error_code ≠ ErrorCode.E_LOG_GAP) :
    s.appendLogsInternal flags part (.value resp) = s.quiesce resp := by
  unfold appendLogsInternal
  simp only

/-- A `SUCCEEDED` or `E_LOG_GAP` response handled with a status that is not OK is
answered through `setResponse` with that status. -/
theorem appendLogsInternal_status_failed (flags : Flags) (part : RaftPart) (s : Host)
    (resp : AppendLogResponse)
    (hcode : resp.error_code = ErrorCode.SUCCEEDED ∨ resp.error_code = ErrorCode.E_LOG_GAP)
    (hst : s.checkStatus ≠ ErrorCode.SUCCEEDED) :
    s.appendLogsInternal flags part (.value resp) =
      s.quiesce (AppendLogResponse.withCode s.checkStatus) := by
  unfold appendLogsInternal
  rcases hcode with h | h
  · simp only [h, onSucceeded, hst, ne_eq, not_false_eq_true, if_true]
  · simp only [h, onLogGap, hst, ne_eq, not_false_eq_true, if_true]

/-- A `SUCCEEDED` response below the target, status OK: the baseline is rebased and the
request built from it is chained. -/
theorem appendLogsInternal_more (flags : Flags) (part : RaftPart) (s : Host)
    (resp : AppendLogResponse) (req : AppendLogRequest)
    (hcode : resp.error_code = ErrorCode.SUCCEEDED)
    (hst : s.checkStatus = ErrorCode.SUCCEEDED)
    (hlt : resp.last_log_id < s.logIdToSend)
    (hreq : prepareAppendLogRequest flags part (s.rebased resp) = .ok req) :
    s.appendLogsInternal flags part (.value resp) =
      .ok (s.rebased resp,
        { ret := resp, newReq := some req, notified := false, fulfilled := [] }) := by
  have hlt1 : (s.rebased resp).lastLogIdSent < (s.rebased resp).logIdToSend := hlt
  unfold appendLogsInternal
  simp only [hcode, onSucceeded, hst, ne_eq, not_true_eq_false, if_false, hlt1, if_true, hreq]

/-- A `SUCCEEDED` response at or above the target, status OK, nothing pending: the live
promise is fulfilled and the channel quiesces. -/
theorem appendLogsInternal_delivered (flags : Flags) (part : RaftPart) (s : Host)
    (resp : AppendLogResponse)
    (hcode : resp.error_code = ErrorCode.SUCCEEDED)
    (hst : s.checkStatus = ErrorCode.SUCCEEDED)
    (hge : s.logIdToSend ≤ resp.last_log_id)
    (hlive : s.promise.value = none) (hpend : s.pendingReq = emptyTup) :
    s.appendLogsInternal flags part (.value resp) =
      .ok ({ s.delivered resp with requestOnGoing := false },
        { ret := resp, newReq := none, notified := true,
          fulfilled := [(s.promise.id, resp)] }) := by
  have hge1 : ¬ ((s.rebased resp).lastLogIdSent < (s.rebased resp).logIdToSend) :=
    not_lt.mpr hge
  unfold appendLogsInternal
  simp only [hcode, onSucceeded, hst, ne_eq, not_true_eq_false, if_false, hge1]
  simp [SharedPromise.setValue, rebased, hlive, noRequest, hpend, delivered]

/-- A `SUCCEEDED` response at or above the target, status OK, a request pending: the live
promise is fulfilled, the pending request adopted and the request built from the new
state chained. -/
theorem appendLogsInternal_adopt (flags : Flags) (part : RaftPart) (s : Host)
    (resp : AppendLogResponse) (req : AppendLogRequest)
    (hcode : resp.error_code = ErrorCode.SUCCEEDED)
    (hst : s.checkStatus = ErrorCode.SUCCEEDED)
    (hge : s.logIdToSend ≤ resp.last_log_id)
    (hlive : s.promise.value = none) (hpend : s.pendingReq ≠ emptyTup)
    (hreq : prepareAppendLogRequest flags part (s.delivered resp).adopted = .ok req) :
    s.appendLogsInternal flags part (.value resp) =
      .ok ((s.delivered resp).adopted,
        { ret := resp, newReq := some req, notified := false,
          fulfilled := [(s.promise.id, resp)] }) := by
  have hge1 : ¬ ((s.rebased resp).lastLogIdSent < (s.rebased resp).logIdToSend) :=
    not_lt.mpr hge
  have hreq1 : prepareAppendLogRequest flags part
      { paused := s.paused, stopped := s.stopped, requestOnGoing := s.requestOnGoing,
        promise := { id := s.promise.id, size := s.promise.size, value := some resp },
        cachingPromise := s.cachingPromise, pendingReq := s.pendingReq,
        logIdToSend := s.pendingReq.2.1, logTermToSend := s.pendingReq.1,
        lastLogIdSent := resp.last_log_id, lastLogTermSent := resp.last_log_term,
        committedLogId := s.pendingReq.2.2.1, promiseSeq := s.promiseSeq } = .ok req := by
    rw [← hreq]
    exact prepareAppendLogRequest_congr flags part _ _ rfl rfl rfl rfl rfl
  unfold appendLogsInternal
  simp only [hcode, onSucceeded, hst, ne_eq, not_true_eq_false, if_false, hge1]
  simp [SharedPromise.setValue, rebased, hlive, noRequest, hpend, delivered, adopted, hreq1]

/-- An `E_LOG_GAP` response, status OK: the baseline is rebased and the request built from
it is chained. -/
theorem appendLogsInternal_gap (flags : Flags) (part : RaftPart) (s : Host)
    (resp : AppendLogResponse) (req : AppendLogRequest)
    (hcode : resp.error_code = ErrorCode.E_LOG_GAP)
    (hst : s.checkStatus = ErrorCode.SUCCEEDED)
    (hreq : prepareAppendLogRequest flags part (s.rebased resp) = .ok req) :
    s.appendLogsInternal flags part (.value resp) =
      .ok (s.rebased resp,
        { ret := resp, newReq := some req, notified := false, fulfilled := [] }) := by
  unfold appendLogsInternal
  simp only [hcode, onLogGap, hst, ne_eq, not_true_eq_false, if_false, hreq]

end Host

namespace Channel

/-- In a reachable state the bookkeeping is consistent and the pipeline exclusive. -/
theorem Reachable.good_exclusive {flags : Flags} {part : RaftPart} {c : Channel}
    (h : c.Reachable flags part) : c.host.Good ∧ c.Exclusive := by
  obtain ⟨s0, acts, h0, hpos, hrun⟩ := h
  exact ⟨run_good h0 hpos hrun, run_exclusive hrun⟩

/-- In a reachable state with a request on going both promises are unfulfilled. -/
theorem Reachable.open_of_onGoing {flags : Flags} {part : RaftPart} {c : Channel}
    (h : c.Reachable flags part) (hbusy : c.host.requestOnGoing = true) :
    c.host.promise.value = none ∧ c.host.cachingPromise.value = none :=
  ⟨h.good_exclusive.1.live_open hbusy, h.good_exclusive.1.caching_open⟩

/-- In a reachable state with a request in flight, a request is on going. -/
theorem Reachable.onGoing_of_inFlight {flags : Flags} {part : RaftPart} {c : Channel}
    (h : c.Reachable flags part) {i : Nat} {req : AppendLogRequest}
    (hfl : c.inFlight.get? i = some req) : c.host.requestOnGoing = true := by
  have hlen := length_eraseIdx_of_get? hfl
  cases hb : c.host.requestOnGoing
  · have := h.good_exclusive.2.2 hb
    simp only [underWay] at this
    omega
  · rfl

/-- The sample channel with a request in flight is reachable. -/
theorem inFlightSample_reachable : inFlightSample.Reachable smallFlags samplePart :=
  ⟨Host.init, [.appendLogs 2 7 5 2 5, .send 0, .handOff 0], ⟨rfl, rfl, rfl, rfl⟩, by decide, rfl⟩

/-- The sample channel with two coalesced submissions is reachable. -/
theorem coalescedSample_reachable : coalescedSample.Reachable smallFlags samplePart :=
  ⟨Host.init, [.appendLogs 2 7 5 2 5, .send 0, .handOff 0, .appendLogs 2 9 5 2 7, .appendLogs 2 11 5 2 9],
    ⟨rfl, rfl, rfl, rfl⟩, by decide, rfl⟩

/-- The stopped sample channel is reachable. -/
theorem stoppedSample_reachable : stoppedSample.Reachable smallFlags samplePart :=
  ⟨Host.init, [.appendLogs 2 7 5 2 5, .send 0, .handOff 0, .stop], ⟨rfl, rfl, rfl, rfl⟩, by decide, rfl⟩

/-! ## The completion handler -/

/-- C15: in every reachable state with a request in flight, a completion that carries an
exception makes the handler fulfil the live promise and then the caching promise with
`E_EXCEPTION`, install a fresh caching promise, clear `pending_req`, clear
`request_on_going`, chain no request (and notify), and leave the five counters as they
were. -/
theorem exception_completion (flags : Flags) (part : RaftPart) (c : Channel) (i : Nat)
    (req : AppendLogRequest) (hreach : c.Reachable flags part)
    (hfl : c.inFlight.get? i = some req) :
    ∃ s' comp, c.host.appendLogsInternal flags part .exception = .ok (s', comp) ∧
      comp.fulfilled =
        [(c.host.promise.id, AppendLogResponse.withCode ErrorCode.E_EXCEPTION),
         (c.host.cachingPromise.id, AppendLogResponse.withCode ErrorCode.E_EXCEPTION)] ∧
      s'.promise.id = c.host.promise.id ∧
      s'.promise.value = some (AppendLogResponse.withCode ErrorCode.E_EXCEPTION) ∧
      s'.cachingPromise = SharedPromise.fresh c.host.promiseSeq ∧
      s'.pendingReq = emptyTup ∧ s'.requestOnGoing = false ∧
      comp.newReq = none ∧ comp.notified = true ∧
      comp.ret = AppendLogResponse.withCode ErrorCode.E_EXCEPTION ∧
      s'.logTermToSend = c.host.logTermToSend ∧ s'.logIdToSend = c.host.logIdToSend ∧
      s'.lastLogTermSent = c.host.lastLogTermSent ∧
      s'.lastLogIdSent = c.host.lastLogIdSent ∧
      s'.committedLogId = c.host.committedLogId := by
  obtain ⟨hlive, hcaching⟩ := hreach.open_of_onGoing (hreach.onGoing_of_inFlight hfl)
  refine ⟨c.host.answered (AppendLogResponse.withCode ErrorCode.E_EXCEPTION), _,
    (Host.appendLogsInternal_exception flags part c.host).trans
      (Host.quiesce_open _ _ hlive hcaching),
    rfl, rfl, rfl, rfl, rfl, rfl, rfl, rfl, rfl, rfl, rfl, rfl, rfl, rfl⟩

/-- Witness of `exception_completion`: the request of the sample channel times out. -/
theorem exception_completion_witness :
    ∃ s' comp, inFlightSample.host.appendLogsInternal smallFlags samplePart .exception =
        .ok (s', comp) ∧
      s'.promise.value = some (AppendLogResponse.withCode ErrorCode.E_EXCEPTION) ∧
      s'.requestOnGoing = false ∧ comp.newReq = none ∧ s'.lastLogIdSent = 5 := by
  obtain ⟨s', comp, h, _, _, h3, _, _, h6, h7, _, _, _, _, _, h13, _⟩ :=
    exception_completion smallFlags samplePart inFlightSample 0 _ inFlightSample_reachable rfl
  exact ⟨s', comp, h, h3, h6, h7, h13⟩

/-- C16: in every reachable state with a request on going, a response whose error code is
neither `SUCCEEDED` nor `E_LOG_GAP` makes the handler fulfil the live promise and then
the caching promise with that very response, chain no request, clear
`request_on_going` (and `pending_req`), and leave the five counters as they were. -/
theorem other_error_completion (flags : Flags) (part : RaftPart) (c : Channel)
    (resp : AppendLogResponse) (hreach : c.Reachable flags part)
    (hbusy : c.host.requestOnGoing = true)
    (h1 : resp.error_code ≠ ErrorCode.SUCCEEDED)
    (h2 : resp.error_code ≠ ErrorCode.E_LOG_GAP) :
    ∃ s' comp, c.host.appendLogsInternal flags part (.value resp) = .ok (s', comp) ∧
      comp.fulfilled = [(c.host.promise.id, resp), (c.host.cachingPromise.id, resp)] ∧
      s'.promise.id = c.host.promise.id ∧ s'.promise.value = some resp ∧
      s'.cachingPromise = SharedPromise.fresh c.host.promiseSeq ∧
      s'.pendingReq = emptyTup ∧ s'.requestOnGoing = false ∧
      comp.newReq = none ∧ comp.notified = true ∧ comp.ret = resp ∧
      s'.logTermToSend = c.host.logTermToSend ∧ s'.logIdToSend = c.host.logIdToSend ∧
      s'.lastLogTermSent = c.host.lastLogTermSent ∧
      s'.lastLogIdSent = c.host.lastLogIdSent ∧
      s'.committedLogId = c.host.committedLogId := by
  obtain ⟨hlive, hcaching⟩ := hreach.open_of_onGoing hbusy
  refine ⟨c.host.answered resp, _,
    (Host.appendLogsInternal_other flags part _ resp h1 h2).trans
      (Host.quiesce_open _ _ hlive hcaching),
    rfl, rfl, rfl, rfl, rfl, rfl, rfl, rfl, rfl, rfl, rfl, rfl, rfl, rfl⟩

/-- Witness of `other_error_completion`: the follower of the sample channel answers
`E_NOT_A_LEADER` with its own term and log position. -/
theorem other_error_completion_witness :
    ∃ s' comp, inFlightSample.host.appendLogsInternal smallFlags samplePart
        (.value ⟨ErrorCode.E_NOT_A_LEADER, 3, 6, 2, 5⟩) = .ok (s', comp) ∧
      s'.promise.value = some ⟨ErrorCode.E_NOT_A_LEADER, 3, 6, 2, 5⟩ ∧
      s'.requestOnGoing = false ∧ comp.newReq = none ∧ s'.lastLogIdSent = 5 := by
  obtain ⟨s', comp, h, _, _, h3, _, _, h6, h7, _, _, _, _, _, h13, _⟩ :=
    other_error_completion smallFlags samplePart inFlightSample
      ⟨ErrorCode.E_NOT_A_LEADER, 3, 6, 2, 5⟩ inFlightSample_reachable rfl (by decide)
      (by decide)
  exact ⟨s', comp, h, h3, h6, h7, h13⟩

/-- C11, as amended: in every reachable state with `stopped = true` and a request in
flight the completion handler returns, chains nothing and fulfils the live promise: with
`E_HOST_STOPPED` when the request completes with `SUCCEEDED` or `E_LOG_GAP`, with
`E_EXCEPTION` when it completes with a transport exception, and with the follower's own
response when it completes with any other error code. -/
theorem stopped_completion (flags : Flags) (part : RaftPart) (c : Channel) (i : Nat)
    (req : AppendLogRequest) (t : Host.Try) (hreach : c.Reachable flags part)
    (hfl : c.inFlight.get? i = some req) (hstopped : c.host.stopped = true) :
    ∃ s' comp, c.host.appendLogsInternal flags part t = .ok (s', comp) ∧
      s'.promise.id = c.host.promise.id ∧ comp.newReq = none ∧
      s'.requestOnGoing = false ∧
      (t = .exception →
        s'.promise.value = some (AppendLogResponse.withCode ErrorCode.E_EXCEPTION)) ∧
      (∀ resp, t = .value resp →
        resp.error_code = ErrorCode.SUCCEEDED ∨ resp.error_code = ErrorCode.E_LOG_GAP →
        s'.promise.value = some (AppendLogResponse.withCode ErrorCode.E_HOST_STOPPED)) ∧
      (∀ resp, t = .value resp → resp.error_code ≠ ErrorCode.SUCCEEDED →
        resp.error_code ≠ ErrorCode.E_LOG_GAP → s'.promise.value = some resp) := by
  obtain ⟨hlive, hcaching⟩ := hreach.open_of_onGoing (hreach.onGoing_of_inFlight hfl)
  have hst : c.host.checkStatus = ErrorCode.E_HOST_STOPPED := by
    simp [Host.checkStatus, hstopped]
  have hne : c.host.checkStatus ≠ ErrorCode.SUCCEEDED := by rw [hst]; decide
  cases t with
  | exception =>
    refine ⟨c.host.answered (AppendLogResponse.withCode ErrorCode.E_EXCEPTION), _,
      (Host.appendLogsInternal_exception flags part c.host).trans
        (Host.quiesce_open _ _ hlive hcaching),
      rfl, rfl, rfl, fun _ => rfl, ?_, ?_⟩
    · intro resp h; cases h
    · intro resp h; cases h
  | value resp =>
    by_cases hcode : resp.error_code = ErrorCode.SUCCEEDED ∨
        resp.error_code = ErrorCode.E_LOG_GAP
    · refine ⟨c.host.answered (AppendLogResponse.withCode ErrorCode.E_HOST_STOPPED),
        { ret := AppendLogResponse.withCode ErrorCode.E_HOST_STOPPED, newReq := none,
          notified := true,
          fulfilled :=
            [(c.host.promise.id, AppendLogResponse.withCode ErrorCode.E_HOST_STOPPED),
             (c.host.cachingPromise.id, AppendLogResponse.withCode ErrorCode.E_HOST_STOPPED)] },
        ?_, rfl, rfl, rfl, ?_, ?_, ?_⟩
      · rw [Host.appendLogsInternal_status_failed flags part _ resp hcode hne, hst]
        exact Host.quiesce_open _ _ hlive hcaching
      · intro h; cases h
      · intro resp1 _ _; rfl
      · intro resp1 h h1 h2
        cases h
        rcases hcode with h | h
        · exact absurd h h1
        · exact absurd h h2
    · have h1 : resp.error_code ≠ ErrorCode.SUCCEEDED := fun h => hcode (Or.inl h)
      have h2 : resp.error_code ≠ ErrorCode.E_LOG_GAP := fun h => hcode (Or.inr h)
      refine ⟨c.host.answered resp, _,
        (Host.appendLogsInternal_other flags part _ resp h1 h2).trans
          (Host.quiesce_open _ _ hlive hcaching),
        rfl, rfl, rfl, ?_, ?_, ?_⟩
      · intro h; cases h
      · intro resp1 h hc
        cases h
        exact absurd hc hcode
      · intro resp1 h _ _
        cases h
        rfl

/-- Witness of `stopped_completion`: the stopped sample channel receives `SUCCEEDED`. -/
theorem stopped_completion_witness :
    ∃ s' comp, stoppedSample.host.appendLogsInternal smallFlags samplePart
        (.value ⟨ErrorCode.SUCCEEDED, 2, 7, 2, 5⟩) = .ok (s', comp) ∧
      comp.newReq = none ∧
      s'.promise.value = some (AppendLogResponse.withCode ErrorCode.E_HOST_STOPPED) := by
  obtain ⟨s', comp, h, _, h2, _, _, h5, _⟩ :=
    stopped_completion smallFlags samplePart stoppedSample 0 _
      (.value ⟨ErrorCode.SUCCEEDED, 2, 7, 2, 5⟩) stoppedSample_reachable rfl rfl
  exact ⟨s', comp, h, h2, h5 _ rfl (Or.inl rfl)⟩

/-- C11 as stated fails: the sample channel is stopped while its request is in flight;
when the request then fails with a transport exception the live promise is fulfilled
with `E_EXCEPTION`, and when the follower answers `E_NOT_A_LEADER` it is fulfilled with
`E_NOT_A_LEADER`; neither is `E_HOST_STOPPED`. -/
theorem stopped_completion_counterexample :
    stoppedSample.host.stopped = true ∧ stoppedSample.inFlight.length = 1 ∧
    (∃ c, step smallFlags samplePart stoppedSample (.complete 0 .exception) = some c ∧
      c.host.promise.id = stoppedSample.host.promise.id ∧
      c.host.promise.value = some (AppendLogResponse.withCode ErrorCode.E_EXCEPTION)) ∧
    (∃ c, step smallFlags samplePart stoppedSample
        (.complete 0 (.value (AppendLogResponse.withCode ErrorCode.E_NOT_A_LEADER))) = some c ∧
      c.host.promise.id = stoppedSample.host.promise.id ∧
      c.host.promise.value = some (AppendLogResponse.withCode ErrorCode.E_NOT_A_LEADER)) ∧
    (AppendLogResponse.withCode ErrorCode.E_EXCEPTION).error_code ≠ ErrorCode.E_HOST_STOPPED ∧
    (AppendLogResponse.withCode ErrorCode.E_NOT_A_LEADER).error_code ≠
      ErrorCode.E_HOST_STOPPED :=
  ⟨rfl, rfl, ⟨_, rfl, rfl, rfl⟩, ⟨_, rfl, rfl, rfl⟩, by decide, by decide⟩

end Channel

/-! ## The request builder -/

namespace Host

/-- The loop of the builder collects the same-term prefix of the records, cut at the room
left in the batch. -/
theorem collectLogs_eq (term : TermID) (batch : Nat) :
    ∀ (l : List WalRecord) (cnt : Nat),
      collectLogs term batch l cnt =
        (((l.takeWhile (fun x => decide (x.logTerm = term))).take (batch - cnt)).map
          (fun r => ({ cluster := r.logSource, log_str := r.logMsg } : LogEntry))) := by
  intro l
  induction l with
  | nil => intro cnt; simp [collectLogs]
  | cons r rest ih =>
    intro cnt
    by_cases hterm : r.logTerm = term
    · by_cases hcnt : cnt < batch
      · have hsplit : batch - cnt = (batch - (cnt + 1)) + 1 := by omega
        simp only [collectLogs, hterm, hcnt, and_self, if_true, ih (cnt + 1)]
        rw [List.takeWhile_cons_of_pos (by simp [hterm]), hsplit, List.take_succ_cons,
          List.map_cons]
      · have hzero : batch - cnt = 0 := by omega
        simp [collectLogs, hcnt, hzero]
    · simp [collectLogs, hterm, List.takeWhile_cons]

/-- The record right after the same-term prefix, if there is one, has another term. -/
theorem takeWhile_stops (p : WalRecord → Bool) :
    ∀ (l : List WalRecord) (r : WalRecord),
      l.get? (l.takeWhile p).length = some r → p r = false := by
  intro l
  induction l with
  | nil => intro r h; simp at h
  | cons a rest ih =>
    intro r h
    by_cases ha : p a = true
    · rw [List.takeWhile_cons_of_pos ha] at h
      simp only [List.length_cons, List.get?_cons_succ] at h
      exact ih r h
    · rw [List.takeWhile_cons_of_neg ha] at h
      simp only [List.length_nil, List.get?_cons_zero, Option.some.injEq] at h
      rw [← h]
      simpa using ha

/-- C17: over a non-empty Wal range the built request has the term of the first record as
`log_term`, and its entries are exactly the batch of the specification (the longest prefix
of the range whose records have that term, cut at `max_appendlog_batch_size`), in order,
each with its cluster id and payload; so every record sent has the header term, at most
`max_appendlog_batch_size` entries are sent, and the batch stops early only at a record
of another term or at the end of the range. -/
theorem prepareAppendLogRequest_batch (flags : Flags) (part : RaftPart) (s : Host)
    (hne : part.wal.iterator (s.lastLogIdSent + 1) s.logIdToSend ≠ []) :
    ∃ r0 rest req,
      part.wal.iterator (s.lastLogIdSent + 1) s.logIdToSend = r0 :: rest ∧
      prepareAppendLogRequest flags part s = .ok req ∧
      req.log_term = r0.logTerm ∧
      req.log_str_list =
        (singleTermBatch flags.max_appendlog_batch_size (r0 :: rest)).map
          (fun r => ({ cluster := r.logSource, log_str := r.logMsg } : LogEntry)) ∧
      singleTermBatch flags.max_appendlog_batch_size (r0 :: rest) <+: r0 :: rest ∧
      (∀ r ∈ singleTermBatch flags.max_appendlog_batch_size (r0 :: rest),
        r.logTerm = req.log_term) ∧
      req.log_str_list.length ≤ flags.max_appendlog_batch_size ∧
      (∀ r, (r0 :: rest).get?
          (singleTermBatch flags.max_appendlog_batch_size (r0 :: rest)).length = some r →
        (singleTermBatch flags.max_appendlog_batch_size (r0 :: rest)).length <
          flags.max_appendlog_batch_size →
        r.logTerm ≠ req.log_term) := by
  cases hit : part.wal.iterator (s.lastLogIdSent + 1) s.logIdToSend with
  | nil => exact absurd hit hne
  | cons r0 rest =>
    refine ⟨r0, rest,
      { space := part.spaceId
        part := part.partitionId
        current_term := s.logTermToSend
        last_log_id := s.logIdToSend
        leader_ip := part.address.1
        leader_port := part.address.2
        committed_log_id := s.committedLogId
        last_log_term_sent := s.lastLogTermSent
        last_log_id_sent := s.lastLogIdSent
        log_term := r0.logTerm
        log_str_list := collectLogs r0.logTerm flags.max_appendlog_batch_size (r0 :: rest) 0 },
      rfl, ?_, rfl, ?_, ?_, ?_, ?_, ?_⟩
    · simp only [prepareAppendLogRequest, hit]
    · simp only [singleTermBatch]
      rw [collectLogs_eq]
      simp
    · exact List.IsPrefix.trans (List.take_prefix _ _) (List.takeWhile_prefix _)
    · intro r hr
      have hmem := List.mem_takeWhile_imp (List.mem_of_mem_take hr)
      simpa using hmem
    · rw [collectLogs_eq]
      simp only [List.length_map, List.length_take, Nat.sub_zero]
      exact Nat.min_le_left _ _
    · intro r hget hlt
      simp only [singleTermBatch, List.length_take] at hget hlt
      have hlen : min flags.max_appendlog_batch_size
          ((r0 :: rest).takeWhile (fun x => decide (x.logTerm = r0.logTerm))).length =
          ((r0 :: rest).takeWhile (fun x => decide (x.logTerm = r0.logTerm))).length := by
        omega
      rw [hlen] at hget
      have := takeWhile_stops _ _ _ hget
      simpa using this

/-- Witness of `prepareAppendLogRequest_batch`: the sample channel after the straight
append, with a batch size of two: term 2, the two entries 6 and 7. -/
theorem prepareAppendLogRequest_batch_witness :
    ∃ req, prepareAppendLogRequest smallFlags samplePart inFlightSample.host = .ok req ∧
      req.log_term = 2 ∧ req.log_str_list.length = 2 := by
  obtain ⟨r0, rest, req, _, hreq, _⟩ :=
    prepareAppendLogRequest_batch smallFlags samplePart inFlightSample.host (by decide)
  have hval : prepareAppendLogRequest smallFlags samplePart inFlightSample.host =
      .ok { space := 1, part := 1, current_term := 2, last_log_id := 7, leader_ip := 0,
            leader_port := 0, committed_log_id := 5, last_log_term_sent := 2,
            last_log_id_sent := 5, log_term := 2,
            log_str_list := [{ cluster := 0, log_str := [] },
                             { cluster := 0, log_str := [] }] } := rfl
  rw [hval] at hreq
  cases hreq
  exact ⟨_, hval, rfl, rfl⟩

/-- C18: building a request is fatal exactly when the Wal iterator over
`[last_log_id_sent + 1, log_id_to_send]` is not valid at its first position; then no
request is returned, and whenever the iterator is valid a request is returned; the
builder fails in no other way. -/
theorem prepareAppendLogRequest_fatal_iff (flags : Flags) (part : RaftPart) (s : Host) :
    (prepareAppendLogRequest flags part s = .error Failure.fatal ↔
      part.wal.iterator (s.lastLogIdSent + 1) s.logIdToSend = []) ∧
    (part.wal.iterator (s.lastLogIdSent + 1) s.logIdToSend = [] →
      ∀ req, prepareAppendLogRequest flags part s ≠ .ok req) ∧
    (part.wal.iterator (s.lastLogIdSent + 1) s.logIdToSend ≠ [] →
      ∃ req, prepareAppendLogRequest flags part s = .ok req) ∧
    (∀ e, prepareAppendLogRequest flags part s = .error e → e = Failure.fatal) := by
  cases hit : part.wal.iterator (s.lastLogIdSent + 1) s.logIdToSend with
  | nil =>
    have hp : prepareAppendLogRequest flags part s = .error Failure.fatal := by
      simp only [prepareAppendLogRequest, hit]
    rw [hp]
    refine ⟨⟨fun _ => rfl, fun _ => rfl⟩, ?_, ?_, ?_⟩
    · intro _ req h; cases h
    · intro h; exact absurd rfl h
    · intro e h; cases h; rfl
  | cons r rest =>
    obtain ⟨req, hp⟩ := prepareAppendLogRequest_of_valid flags part s (by rw [hit]; simp)
    rw [hp]
    refine ⟨⟨fun h => (by cases h), fun h => (by cases h)⟩, ?_, ?_, ?_⟩
    · intro h; cases h
    · intro _; exact ⟨_, rfl⟩
    · intro e h; cases h

end Host

namespace Channel

/-- The channel over the trimmed log with a request in flight is reachable. -/
theorem trimmedInFlight_reachable : trimmedInFlight.Reachable smallFlags trimmedPart :=
  ⟨Host.init, [.appendLogs 2 20 0 2 12, .send 0, .handOff 0], ⟨rfl, rfl, rfl, rfl⟩, by decide, rfl⟩

/-- The sample channel catching up from base 10 is reachable. -/
theorem catchUpSample_reachable : catchUpSample.Reachable smallFlags samplePart :=
  ⟨Host.init, [.appendLogs 2 12 5 2 10, .send 0, .handOff 0], ⟨rfl, rfl, rfl, rfl⟩, by decide, rfl⟩

/-- C12, as amended: in every reachable state with status OK and a request on going, a
`SUCCEEDED` response for which the follow-up request (if one is due) can be built — the
Wal iterator over `[resp.last_log_id + 1, log_id_to_send]` is valid when
`resp.last_log_id < log_id_to_send`, and the one over `[resp.last_log_id + 1, L']` is
valid when the response is at or above the target and a request for `L'` is pending —
makes the handler set `last_log_id_sent` and `last_log_term_sent` from the response; the
live promise is fulfilled by this response exactly when
`resp.last_log_id ≥ log_id_to_send`; and when `resp.last_log_id < log_id_to_send` exactly
one request, built from the new baseline, is chained while both promises, `pending_req`,
`log_id_to_send` and `request_on_going` stay as they were. -/
theorem succeeded_completion (flags : Flags) (part : RaftPart) (c : Channel)
    (resp : AppendLogResponse) (hreach : c.Reachable flags part)
    (hbusy : c.host.requestOnGoing = true)
    (hstopped : c.host.stopped = false) (hpaused : c.host.paused = false)
    (hcode : resp.error_code = ErrorCode.SUCCEEDED)
    (hmore : resp.last_log_id < c.host.logIdToSend →
      part.wal.iterator (resp.last_log_id + 1) c.host.logIdToSend ≠ [])
    (hadopt : c.host.logIdToSend ≤ resp.last_log_id → c.host.pendingReq ≠ emptyTup →
      part.wal.iterator (resp.last_log_id + 1) c.host.pendingReq.2.1 ≠ []) :
    ∃ s' comp, c.host.appendLogsInternal flags part (.value resp) = .ok (s', comp) ∧
      s'.lastLogIdSent = resp.last_log_id ∧ s'.lastLogTermSent = resp.last_log_term ∧
      ((c.host.promise.id, resp) ∈ comp.fulfilled ↔
        c.host.logIdToSend ≤ resp.last_log_id) ∧
      (c.host.logIdToSend ≤ resp.last_log_id →
        comp.fulfilled = [(c.host.promise.id, resp)]) ∧
      (resp.last_log_id < c.host.logIdToSend →
        comp.fulfilled = [] ∧
        (∃ req, comp.newReq = some req ∧
          Host.prepareAppendLogRequest flags part s' = .ok req ∧
          req.last_log_id_sent = resp.last_log_id ∧
          req.last_log_term_sent = resp.last_log_term ∧
          req.last_log_id = c.host.logIdToSend) ∧
        s'.promise = c.host.promise ∧ s'.cachingPromise = c.host.cachingPromise ∧
        s'.pendingReq = c.host.pendingReq ∧ s'.logIdToSend = c.host.logIdToSend ∧
        s'.requestOnGoing = true) := by
  obtain ⟨hlive, _⟩ := hreach.open_of_onGoing hbusy
  have hst : c.host.checkStatus = ErrorCode.SUCCEEDED := by
    simp [Host.checkStatus, hstopped, hpaused]
  by_cases hlt : resp.last_log_id < c.host.logIdToSend
  · obtain ⟨req, hreq⟩ := Host.prepareAppendLogRequest_of_valid flags part
      (c.host.rebased resp) (hmore hlt)
    have hhead := Host.prepareAppendLogRequest_header hreq
    refine ⟨c.host.rebased resp,
      { ret := resp, newReq := some req, notified := false, fulfilled := [] },
      Host.appendLogsInternal_more flags part _ resp req hcode hst hlt hreq, rfl, rfl,
      ?_, ?_, ?_⟩
    · constructor
      · intro h; simp at h
      · intro h; exact absurd hlt (not_lt.mpr h)
    · intro h; exact absurd hlt (not_lt.mpr h)
    · intro _
      exact ⟨rfl, ⟨req, rfl, hreq, hhead.2.2.2.2.2.2.2.2, hhead.2.2.2.2.2.2.2.1,
        hhead.2.2.2.1⟩, rfl, rfl, rfl, rfl, hbusy⟩
  · have hge : c.host.logIdToSend ≤ resp.last_log_id := not_lt.mp hlt
    by_cases hpend : c.host.pendingReq = emptyTup
    · refine ⟨{ c.host.delivered resp with requestOnGoing := false },
        { ret := resp, newReq := none, notified := true,
          fulfilled := [(c.host.promise.id, resp)] },
        Host.appendLogsInternal_delivered flags part _ resp hcode hst hge hlive hpend,
        rfl, rfl, ?_, ?_, ?_⟩
      · constructor
        · intro _; exact hge
        · intro _; simp
      · intro _; rfl
      · intro h; exact absurd h hlt
    · obtain ⟨req, hreq⟩ := Host.prepareAppendLogRequest_of_valid flags part
        (c.host.delivered resp).adopted (hadopt hge hpend)
      refine ⟨(c.host.delivered resp).adopted,
        { ret := resp, newReq := some req, notified := false,
          fulfilled := [(c.host.promise.id, resp)] },
        Host.appendLogsInternal_adopt flags part _ resp req hcode hst hge hlive hpend hreq,
        rfl, rfl, ?_, ?_, ?_⟩
      · constructor
        · intro _; exact hge
        · intro _; simp
      · intro _; rfl
      · intro h; exact absurd h hlt

/-- Witness of `succeeded_completion`: the follower of the sample channel acknowledges id 6
of the target 7, and one more request is chained from baseline 6. -/
theorem succeeded_completion_witness :
    ∃ s' comp req, inFlightSample.host.appendLogsInternal smallFlags samplePart
        (.value ⟨ErrorCode.SUCCEEDED, 2, 6, 2, 5⟩) = .ok (s', comp) ∧
      s'.lastLogIdSent = 6 ∧ comp.fulfilled = [] ∧ comp.newReq = some req ∧
      req.last_log_id_sent = 6 ∧ req.last_log_id = 7 ∧ s'.requestOnGoing = true := by
  obtain ⟨s', comp, h, h1, _, _, _, h5⟩ :=
    succeeded_completion smallFlags samplePart inFlightSample ⟨ErrorCode.SUCCEEDED, 2, 6, 2, 5⟩
      inFlightSample_reachable rfl rfl rfl rfl (fun _ => by decide)
      (fun _ hne => absurd rfl hne)
  obtain ⟨h6, ⟨req, h7, _, h8, _, h9⟩, _, _, _, _, h10⟩ := h5 (by decide)
  exact ⟨s', comp, req, h, h1, h6, h7, h8, h9, h10⟩

/-- C12 as stated fails: the channel over the trimmed log (ids 10 to 20) has status OK and
a request for `L = 20` on going; the follower answers `SUCCEEDED` with `last_log_id = 5`;
more is to send, but id 6 is no longer in the log, so building the follow-up request is
fatal: no state is installed and no request is chained. -/
theorem succeeded_completion_counterexample :
    trimmedInFlight.host.stopped = false ∧ trimmedInFlight.host.paused = false ∧
    trimmedInFlight.host.requestOnGoing = true ∧ trimmedInFlight.inFlight.length = 1 ∧
    trimmedInFlight.host.appendLogsInternal smallFlags trimmedPart
      (.value ⟨ErrorCode.SUCCEEDED, 2, 5, 2, 0⟩) = .error Failure.fatal ∧
    step smallFlags trimmedPart trimmedInFlight
      (.complete 0 (.value ⟨ErrorCode.SUCCEEDED, 2, 5, 2, 0⟩)) = none :=
  ⟨rfl, rfl, rfl, rfl, rfl, rfl⟩

/-- C13, as amended: in every reachable state with status OK, a request on going and a
non-empty `pending_req = (T', L', C', pT', pL')`, a `SUCCEEDED` response with
`resp.last_log_id ≥ log_id_to_send` for which the Wal iterator over
`[resp.last_log_id + 1, L']` is valid makes the handler fulfil the live promise with the
response, set `log_term_to_send = T'`, `log_id_to_send = L'`, `committed_log_id = C'`,
make the former caching promise the live promise, install a fresh caching promise, clear
`pending_req`, keep `request_on_going` true, and chain exactly one request whose header
carries `last_log_id = L'`, `current_term = T'`, `committed_log_id = C'` and the baseline
of the response (not `pT'`, `pL'`). -/
theorem adopt_pending (flags : Flags) (part : RaftPart) (c : Channel)
    (resp : AppendLogResponse) (T' : TermID) (L' C' : LogID) (pT' : TermID) (pL' : LogID)
    (hreach : c.Reachable flags part) (hbusy : c.host.requestOnGoing = true)
    (hstopped : c.host.stopped = false) (hpaused : c.host.paused = false)
    (hpend : c.host.pendingReq = (T', L', C', pT', pL'))
    (hne : ((T', L', C', pT', pL') : PendingReq) ≠ emptyTup)
    (hcode : resp.error_code = ErrorCode.SUCCEEDED)
    (hge : c.host.logIdToSend ≤ resp.last_log_id)
    (hwal : part.wal.iterator (resp.last_log_id + 1) L' ≠ []) :
    ∃ s' comp req, c.host.appendLogsInternal flags part (.value resp) = .ok (s', comp) ∧
      comp.fulfilled = [(c.host.promise.id, resp)] ∧
      s'.logTermToSend = T' ∧ s'.logIdToSend = L' ∧ s'.committedLogId = C' ∧
      s'.lastLogIdSent = resp.last_log_id ∧ s'.lastLogTermSent = resp.last_log_term ∧
      s'.promise = c.host.cachingPromise ∧
      s'.cachingPromise = SharedPromise.fresh c.host.promiseSeq ∧
      s'.pendingReq = emptyTup ∧ s'.requestOnGoing = true ∧
      comp.newReq = some req ∧
      Host.prepareAppendLogRequest flags part s' = .ok req ∧
      req.last_log_id = L' ∧ req.current_term = T' ∧ req.committed_log_id = C' ∧
      req.last_log_id_sent = resp.last_log_id ∧
      req.last_log_term_sent = resp.last_log_term := by
  obtain ⟨hlive, _⟩ := hreach.open_of_onGoing hbusy
  have hst : c.host.checkStatus = ErrorCode.SUCCEEDED := by
    simp [Host.checkStatus, hstopped, hpaused]
  have hne1 : c.host.pendingReq ≠ emptyTup := by rw [hpend]; exact hne
  have hT : (c.host.delivered resp).adopted.logTermToSend = T' := by
    simp [Host.adopted, Host.delivered, Host.rebased, hpend]
  have hL : (c.host.delivered resp).adopted.logIdToSend = L' := by
    simp [Host.adopted, Host.delivered, Host.rebased, hpend]
  have hC : (c.host.delivered resp).adopted.committedLogId = C' := by
    simp [Host.adopted, Host.delivered, Host.rebased, hpend]
  have hwal1 : part.wal.iterator ((c.host.delivered resp).adopted.lastLogIdSent + 1)
      (c.host.delivered resp).adopted.logIdToSend ≠ [] := by
    rw [hL]; exact hwal
  obtain ⟨req, hreq⟩ := Host.prepareAppendLogRequest_of_valid flags part
    (c.host.delivered resp).adopted hwal1
  have hhead := Host.prepareAppendLogRequest_header hreq
  refine ⟨(c.host.delivered resp).adopted,
    { ret := resp, newReq := some req, notified := false,
      fulfilled := [(c.host.promise.id, resp)] }, req,
    Host.appendLogsInternal_adopt flags part _ resp req hcode hst hge hlive hne1 hreq,
    rfl, hT, hL, hC, rfl, rfl, rfl, rfl, rfl, hbusy, rfl, hreq, ?_, ?_, ?_, ?_, ?_⟩
  · rw [hhead.2.2.2.1, hL]
  · rw [hhead.2.2.1, hT]
  · rw [hhead.2.2.2.2.2.2.1, hC]
  · rw [hhead.2.2.2.2.2.2.2.2]; rfl
  · rw [hhead.2.2.2.2.2.2.2.1]; rfl

/-- Witness of `adopt_pending`: with `L = 9` and then `L = 11` coalesced behind the request
for `L = 7`, the response `{SUCCEEDED, last_log_id = 7}` chains one request, for
`L = 11`, from baseline 7. -/
theorem adopt_pending_witness :
    ∃ s' comp req, coalescedSample.host.appendLogsInternal smallFlags samplePart
        (.value ⟨ErrorCode.SUCCEEDED, 2, 7, 2, 5⟩) = .ok (s', comp) ∧
      comp.newReq = some req ∧ req.last_log_id = 11 ∧ req.last_log_id_sent = 7 ∧
      s'.logIdToSend = 11 ∧ s'.pendingReq = emptyTup ∧ s'.requestOnGoing = true := by
  obtain ⟨s', comp, req, h, _, _, h3, _, _, _, _, _, h9, h10, h11, _, h13, _, _, h16, _⟩ :=
    adopt_pending smallFlags samplePart coalescedSample ⟨ErrorCode.SUCCEEDED, 2, 7, 2, 5⟩
      2 11 5 2 9 coalescedSample_reachable rfl rfl rfl rfl (by decide) rfl (by decide)
      (by decide)
  exact ⟨s', comp, req, h, h11, h13, h16, h3, h9, h10⟩

/-- C13 as stated fails: with `L = 9` and `L = 11` coalesced behind the request for
`L = 7` (status OK, `pending_req` non-empty), the follower answers `SUCCEEDED` with
`last_log_id = 11 ≥ 7`; the range `[12, 11]` of the adopted request is empty, so building
it is fatal: nothing is chained and no state is installed. -/
theorem adopt_pending_counterexample :
    coalescedSample.host.stopped = false ∧ coalescedSample.host.paused = false ∧
    coalescedSample.host.requestOnGoing = true ∧
    coalescedSample.host.pendingReq = (2, 11, 5, 2, 9) ∧
    coalescedSample.host.logIdToSend ≤ 11 ∧
    coalescedSample.host.appendLogsInternal smallFlags samplePart
      (.value ⟨ErrorCode.SUCCEEDED, 2, 11, 2, 5⟩) = .error Failure.fatal ∧
    step smallFlags samplePart coalescedSample
      (.complete 0 (.value ⟨ErrorCode.SUCCEEDED, 2, 11, 2, 5⟩)) = none :=
  ⟨rfl, rfl, rfl, rfl, by decide, rfl, rfl⟩

end Channel

namespace Host

/-- C14, as amended: with status OK (whatever `request_on_going` is), an `E_LOG_GAP`
response carrying `last_log_id = X` and `last_log_term = Y` for which the Wal iterator
over `[X + 1, log_id_to_send]` is valid makes the handler set `last_log_id_sent = X` and
`last_log_term_sent = Y`, build exactly one request from that state (header
`last_log_id_sent = X`, `last_log_term_sent = Y`, `last_log_id = log_id_to_send`) and
chain it, fulfil no promise, and leave both promises, `pending_req`, `log_id_to_send`
and `request_on_going` as they were. -/
theorem gap_recovery (flags : Flags) (part : RaftPart) (s : Host)
    (resp : AppendLogResponse)
    (hstopped : s.stopped = false) (hpaused : s.paused = false)
    (hcode : resp.error_code = ErrorCode.E_LOG_GAP)
    (hwal : part.wal.iterator (resp.last_log_id + 1) s.logIdToSend ≠ []) :
    ∃ s' comp req, s.appendLogsInternal flags part (.value resp) = .ok (s', comp) ∧
      s'.lastLogIdSent = resp.last_log_id ∧ s'.lastLogTermSent = resp.last_log_term ∧
      comp.newReq = some req ∧ comp.fulfilled = [] ∧ comp.notified = false ∧
      prepareAppendLogRequest flags part s' = .ok req ∧
      req.last_log_id_sent = resp.last_log_id ∧
      req.last_log_term_sent = resp.last_log_term ∧
      req.last_log_id = s.logIdToSend ∧
      s'.promise = s.promise ∧ s'.cachingPromise = s.cachingPromise ∧
      s'.pendingReq = s.pendingReq ∧ s'.logIdToSend = s.logIdToSend ∧
      s'.logTermToSend = s.logTermToSend ∧ s'.committedLogId = s.committedLogId ∧
      s'.requestOnGoing = s.requestOnGoing := by
  have hst : s.checkStatus = ErrorCode.SUCCEEDED := by
    simp [checkStatus, hstopped, hpaused]
  obtain ⟨req, hreq⟩ := prepareAppendLogRequest_of_valid flags part (s.rebased resp) hwal
  have hhead := prepareAppendLogRequest_header hreq
  exact ⟨s.rebased resp,
    { ret := resp, newReq := some req, notified := false, fulfilled := [] }, req,
    appendLogsInternal_gap flags part s resp req hcode hst hreq,
    rfl, rfl, rfl, rfl, rfl, hreq, hhead.2.2.2.2.2.2.2.2, hhead.2.2.2.2.2.2.2.1,
    hhead.2.2.2.1, rfl, rfl, rfl, rfl, rfl, rfl, rfl⟩

/-- Witness of `gap_recovery`: target 12 from base 10, the follower answers
`{E_LOG_GAP, last_log_id = 4, last_log_term = 1}`, and the chained request starts from
baseline 4. -/
theorem gap_recovery_witness :
    ∃ s' comp req, catchUpSample.host.appendLogsInternal smallFlags samplePart
        (.value ⟨ErrorCode.E_LOG_GAP, 2, 4, 1, 0⟩) = .ok (s', comp) ∧
      s'.lastLogIdSent = 4 ∧ s'.lastLogTermSent = 1 ∧ comp.newReq = some req ∧
      comp.fulfilled = [] ∧ req.last_log_id_sent = 4 ∧ req.last_log_id = 12 := by
  obtain ⟨s', comp, req, h, h1, h2, h3, h4, _, _, h7, _, h9, _⟩ :=
    gap_recovery smallFlags samplePart catchUpSample.host ⟨ErrorCode.E_LOG_GAP, 2, 4, 1, 0⟩
      rfl rfl rfl (by decide)
  exact ⟨s', comp, req, h, h1, h2, h3, h4, h7, h9⟩

/-- C14 as stated fails: the channel over the trimmed log (ids 10 to 20) has status OK and
a request for `L = 20` on going; the follower answers
`{E_LOG_GAP, last_log_id = 4, last_log_term = 1}`; id 5 is no longer in the log, so
building the catch-up request is fatal and nothing is chained. -/
theorem gap_recovery_counterexample :
    trimmedInFlight.host.stopped = false ∧ trimmedInFlight.host.paused = false ∧
    trimmedInFlight.host.requestOnGoing = true ∧ trimmedInFlight.inFlight.length = 1 ∧
    trimmedInFlight.host.appendLogsInternal smallFlags trimmedPart
      (.value ⟨ErrorCode.E_LOG_GAP, 2, 4, 1, 0⟩) = .error Failure.fatal ∧
    Channel.step smallFlags trimmedPart trimmedInFlight
      (.complete 0 (.value ⟨ErrorCode.E_LOG_GAP, 2, 4, 1, 0⟩)) = none :=
  ⟨rfl, rfl, rfl, rfl, rfl, rfl⟩

end Host

/-! ## The baseline under responses -/

namespace Host

/-- C19, as amended: `last_log_id_sent` is not monotone.  `appendLogs` never decreases it,
`pause`, `resume` and `stop` do not touch it, and the completion handler leaves it as it
was on a transport exception, on any error code other than `SUCCEEDED` and `E_LOG_GAP`,
and whenever the status is not OK; but every `SUCCEEDED` or `E_LOG_GAP` response handled
with status OK overwrites it with `resp.last_log_id`, lower or not: the response is not
treated as erroneous. -/
theorem lastLogIdSent_changes (flags : Flags) (part : RaftPart) (s : Host) :
    (∀ T L C pT pL r, s.appendLogs flags part T L C pT pL = .ok r →
      s.lastLogIdSent ≤ r.host.lastLogIdSent) ∧
    (s.pause.lastLogIdSent = s.lastLogIdSent ∧ s.resume.lastLogIdSent = s.lastLogIdSent ∧
      s.stop.lastLogIdSent = s.lastLogIdSent) ∧
    (∀ t s' comp, s.appendLogsInternal flags part t = .ok (s', comp) →
      (t = .exception ∨ s.checkStatus ≠ ErrorCode.SUCCEEDED ∨
        ∃ resp, t = .value resp ∧ resp.error_code ≠ ErrorCode.SUCCEEDED ∧
          resp.error_code ≠ ErrorCode.E_LOG_GAP) →
      s'.lastLogIdSent = s.lastLogIdSent) ∧
    (∀ resp s' comp, s.appendLogsInternal flags part (.value resp) = .ok (s', comp) →
      s.checkStatus = ErrorCode.SUCCEEDED →
      (resp.error_code = ErrorCode.SUCCEEDED ∨ resp.error_code = ErrorCode.E_LOG_GAP) →
      s'.lastLogIdSent = resp.last_log_id) := by
  refine ⟨?_, ⟨rfl, rfl, rfl⟩, ?_, ?_⟩
  · intro T L C pT pL r h
    rcases appendLogs_cases h with ⟨hh, _⟩ | ⟨_, _, _, _, hh, _⟩ |
      ⟨_, _, _, _, hle, hh, _⟩
    · rw [hh]
    · rw [hh]
    · rw [hh]; exact hle
  · intro t s' comp h hwhy
    rcases appendLogsInternal_cases h with ⟨r, hq, _⟩ |
      ⟨hst, resp, _, ht, hcode, _⟩ | ⟨hst, resp, ht, hcode, _⟩ |
      ⟨hst, resp, _, ht, hcode, _⟩
    · obtain ⟨_, _, hs, _⟩ := quiesce_cases hq
      rw [hs]; rfl
    · rcases hwhy with h1 | h1 | ⟨resp1, h1, h2, h3⟩
      · rw [h1] at ht; cases ht
      · exact absurd hst h1
      · rw [h1] at ht; cases ht
        rcases hcode with ⟨hc, _⟩ | hc
        · exact absurd hc h2
        · exact absurd hc h3
    · rcases hwhy with h1 | h1 | ⟨resp1, h1, h2, _⟩
      · rw [h1] at ht; cases ht
      · exact absurd hst h1
      · rw [h1] at ht; cases ht
        exact absurd hcode h2
    · rcases hwhy with h1 | h1 | ⟨resp1, h1, h2, _⟩
      · rw [h1] at ht; cases ht
      · exact absurd hst h1
      · rw [h1] at ht; cases ht
        exact absurd hcode h2
  · intro resp s' comp h hst hcode
    rcases appendLogsInternal_cases h with ⟨r, hq, hwhy⟩ |
      ⟨_, resp1, _, ht, _, hs, _⟩ | ⟨_, resp1, ht, _, _, _, _, hs, _⟩ |
      ⟨_, resp1, _, ht, _, _, _, _, hs, _⟩
    · rcases hwhy with ⟨h1, _⟩ | ⟨h1, _⟩ | ⟨h1, h2, h3⟩
      · cases h1
      · exact absurd hst h1
      · cases h1
        rcases hcode with hc | hc
        · exact absurd hc h2
        · exact absurd hc h3
    · cases ht; rw [hs]; rfl
    · cases ht; rw [hs]; rfl
    · cases ht; rw [hs]; rfl

/-- C19 as stated fails: the sample channel has target 12 and baseline 10; an `E_LOG_GAP`
response with `last_log_id = 4`, and likewise a `SUCCEEDED` response with
`last_log_id = 4`, is handled as usual: `last_log_id_sent` drops from 10 to 4, a
follow-up request is chained and no promise is fulfilled. -/
theorem lastLogIdSent_changes_counterexample :
    catchUpSample.host.lastLogIdSent = 10 ∧
    (∃ c, Channel.step smallFlags samplePart catchUpSample
        (.complete 0 (.value ⟨ErrorCode.E_LOG_GAP, 2, 4, 1, 0⟩)) = some c ∧
      c.host.lastLogIdSent = 4 ∧ c.built.length = 1 ∧ c.host.requestOnGoing = true ∧
      c.host.promise.value = none) ∧
    (∃ c, Channel.step smallFlags samplePart catchUpSample
        (.complete 0 (.value ⟨ErrorCode.SUCCEEDED, 2, 4, 2, 0⟩)) = some c ∧
      c.host.lastLogIdSent = 4 ∧ c.built.length = 1 ∧ c.host.requestOnGoing = true ∧
      c.host.promise.value = none) ∧
    ¬ ((10 : LogID) ≤ 4) :=
  ⟨rfl, ⟨_, rfl, rfl, rfl, rfl, rfl⟩, ⟨_, rfl, rfl, rfl, rfl, rfl⟩, by decide⟩

/-! ## Coalesced submissions -/

/-- While a request is on going, a call of `appendLogs` that returns a future of a promise
took the coalesce branch. -/
theorem appendLogs_future_onGoing {flags : Flags} {part : RaftPart} {s : Host}
    {x : Submission} {r : Submitted} {id : Nat} (hbusy : s.requestOnGoing = true)
    (h : s.appendLogs flags part x.term x.logId x.committedLogId x.prevLogTerm x.prevLogId =
      .ok r)
    (hret : r.ret = .ofPromise id) :
    id = s.cachingPromise.id ∧ s.logIdToSend < x.logId ∧
    r.host = { s with pendingReq := x.tuple
                      cachingPromise := { s.cachingPromise with
                                          size := s.cachingPromise.size + 1 } } := by
  rcases appendLogs_cases h with ⟨_, _, resp, hr⟩ | ⟨_, _, hL, _, hh, _, hr⟩ |
    ⟨hidle, _⟩
  · rw [hr] at hret; cases hret
  · rw [hr] at hret
    cases hret
    exact ⟨rfl, hL, hh⟩
  · rw [hbusy] at hidle; cases hidle

/-- A run of coalesced submissions: every future is one of the caching promise, whose
observer count grows by their number, `pending_req` holds the last of them, and nothing
else changes. -/
theorem submitAll_coalesced (flags : Flags) (part : RaftPart) :
    ∀ (subs : List Submission) (s s' : Host) (futures : List AppendFuture),
      s.requestOnGoing = true →
      submitAll flags part s subs = .ok (s', futures) →
      (∀ f ∈ futures, ∃ id, f = .ofPromise id) →
      futures.length = subs.length ∧
      (∀ f ∈ futures, f = .ofPromise s.cachingPromise.id) ∧
      s' = { s with pendingReq := s'.pendingReq
                    cachingPromise := { s.cachingPromise with
                                        size := s.cachingPromise.size + subs.length } } ∧
      (∀ last, subs.getLast? = some last →
        s'.pendingReq = last.tuple ∧ s.logIdToSend < last.logId) := by
  intro subs
  induction subs with
  | nil =>
    intro s s' futures _ hcall _
    simp only [submitAll] at hcall
    cases hcall
    refine ⟨rfl, ?_, rfl, ?_⟩
    · intro f hf; cases hf
    · intro last h; cases h
  | cons x rest ih =>
    intro s s' futures hbusy hcall hco
    simp only [submitAll] at hcall
    split at hcall
    · cases hcall
    · rename_i r hr
      split at hcall
      · cases hcall
      · rename_i s1 fs hrest
        cases hcall
        obtain ⟨id, hid⟩ := hco r.ret (List.mem_cons_self _ _)
        obtain ⟨hid1, hL, hhost⟩ := appendLogs_future_onGoing hbusy hr hid
        have hbusy1 : r.host.requestOnGoing = true := by rw [hhost]; exact hbusy
        obtain ⟨hlen, hall, hframe, hlast⟩ := ih r.host s' fs hbusy1 hrest
          (fun f hf => hco f (List.mem_cons_of_mem _ hf))
        have hcid : r.host.cachingPromise.id = s.cachingPromise.id := by rw [hhost]
        refine ⟨by simp [hlen], ?_, ?_, ?_⟩
        · intro f hf
          rcases List.mem_cons.mp hf with h | h
          · rw [h, hid, hid1]
          · rw [hall f h, hcid]
        · rw [hframe, hhost]
          simp only [List.length_cons, Host.mk.injEq, SharedPromise.mk.injEq, true_and,
            and_true]
          omega
        · intro last hl
          cases rest with
          | nil =>
            simp only [List.getLast?_singleton, Option.some.injEq] at hl
            simp only [submitAll] at hrest
            cases hrest
            rw [← hl, hhost]
            exact ⟨rfl, hL⟩
          | cons y ys =>
            rw [List.getLast?_cons_cons] at hl
            obtain ⟨h1, h2⟩ := hlast last hl
            refine ⟨h1, ?_⟩
            rw [hhost] at h2
            exact h2

end Host

namespace Channel

/-- C20, as amended: in every reachable state with a request on going, `N ≥ 1` submissions
made one after the other that each return a future of a promise are all coalesced: the
`N` futures are futures of one and the same promise, the caching promise (whose observer
count grows by `N`), so they resolve with the same response; `pending_req` holds the last
of them and nothing else changes.  When the request on going then completes, the handler
chains at most one request, and it does one of three things: it quiesces through
`setResponse`, fulfilling the live promise and the promise of the `N` futures with the
same response and chaining nothing; or it chains one request for the old target, leaving
the `N` submissions pending as they are; or it chains one request for the log id, term
and commit id of the last submission and makes the promise of the `N` futures the live
promise.  (Further requests for that target may follow: batch cap, term boundary, gap.) -/
theorem coalescing_class (flags : Flags) (part : RaftPart) (c : Channel)
    (subs : List Submission) (s' : Host) (futures : List AppendFuture) (last : Submission)
    (hreach : c.Reachable flags part) (hbusy : c.host.requestOnGoing = true)
    (hlast : subs.getLast? = some last)
    (hcall : Host.submitAll flags part c.host subs = .ok (s', futures))
    (hco : ∀ f ∈ futures, ∃ id, f = .ofPromise id) :
    futures.length = subs.length ∧
    (∀ f ∈ futures, f = .ofPromise c.host.cachingPromise.id) ∧
    (∀ f ∈ futures, ∀ g ∈ futures, f = g) ∧
    s' = { c.host with
           pendingReq := last.tuple
           cachingPromise := { c.host.cachingPromise with
                               size := c.host.cachingPromise.size + subs.length } } ∧
    c.host.logIdToSend < last.logId ∧
    (∀ t s'' comp, s'.appendLogsInternal flags part t = .ok (s'', comp) →
      (comp.newReq = none ∧ s''.requestOnGoing = false ∧
        ∃ r, comp.fulfilled = [(c.host.promise.id, r), (c.host.cachingPromise.id, r)]) ∨
      (∃ req, comp.newReq = some req ∧ req.last_log_id = c.host.logIdToSend ∧
        comp.fulfilled = [] ∧ s''.cachingPromise = s'.cachingPromise ∧
        s''.pendingReq = last.tuple) ∨
      (∃ req resp, comp.newReq = some req ∧ req.last_log_id = last.logId ∧
        req.current_term = last.term ∧ req.committed_log_id = last.committedLogId ∧
        comp.fulfilled = [(c.host.promise.id, resp)] ∧
        s''.promise = s'.cachingPromise ∧ s''.pendingReq = emptyTup)) := by
  obtain ⟨hlen, hall, hframe, hl⟩ :=
    Host.submitAll_coalesced flags part subs c.host s' futures hbusy hcall hco
  obtain ⟨hpend, hahead⟩ := hl last hlast
  have hpos : 0 < last.logId :=
    lt_of_le_of_lt hreach.good_exclusive.1.target_nonneg hahead
  have hne : s'.pendingReq ≠ emptyTup := by
    rw [hpend]; exact Host.ne_emptyTup_of_pos hpos
  have hp : s'.promise = c.host.promise := by rw [hframe]
  have hcid : s'.cachingPromise.id = c.host.cachingPromise.id := by rw [hframe]
  have htarget : s'.logIdToSend = c.host.logIdToSend := by rw [hframe]
  refine ⟨hlen, hall, ?_, ?_, hahead, ?_⟩
  · intro f hf g hg
    rw [hall f hf, hall g hg]
  · rw [← hpend]; exact hframe
  · intro t s'' comp h
    rcases Host.appendLogsInternal_cases h with ⟨r, hq, _⟩ |
      ⟨_, resp, req, _, _, hs, hprep, hc⟩ | ⟨_, resp, _, _, _, _, hempty, _⟩ |
      ⟨_, resp, req, _, _, _, _, _, hs, hprep, hc⟩
    · obtain ⟨_, _, hs, hc⟩ := Host.quiesce_cases hq
      refine Or.inl ⟨by rw [hc], by rw [hs]; rfl, r, ?_⟩
      rw [hc, hp, hcid]
    · have hhead := Host.prepareAppendLogRequest_header hprep
      refine Or.inr (Or.inl ⟨req, by rw [hc], ?_, by rw [hc], by rw [hs]; rfl, ?_⟩)
      · rw [hhead.2.2.2.1, hs]
        exact htarget
      · rw [hs]; exact hpend
    · exact absurd hempty hne
    · have hhead := Host.prepareAppendLogRequest_header hprep
      have h1 : s''.logIdToSend = last.logId := by
        rw [hs]
        show s'.pendingReq.2.1 = last.logId
        rw [hpend]; rfl
      have h2 : s''.logTermToSend = last.term := by
        rw [hs]
        show s'.pendingReq.1 = last.term
        rw [hpend]; rfl
      have h3 : s''.committedLogId = last.committedLogId := by
        rw [hs]
        show s'.pendingReq.2.2.1 = last.committedLogId
        rw [hpend]; rfl
      refine Or.inr (Or.inr ⟨req, resp, by rw [hc], ?_, ?_, ?_, ?_, by rw [hs]; rfl,
        by rw [hs]; rfl⟩)
      · rw [hhead.2.2.2.1, h1]
      · rw [hhead.2.2.1, h2]
      · rw [hhead.2.2.2.2.2.2.1, h3]
      · rw [hc, hp]

/-- Witness of `coalescing_class`: `L = 9` and `L = 11` submitted while the request for
`L = 7` of the sample channel is in flight. -/
theorem coalescing_class_witness :
    Host.submitAll smallFlags samplePart inFlightSample.host
        [⟨2, 9, 5, 2, 7⟩, ⟨2, 11, 5, 2, 9⟩] =
      .ok (coalescedSample.host, [.ofPromise 2, .ofPromise 2]) ∧
    (∀ f ∈ [AppendFuture.ofPromise 2, AppendFuture.ofPromise 2],
      f = .ofPromise inFlightSample.host.cachingPromise.id) ∧
    coalescedSample.host.pendingReq = (2, 11, 5, 2, 9) ∧
    coalescedSample.host.cachingPromise.size = 2 :=
  ⟨rfl,
    (coalescing_class smallFlags samplePart inFlightSample
      [⟨2, 9, 5, 2, 7⟩, ⟨2, 11, 5, 2, 9⟩] coalescedSample.host
      [.ofPromise 2, .ofPromise 2] ⟨2, 11, 5, 2, 9⟩ inFlightSample_reachable rfl rfl rfl
      (fun f hf => by
        rcases List.mem_cons.mp hf with h | h
        · exact ⟨2, h⟩
        · exact ⟨2, List.mem_singleton.mp h⟩)).2.1,
    rfl, rfl⟩

/-- C20 as stated fails: with a batch size of two, `L = 9` and `L = 11` are coalesced
(both get a future of promise 2) behind the request for `L = 7`; after that request has
completed, two requests are issued on their behalf, `[8, 9]` from baseline 7 and, once it
is acknowledged, `[10, 11]` from baseline 9, both for target 11. -/
theorem coalescing_class_counterexample :
    Host.submitAll smallFlags samplePart inFlightSample.host
        [⟨2, 9, 5, 2, 7⟩, ⟨2, 11, 5, 2, 9⟩] =
      .ok (coalescedSample.host, [.ofPromise 2, .ofPromise 2]) ∧
    ∃ c, run smallFlags samplePart (start Host.init)
        [.appendLogs 2 7 5 2 5, .send 0, .handOff 0, .appendLogs 2 9 5 2 7, .appendLogs 2 11 5 2 9,
         .complete 0 (.value ⟨ErrorCode.SUCCEEDED, 2, 7, 2, 5⟩), .send 0, .handOff 0,
         .complete 0 (.value ⟨ErrorCode.SUCCEEDED, 2, 9, 2, 5⟩), .send 0, .handOff 0] = some c ∧
      c.wire.map (fun r => (r.last_log_id_sent, r.last_log_id)) =
        [(5, 7), (7, 11), (9, 11)] ∧
      c.host.promise.id = 2 ∧ c.host.promise.value = none :=
  ⟨rfl, _, rfl, rfl, rfl, rfl⟩

/-- In a reachable state with anything under way, a request is on going. -/
theorem Reachable.onGoing_of_underWay {flags : Flags} {part : RaftPart} {c : Channel}
    (h : c.Reachable flags part) (hpos : 0 < c.underWay) : c.host.requestOnGoing = true := by
  cases hb : c.host.requestOnGoing
  · have := h.good_exclusive.2.2 hb
    omega
  · rfl

/-- The channel started idle at 5 with the straight append in flight is reachable. -/
theorem straightSample_reachable : straightSample.Reachable smallFlags samplePart :=
  ⟨idleAtFive, [.appendLogs 2 7 5 2 5, .send 0, .handOff 0], ⟨rfl, rfl, rfl, rfl⟩, by decide, rfl⟩

/-- The sample channel after full delivery is reachable. -/
theorem deliveredSample_reachable : deliveredSample.Reachable smallFlags samplePart :=
  ⟨Host.init, [.appendLogs 2 7 5 2 5, .send 0, .handOff 0,
      .complete 0 (.value ⟨ErrorCode.SUCCEEDED, 2, 7, 2, 5⟩)],
    ⟨rfl, rfl, rfl, rfl⟩, by decide, rfl⟩

/-- The sample channel after a transport exception is reachable. -/
theorem retrySample_reachable : retrySample.Reachable smallFlags samplePart :=
  ⟨Host.init, [.appendLogs 2 7 5 2 5, .send 0, .handOff 0, .complete 0 .exception],
    ⟨rfl, rfl, rfl, rfl⟩, by decide, rfl⟩

/-- The sample channel stopped before dispatch is reachable. -/
theorem stoppedBuilt_reachable : stoppedBuilt.Reachable smallFlags samplePart :=
  ⟨Host.init, [.appendLogs 2 7 5 2 5, .stop], ⟨rfl, rfl, rfl, rfl⟩, by decide, rfl⟩

/-- The crowded sample channel is reachable. -/
theorem crowdedSample_reachable : crowdedSample.Reachable smallFlags samplePart :=
  ⟨Host.init, [.appendLogs 2 7 5 2 5, .send 0, .handOff 0, .appendLogs 2 9 5 2 7, .appendLogs 2 11 5 2 9,
      .appendLogs 2 13 5 2 11],
    ⟨rfl, rfl, rfl, rfl⟩, by decide, rfl⟩

end Channel

/-! ## Backpressure and votes -/

namespace Host

/-- C21 as stated fails: with `max_outstanding_requests = 2`, a request in flight and
three submissions with growing log ids, all three are coalesced (the third is admitted
because the caching promise then has `2 ≤ 2` observers), so the caching promise of a
reachable state has 3 observers, none resolved; only the fourth is rejected. -/
theorem backpressure_overshoot :
    crowdedSample.Reachable smallFlags samplePart ∧
    smallFlags.max_outstanding_requests = 2 ∧
    crowdedSample.host.cachingPromise.size = 3 ∧
    crowdedSample.host.cachingPromise.value = none ∧
    ¬ (crowdedSample.host.cachingPromise.size ≤ smallFlags.max_outstanding_requests) ∧
    Host.submitAll smallFlags samplePart inFlightSample.host
        [⟨2, 9, 5, 2, 7⟩, ⟨2, 11, 5, 2, 9⟩, ⟨2, 13, 5, 2, 11⟩, ⟨2, 15, 5, 2, 13⟩] =
      .ok (crowdedSample.host,
        [.ofPromise 2, .ofPromise 2, .ofPromise 2,
         .ready (AppendLogResponse.withCode ErrorCode.E_TOO_MANY_REQUESTS)]) :=
  ⟨Channel.crowdedSample_reachable, rfl, rfl, rfl, by decide, rfl⟩

/-- C22: `askForVote` on a stopped channel returns at once a response with
`E_HOST_STOPPED`, on a paused and not stopped channel one with `E_NOT_A_LEADER`, and
otherwise the transport's future for the request as it was given; in all three cases
the state of the channel (counters, flags, both promises) is the state before the call,
and the future does not depend on `request_on_going`. -/
theorem askForVote_passthrough (s : Host) (req : AskForVoteRequest) :
    (s.stopped = true →
      (s.askForVote req).2 = .ready { error_code := ErrorCode.E_HOST_STOPPED }) ∧
    (s.stopped = false → s.paused = true →
      (s.askForVote req).2 = .ready { error_code := ErrorCode.E_NOT_A_LEADER }) ∧
    (s.stopped = false → s.paused = false → (s.askForVote req).2 = .ofTransport req) ∧
    (s.askForVote req).1 = s ∧
    (∀ b : Bool, (Host.askForVote { s with requestOnGoing := b } req).2 =
      (s.askForVote req).2) := by
  refine ⟨?_, ?_, ?_, ?_, ?_⟩
  · intro h
    simp [askForVote, checkStatus, h]
  · intro h1 h2
    simp [askForVote, checkStatus, h1, h2]
  · intro h1 h2
    simp [askForVote, checkStatus, h1, h2]
  · unfold askForVote
    simp only
    split_ifs <;> rfl
  · intro b
    cases h1 : s.stopped <;> cases h2 : s.paused <;>
      simp [askForVote, checkStatus, h1, h2]

end Host

/-! ## Terminal and chaining paths -/

namespace Host

/-- With both promises unfulfilled the continuation can fail in one way only: building
the follow-up request is fatal. -/
theorem appendLogsInternal_error (flags : Flags) (part : RaftPart) (s : Host) (t : Try)
    (e : Failure) (hlive : s.promise.value = none) (hcaching : s.cachingPromise.value = none)
    (h : s.appendLogsInternal flags part t = .error e) : e = Failure.fatal := by
  have hq : ∀ r, ∃ x, s.quiesce r = .ok x := fun r => ⟨_, quiesce_open s r hlive hcaching⟩
  have hprep : ∀ s1 : Host, prepareAppendLogRequest flags part s1 = .error e →
      e = Failure.fatal := by
    intro s1 h1
    unfold prepareAppendLogRequest at h1
    split at h1
    · cases h1; rfl
    · cases h1
  unfold appendLogsInternal at h
  cases t with
  | exception =>
    obtain ⟨x, hx⟩ := hq (AppendLogResponse.withCode ErrorCode.E_EXCEPTION)
    simp only at h
    rw [hx] at h
    cases h
  | value resp =>
    simp only at h
    split at h
    · unfold onSucceeded at h
      simp only at h
      split_ifs at h with hst hmore
      · obtain ⟨x, hx⟩ := hq (AppendLogResponse.withCode s.checkStatus)
        rw [hx] at h
        cases h
      · split at h
        · rename_i e1 he
          cases h
          exact hprep _ he
        · cases h
      · simp only [SharedPromise.setValue, rebased, hlive] at h
        simp only [Option.isSome_none, Bool.false_eq_true, if_false] at h
        split_ifs at h with hno
        split at h
        · rename_i e1 he
          cases h
          exact hprep _ he
        · cases h
    · unfold onLogGap at h
      simp only at h
      split_ifs at h with hst
      · obtain ⟨x, hx⟩ := hq (AppendLogResponse.withCode s.checkStatus)
        rw [hx] at h
        cases h
      · split at h
        · rename_i e1 he
          cases h
          exact hprep _ he
        · cases h
    · obtain ⟨x, hx⟩ := hq resp
      rw [hx] at h
      cases h

/-- Whatever the continuation returns, it has either chained a request, kept
`request_on_going` and not notified, or chained nothing, cleared `request_on_going` and
notified. -/
theorem appendLogsInternal_chain_or_quiesce {flags : Flags} {part : RaftPart} {s : Host}
    {t : Try} {s' : Host} {c : Completion}
    (h : s.appendLogsInternal flags part t = .ok (s', c)) :
    (∃ req, c.newReq = some req ∧ s'.requestOnGoing = s.requestOnGoing ∧
      c.notified = false) ∨
    (c.newReq = none ∧ s'.requestOnGoing = false ∧ c.notified = true) := by
  rcases appendLogsInternal_cases h with ⟨r, hq, _⟩ | ⟨_, resp, req, _, _, hs, _, hc⟩ |
    ⟨_, resp, _, _, _, _, _, hs, hc⟩ | ⟨_, resp, req, _, _, _, _, _, hs, _, hc⟩
  · obtain ⟨_, _, hs, hc⟩ := quiesce_cases hq
    subst hs hc
    exact Or.inr ⟨rfl, rfl, rfl⟩
  · subst hs hc
    exact Or.inl ⟨req, rfl, rfl, rfl⟩
  · subst hs hc
    exact Or.inr ⟨rfl, rfl, rfl⟩
  · subst hs hc
    exact Or.inl ⟨req, rfl, rfl, rfl⟩

end Host

namespace Channel

/-- C24: in every reachable state with status OK, a request on going and `pending_req`
empty, a `SUCCEEDED` response with `resp.last_log_id ≥ log_id_to_send` makes the handler
fulfil the live promise (and only it) with the follower's response, set
`last_log_id_sent` and `last_log_term_sent` from the response, clear `request_on_going`,
chain no request and notify; the caching promise, `pending_req` and the other counters
stay as they were. -/
theorem delivered_nothing_pending (flags : Flags) (part : RaftPart) (c : Channel)
    (resp : AppendLogResponse) (hreach : c.Reachable flags part)
    (hbusy : c.host.requestOnGoing = true)
    (hstopped : c.host.stopped = false) (hpaused : c.host.paused = false)
    (hpend : c.host.pendingReq = emptyTup)
    (hcode : resp.error_code = ErrorCode.SUCCEEDED)
    (hge : c.host.logIdToSend ≤ resp.last_log_id) :
    ∃ s' comp, c.host.appendLogsInternal flags part (.value resp) = .ok (s', comp) ∧
      comp.fulfilled = [(c.host.promise.id, resp)] ∧
      s'.promise.id = c.host.promise.id ∧ s'.promise.value = some resp ∧
      s'.lastLogIdSent = resp.last_log_id ∧ s'.lastLogTermSent = resp.last_log_term ∧
      s'.requestOnGoing = false ∧ comp.newReq = none ∧ comp.notified = true ∧
      comp.ret = resp ∧
      s'.cachingPromise = c.host.cachingPromise ∧ s'.pendingReq = emptyTup ∧
      s'.logIdToSend = c.host.logIdToSend ∧ s'.logTermToSend = c.host.logTermToSend ∧
      s'.committedLogId = c.host.committedLogId := by
  obtain ⟨hlive, _⟩ := hreach.open_of_onGoing hbusy
  have hst : c.host.checkStatus = ErrorCode.SUCCEEDED := by
    simp [Host.checkStatus, hstopped, hpaused]
  exact ⟨{ c.host.delivered resp with requestOnGoing := false },
    { ret := resp, newReq := none, notified := true,
      fulfilled := [(c.host.promise.id, resp)] },
    Host.appendLogsInternal_delivered flags part _ resp hcode hst hge hlive hpend,
    rfl, rfl, rfl, rfl, rfl, rfl, rfl, rfl, rfl, rfl, hpend, rfl, rfl, rfl⟩

/-- Witness of `delivered_nothing_pending`, the straight append: an idle channel with
`last_log_id_sent = 5`, the submission `(T=2, L=7, C=5, pT=2, pL=5)`, one request on the
wire (entries 6 and 7), the response `{SUCCEEDED, last_log_id = 7, last_log_term = 2}`:
the future's promise is fulfilled with `SUCCEEDED`, `last_log_id_sent = 7`, and
`request_on_going = false`. -/
theorem delivered_nothing_pending_witness :
    idleAtFive.lastLogIdSent = 5 ∧ idleAtFive.requestOnGoing = false ∧
    (∃ r, idleAtFive.appendLogs smallFlags samplePart 2 7 5 2 5 = .ok r ∧
      r.ret = .ofPromise straightSample.host.promise.id) ∧
    straightSample.wire.map (fun q => (q.last_log_id_sent, q.last_log_id,
      q.log_str_list.length)) = [(5, 7, 2)] ∧
    ∃ s' comp, straightSample.host.appendLogsInternal smallFlags samplePart
        (.value ⟨ErrorCode.SUCCEEDED, 2, 7, 2, 5⟩) = .ok (s', comp) ∧
      s'.promise.id = straightSample.host.promise.id ∧
      s'.promise.value = some ⟨ErrorCode.SUCCEEDED, 2, 7, 2, 5⟩ ∧
      s'.lastLogIdSent = 7 ∧ s'.requestOnGoing = false ∧ comp.newReq = none := by
  refine ⟨rfl, rfl, ⟨_, rfl, rfl⟩, rfl, ?_⟩
  obtain ⟨s', comp, h, _, h2, h3, h4, _, h6, h7, _⟩ :=
    delivered_nothing_pending smallFlags samplePart straightSample
      ⟨ErrorCode.SUCCEEDED, 2, 7, 2, 5⟩ straightSample_reachable rfl rfl rfl rfl rfl
      (by decide)
  exact ⟨s', comp, h, h2, h3, h4, h6, h7⟩

/-- C25: in every reachable state with a request on going that is stopped or paused, a
`SUCCEEDED` or `E_LOG_GAP` response makes the handler leave `last_log_id_sent` and
`last_log_term_sent` (and the other counters) as they were, chain no request, fulfil the
live promise and then the caching promise with the status (`E_HOST_STOPPED` when
stopped, `E_NOT_A_LEADER` when only paused), and clear `pending_req` and
`request_on_going`. -/
theorem status_recheck (flags : Flags) (part : RaftPart) (c : Channel)
    (resp : AppendLogResponse) (hreach : c.Reachable flags part)
    (hbusy : c.host.requestOnGoing = true)
    (hcode : resp.error_code = ErrorCode.SUCCEEDED ∨ resp.error_code = ErrorCode.E_LOG_GAP)
    (hstatus : c.host.stopped = true ∨ c.host.paused = true) :
    ∃ s' comp r, c.host.appendLogsInternal flags part (.value resp) = .ok (s', comp) ∧
      (c.host.stopped = true → r = AppendLogResponse.withCode ErrorCode.E_HOST_STOPPED) ∧
      (c.host.stopped = false → r = AppendLogResponse.withCode ErrorCode.E_NOT_A_LEADER) ∧
      comp.fulfilled = [(c.host.promise.id, r), (c.host.cachingPromise.id, r)] ∧
      s'.promise.id = c.host.promise.id ∧ s'.promise.value = some r ∧
      s'.lastLogIdSent = c.host.lastLogIdSent ∧
      s'.lastLogTermSent = c.host.lastLogTermSent ∧
      s'.logIdToSend = c.host.logIdToSend ∧ s'.logTermToSend = c.host.logTermToSend ∧
      s'.committedLogId = c.host.committedLogId ∧
      comp.newReq = none ∧ comp.notified = true ∧ comp.ret = r ∧
      s'.pendingReq = emptyTup ∧ s'.requestOnGoing = false ∧
      s'.cachingPromise = SharedPromise.fresh c.host.promiseSeq := by
  obtain ⟨hlive, hcaching⟩ := hreach.open_of_onGoing hbusy
  have hne : c.host.checkStatus ≠ ErrorCode.SUCCEEDED := by
    rcases hstatus with h | h
    · simp [Host.checkStatus, h]
    · cases hs : c.host.stopped <;> simp [Host.checkStatus, h, hs]
  refine ⟨c.host.answered (AppendLogResponse.withCode c.host.checkStatus),
    { ret := AppendLogResponse.withCode c.host.checkStatus, newReq := none,
      notified := true,
      fulfilled := [(c.host.promise.id, AppendLogResponse.withCode c.host.checkStatus),
        (c.host.cachingPromise.id, AppendLogResponse.withCode c.host.checkStatus)] },
    AppendLogResponse.withCode c.host.checkStatus,
    (Host.appendLogsInternal_status_failed flags part _ resp hcode hne).trans
      (Host.quiesce_open _ _ hlive hcaching),
    ?_, ?_, rfl, rfl, rfl, rfl, rfl, rfl, rfl, rfl, rfl, rfl, rfl, rfl, rfl, rfl⟩
  · intro h
    simp [Host.checkStatus, h]
  · intro h
    rcases hstatus with h1 | h1
    · rw [h] at h1; cases h1
    · simp [Host.checkStatus, h, h1]

/-- Witness of `status_recheck`: submit, stop before the response, the `SUCCEEDED`
response arrives: both promises are fulfilled with `E_HOST_STOPPED` and
`request_on_going` is false. -/
theorem status_recheck_witness :
    ∃ s' comp, stoppedSample.host.appendLogsInternal smallFlags samplePart
        (.value ⟨ErrorCode.SUCCEEDED, 2, 7, 2, 5⟩) = .ok (s', comp) ∧
      comp.fulfilled =
        [(stoppedSample.host.promise.id,
            AppendLogResponse.withCode ErrorCode.E_HOST_STOPPED),
         (stoppedSample.host.cachingPromise.id,
            AppendLogResponse.withCode ErrorCode.E_HOST_STOPPED)] ∧
      s'.lastLogIdSent = 5 ∧ s'.requestOnGoing = false ∧ comp.newReq = none := by
  obtain ⟨s', comp, r, h, h1, _, h3, _, _, h6, _, _, _, _, h11, _, _, _, h15, _⟩ :=
    status_recheck smallFlags samplePart stoppedSample ⟨ErrorCode.SUCCEEDED, 2, 7, 2, 5⟩
      stoppedSample_reachable rfl (Or.inl rfl) (Or.inl rfl)
  have hr := h1 rfl
  subst hr
  exact ⟨s', comp, h, h3, h6, h15, h11⟩

/-- C27: in every reachable state that is stopped or paused, dispatching a built request
does not reach the transport: `sendAppendLogRequest` returns a ready response carrying
the status (`E_HOST_STOPPED` if stopped, otherwise `E_NOT_A_LEADER`), the wire and the
requests in flight stay as they were, and the continuation that then runs on that
response fulfils the live promise with it and clears `request_on_going`. -/
theorem predispatch_refusal (flags : Flags) (part : RaftPart) (c : Channel) (i : Nat)
    (req : AppendLogRequest) (hreach : c.Reachable flags part)
    (hbuilt : c.built.get? i = some req)
    (hstatus : c.host.stopped = true ∨ c.host.paused = true) :
    ∃ c1 c2 r,
      (c.host.stopped = true → r = AppendLogResponse.withCode ErrorCode.E_HOST_STOPPED) ∧
      (c.host.stopped = false → r = AppendLogResponse.withCode ErrorCode.E_NOT_A_LEADER) ∧
      c.host.sendAppendLogRequest req = .refused r ∧
      step flags part c (.send i) = some c1 ∧
      c1.wire = c.wire ∧ c1.inFlight = c.inFlight ∧ c1.dispatching = c.dispatching ∧
      c1.host = c.host ∧
      c1.refused = c.refused ++ [r] ∧
      step flags part c1 (.completeRefused c.refused.length) = some c2 ∧
      c2.host.promise.id = c.host.promise.id ∧ c2.host.promise.value = some r ∧
      c2.host.requestOnGoing = false ∧ c2.wire = c.wire ∧ c2.inFlight = c.inFlight := by
  have hlen := length_eraseIdx_of_get? hbuilt
  have hbusy : c.host.requestOnGoing = true :=
    hreach.onGoing_of_underWay (by simp only [underWay]; omega)
  obtain ⟨hlive, hcaching⟩ := hreach.open_of_onGoing hbusy
  have hne : c.host.checkStatus ≠ ErrorCode.SUCCEEDED := by
    rcases hstatus with h | h
    · simp [Host.checkStatus, h]
    · cases hs : c.host.stopped <;> simp [Host.checkStatus, h, hs]
  have hcode1 : (AppendLogResponse.withCode c.host.checkStatus).error_code ≠
      ErrorCode.SUCCEEDED := hne
  have hcode2 : (AppendLogResponse.withCode c.host.checkStatus).error_code ≠
      ErrorCode.E_LOG_GAP := by
    show c.host.checkStatus ≠ ErrorCode.E_LOG_GAP
    unfold Host.checkStatus
    split_ifs <;> decide
  have hsend : c.host.sendAppendLogRequest req =
      .refused (AppendLogResponse.withCode c.host.checkStatus) := by
    simp [Host.sendAppendLogRequest, hne]
  have hhandler := (Host.appendLogsInternal_other flags part c.host
    (AppendLogResponse.withCode c.host.checkStatus) hcode1 hcode2).trans
    (Host.quiesce_open _ _ hlive hcaching)
  refine ⟨{ c with built := c.built.eraseIdx i,
                   refused := c.refused ++ [AppendLogResponse.withCode c.host.checkStatus] },
    afterCompletion
      { c with built := c.built.eraseIdx i,
               refused := (c.refused ++
                 [AppendLogResponse.withCode c.host.checkStatus]).eraseIdx c.refused.length }
      (c.host.answered (AppendLogResponse.withCode c.host.checkStatus),
        { ret := AppendLogResponse.withCode c.host.checkStatus, newReq := none,
          notified := true,
          fulfilled := [(c.host.promise.id, AppendLogResponse.withCode c.host.checkStatus),
            (c.host.cachingPromise.id, AppendLogResponse.withCode c.host.checkStatus)] }),
    AppendLogResponse.withCode c.host.checkStatus, ?_, ?_, hsend, ?_, rfl, rfl, rfl, rfl,
    rfl, ?_, ?_⟩
  · intro h
    simp [Host.checkStatus, h]
  · intro h
    rcases hstatus with h1 | h1
    · rw [h] at h1; cases h1
    · simp [Host.checkStatus, h, h1]
  · simp only [step, hbuilt, hsend]
  · have hget : (c.refused ++ [AppendLogResponse.withCode c.host.checkStatus]).get?
        c.refused.length = some (AppendLogResponse.withCode c.host.checkStatus) := by
      simp
    simp only [step, hget, hhandler]
  · exact ⟨rfl, rfl, rfl, rfl, rfl⟩

/-- Witness of `predispatch_refusal`: the sample channel stopped between the accept and
the dispatch. -/
theorem predispatch_refusal_witness :
    ∃ c1 c2, step smallFlags samplePart stoppedBuilt (.send 0) = some c1 ∧
      c1.wire = [] ∧ c1.inFlight = [] ∧
      step smallFlags samplePart c1 (.completeRefused 0) = some c2 ∧
      c2.host.promise.value = some (AppendLogResponse.withCode ErrorCode.E_HOST_STOPPED) ∧
      c2.host.requestOnGoing = false ∧ c2.wire = [] := by
  obtain ⟨c1, c2, r, h1, _, _, h4, h5, h6, _, _, _, h9, _, h11, h12, h13, _⟩ :=
    predispatch_refusal smallFlags samplePart stoppedBuilt 0 _ stoppedBuilt_reachable rfl
      (Or.inl rfl)
  have hr := h1 rfl
  subst hr
  exact ⟨c1, c2, h4, h5, h6, h9, h11, h12, h13⟩

/-- C28, as amended: in every reachable state with a request in flight, for every
completion of it (exception or any response, whatever the status), either building the
follow-up request is fatal (no other failure occurs), or the handler returns having done
exactly one of two things: it has chained exactly one request, left `request_on_going`
true and not notified, or it has chained none, left `request_on_going` false and
signalled the notification. -/
theorem chain_or_quiesce (flags : Flags) (part : RaftPart) (c : Channel) (i : Nat)
    (req : AppendLogRequest) (t : Host.Try) (hreach : c.Reachable flags part)
    (hfl : c.inFlight.get? i = some req) :
    c.host.appendLogsInternal flags part t = .error Failure.fatal ∨
    ∃ s' comp, c.host.appendLogsInternal flags part t = .ok (s', comp) ∧
      ((∃ next, comp.newReq = some next ∧ s'.requestOnGoing = true ∧
          comp.notified = false) ∨
        (comp.newReq = none ∧ s'.requestOnGoing = false ∧ comp.notified = true)) ∧
      ¬ ((∃ next, comp.newReq = some next) ∧ s'.requestOnGoing = false) ∧
      ¬ (comp.newReq = none ∧ comp.notified = false) := by
  have hbusy := hreach.onGoing_of_inFlight hfl
  obtain ⟨hlive, hcaching⟩ := hreach.open_of_onGoing hbusy
  cases hres : c.host.appendLogsInternal flags part t with
  | error e =>
    left
    rw [Host.appendLogsInternal_error flags part c.host t e hlive hcaching hres]
  | ok r =>
    right
    obtain ⟨s', comp⟩ := r
    refine ⟨s', comp, rfl, ?_, ?_, ?_⟩
    · rcases Host.appendLogsInternal_chain_or_quiesce hres with ⟨next, h1, h2, h3⟩ | h
      · exact Or.inl ⟨next, h1, h2.trans hbusy, h3⟩
      · exact Or.inr h
    · rintro ⟨⟨next, hn⟩, hf⟩
      rcases Host.appendLogsInternal_chain_or_quiesce hres with ⟨_, _, h2, _⟩ | ⟨h1, _, _⟩
      · rw [h2, hbusy] at hf; cases hf
      · rw [h1] at hn; cases hn
    · rintro ⟨hn, hf⟩
      rcases Host.appendLogsInternal_chain_or_quiesce hres with ⟨_, h1, _, _⟩ | ⟨_, _, h3⟩
      · rw [h1] at hn; cases hn
      · rw [h3] at hf; cases hf

/-- Witness of `chain_or_quiesce`: the follower of the sample channel acknowledges id 6 of
the target 7, and the handler chains. -/
theorem chain_or_quiesce_witness :
    ∃ s' comp next, inFlightSample.host.appendLogsInternal smallFlags samplePart
        (.value ⟨ErrorCode.SUCCEEDED, 2, 6, 2, 5⟩) = .ok (s', comp) ∧
      comp.newReq = some next ∧ s'.requestOnGoing = true ∧ comp.notified = false := by
  rcases chain_or_quiesce smallFlags samplePart inFlightSample 0 _
      (.value ⟨ErrorCode.SUCCEEDED, 2, 6, 2, 5⟩) inFlightSample_reachable rfl with
    h | ⟨s', comp, h, hcase, _, _⟩
  · have h2 : inFlightSample.host.appendLogsInternal smallFlags samplePart
        (.value ⟨ErrorCode.SUCCEEDED, 2, 6, 2, 5⟩) =
        .ok (inFlightSample.host.rebased ⟨ErrorCode.SUCCEEDED, 2, 6, 2, 5⟩,
          { ret := ⟨ErrorCode.SUCCEEDED, 2, 6, 2, 5⟩,
            newReq := some
              { space := 1, part := 1, current_term := 2, last_log_id := 7, leader_ip := 0,
                leader_port := 0, committed_log_id := 5, last_log_term_sent := 2,
                last_log_id_sent := 6, log_term := 2,
                log_str_list := [{ cluster := 0, log_str := [] }] },
            notified := false, fulfilled := [] }) := rfl
    rw [h2] at h
    cases h
  · rcases hcase with ⟨next, h1, h2, h3⟩ | ⟨h1, _, _⟩
    · exact ⟨s', comp, next, h, h1, h2, h3⟩
    · have h2 : inFlightSample.host.appendLogsInternal smallFlags samplePart
          (.value ⟨ErrorCode.SUCCEEDED, 2, 6, 2, 5⟩) =
          .ok (inFlightSample.host.rebased ⟨ErrorCode.SUCCEEDED, 2, 6, 2, 5⟩,
            { ret := ⟨ErrorCode.SUCCEEDED, 2, 6, 2, 5⟩,
              newReq := some
                { space := 1, part := 1, current_term := 2, last_log_id := 7,
                  leader_ip := 0, leader_port := 0, committed_log_id := 5,
                  last_log_term_sent := 2, last_log_id_sent := 6, log_term := 2,
                  log_str_list := [{ cluster := 0, log_str := [] }] },
              notified := false, fulfilled := [] }) := rfl
      rw [h2] at h
      cases h
      cases h1

/-- C28 as stated fails: the channel over the trimmed log has a request in flight; on the
completion `{E_LOG_GAP, last_log_id = 4}` the handler neither chains a request nor
quiesces with the notification: building the catch-up request is fatal. -/
theorem chain_or_quiesce_counterexample :
    trimmedInFlight.Reachable smallFlags trimmedPart ∧ trimmedInFlight.inFlight.length = 1 ∧
    trimmedInFlight.host.appendLogsInternal smallFlags trimmedPart
      (.value ⟨ErrorCode.E_LOG_GAP, 2, 4, 1, 0⟩) = .error Failure.fatal ∧
    ∀ s' comp, trimmedInFlight.host.appendLogsInternal smallFlags trimmedPart
      (.value ⟨ErrorCode.E_LOG_GAP, 2, 4, 1, 0⟩) ≠ .ok (s', comp) := by
  refine ⟨trimmedInFlight_reachable, rfl, rfl, ?_⟩
  intro s' comp h
  have h2 : trimmedInFlight.host.appendLogsInternal smallFlags trimmedPart
      (.value ⟨ErrorCode.E_LOG_GAP, 2, 4, 1, 0⟩) = .error Failure.fatal := rfl
  rw [h2] at h
  cases h

/-- C30: in every reachable state the promise in the caching slot is unfulfilled, and
while `request_on_going` is true so is the live promise; hence `setResponse` returns
whenever a request is on going, and no completion that can run (of a request in flight,
or of a refused dispatch) ends with a `setValue` on a fulfilled promise. -/
theorem no_double_fulfil (flags : Flags) (part : RaftPart) (c : Channel)
    (hreach : c.Reachable flags part) :
    c.host.cachingPromise.value = none ∧
    (c.host.requestOnGoing = true → c.host.promise.value = none) ∧
    (c.host.requestOnGoing = true → ∀ r, ∃ x, c.host.setResponse r = .ok x) ∧
    (∀ i req t, c.inFlight.get? i = some req →
      c.host.appendLogsInternal flags part t ≠ .error Failure.promiseAlreadySatisfied) ∧
    (∀ i resp, c.refused.get? i = some resp →
      c.host.appendLogsInternal flags part (.value resp) ≠
        .error Failure.promiseAlreadySatisfied) := by
  have hg := hreach.good_exclusive.1
  refine ⟨hg.caching_open, hg.live_open, ?_, ?_, ?_⟩
  · intro hbusy r
    simp [Host.setResponse, SharedPromise.setValue, hg.live_open hbusy, hg.caching_open]
  · intro i req t hfl
    exact Host.appendLogsInternal_no_throw flags part c.host t
      (hg.live_open (hreach.onGoing_of_inFlight hfl)) hg.caching_open
  · intro i resp hget
    have hlen := length_eraseIdx_of_get? hget
    have hbusy : c.host.requestOnGoing = true :=
      hreach.onGoing_of_underWay (by simp only [underWay]; omega)
    exact Host.appendLogsInternal_no_throw flags part c.host _ (hg.live_open hbusy)
      hg.caching_open

/-- Witness of `no_double_fulfil`: the sample channel with two coalesced submissions. -/
theorem no_double_fulfil_witness :
    coalescedSample.host.cachingPromise.value = none ∧
    coalescedSample.host.promise.value = none ∧
    coalescedSample.host.appendLogsInternal smallFlags samplePart .exception ≠
      .error Failure.promiseAlreadySatisfied :=
  ⟨(no_double_fulfil smallFlags samplePart coalescedSample coalescedSample_reachable).1,
    (no_double_fulfil smallFlags samplePart coalescedSample coalescedSample_reachable).2.1 rfl,
    (no_double_fulfil smallFlags samplePart coalescedSample
      coalescedSample_reachable).2.2.2.1 0 _ .exception rfl⟩

end Channel

namespace Host

/-- C29, as amended: with status OK, no request on going, `L == log_id_to_send`,
`pT ≥ last_log_term_sent`, `pL ≥ last_log_id_sent` and a Wal iterator over `[pL + 1, L]`
that is valid, `appendLogs` does not return an immediate response: it takes the accept
branch as for `L > log_id_to_send`, overwriting the counters with the submission,
rotating the promises, setting `request_on_going` and building the request over
`[pL + 1, L]`. -/
theorem appendLogs_idle_resend (flags : Flags) (part : RaftPart) (s : Host) (T : TermID)
    (L C : LogID) (pT : TermID) (pL : LogID)
    (hstopped : s.stopped = false) (hpaused : s.paused = false)
    (hidle : s.requestOnGoing = false) (hL : L = s.logIdToSend)
    (hT : pT ≥ s.lastLogTermSent) (hI : pL ≥ s.lastLogIdSent)
    (hwal : part.wal.iterator (pL + 1) L ≠ []) :
    ∃ r req, s.appendLogs flags part T L C pT pL = .ok r ∧
      r.ret.immediateCode = none ∧
      r.host = s.accepted T L C pT pL ∧
      r.host.logTermToSend = T ∧ r.host.logIdToSend = L ∧
      r.host.lastLogTermSent = pT ∧ r.host.lastLogIdSent = pL ∧
      r.host.committedLogId = C ∧ r.host.pendingReq = emptyTup ∧
      r.host.requestOnGoing = true ∧
      r.host.promise = s.cachingPromise.getFuture ∧
      r.host.cachingPromise = SharedPromise.fresh s.promiseSeq ∧
      r.ret = .ofPromise r.host.promise.id ∧
      r.req = some req ∧
      prepareAppendLogRequest flags part r.host = .ok req ∧
      req.last_log_id_sent = pL ∧ req.last_log_id = L := by
  have hlt : ¬ (L < s.logIdToSend) := by rw [hL]; exact lt_irrefl _
  have hT1 : ¬ (pT < s.lastLogTermSent) := not_lt.mpr hT
  have hI1 : ¬ (pL < s.lastLogIdSent) := not_lt.mpr hI
  have hst : s.checkStatus = ErrorCode.SUCCEEDED := by simp [checkStatus, hstopped, hpaused]
  obtain ⟨req, hreq⟩ := prepareAppendLogRequest_of_valid flags part
    (s.accepted T L C pT pL) hwal
  have hhead := prepareAppendLogRequest_header hreq
  refine ⟨{ host := s.accepted T L C pT pL, ret := .ofPromise s.cachingPromise.id,
            req := some req }, req, ?_, rfl, rfl, rfl, rfl, rfl, rfl, rfl, rfl, rfl, rfl, rfl,
    rfl, rfl, hreq, hhead.2.2.2.2.2.2.2.2, hhead.2.2.2.1⟩
  simp [appendLogs, hlt, hidle, hst, hT1, hI1, hreq]

/-- Witness of `appendLogs_idle_resend`: after the request of the straight append has
failed with a transport exception the channel is idle with target 7 and baseline 5; the
same submission `(T=2, L=7, C=5, pT=2, pL=5)` is accepted again. -/
theorem appendLogs_idle_resend_witness :
    retrySample.host.requestOnGoing = false ∧ retrySample.host.logIdToSend = 7 ∧
    ∃ r req, retrySample.host.appendLogs smallFlags samplePart 2 7 5 2 5 = .ok r ∧
      r.ret.immediateCode = none ∧ r.host.requestOnGoing = true ∧ r.req = some req ∧
      req.last_log_id_sent = 5 ∧ req.last_log_id = 7 := by
  refine ⟨rfl, rfl, ?_⟩
  obtain ⟨r, req, h, h1, _, _, _, _, _, _, _, h9, _, _, _, h13, _, h15, h16⟩ :=
    appendLogs_idle_resend smallFlags samplePart retrySample.host 2 7 5 2 5 rfl rfl rfl rfl
      (by decide) (by decide) (by decide)
  exact ⟨r, req, h, h1, h9, h13, h15, h16⟩

/-- C29 as stated fails: after the straight append has been fully delivered the channel
is idle with status OK, target 7 and baseline 7; the heartbeat `(T=2, L=7, C=5, pT=2,
pL=7)` meets every condition, takes the accept branch, and the range `[8, 7]` is empty:
building the request is fatal, no state is installed and no request is built. -/
theorem appendLogs_idle_resend_counterexample :
    deliveredSample.host.stopped = false ∧ deliveredSample.host.paused = false ∧
    deliveredSample.host.requestOnGoing = false ∧
    (7 : LogID) = deliveredSample.host.logIdToSend ∧
    (2 : TermID) ≥ deliveredSample.host.lastLogTermSent ∧
    (7 : LogID) ≥ deliveredSample.host.lastLogIdSent ∧
    deliveredSample.host.appendLogs smallFlags samplePart 2 7 5 2 7 = .error Failure.fatal ∧
    Submitted.request (deliveredSample.host.appendLogs smallFlags samplePart 2 7 5 2 7) =
      none :=
  ⟨rfl, rfl, rfl, rfl, by decide, by decide, rfl, rfl⟩

end Host

/-! ## The order of fulfilments -/

namespace Host

/-- The continuation fulfils nothing, the live promise, or the live promise and then the
caching promise. -/
theorem appendLogsInternal_fulfilled {flags : Flags} {part : RaftPart} {s : Host} {t : Try}
    {s' : Host} {c : Completion}
    (h : s.appendLogsInternal flags part t = .ok (s', c)) :
    c.fulfilled = [] ∨ (∃ r, c.fulfilled = [(s.promise.id, r)]) ∨
    (∃ r, c.fulfilled = [(s.promise.id, r), (s.cachingPromise.id, r)]) := by
  rcases appendLogsInternal_cases h with ⟨r, hq, _⟩ | ⟨_, resp, req, _, _, _, _, hc⟩ |
    ⟨_, resp, _, _, _, _, _, _, hc⟩ | ⟨_, resp, req, _, _, _, _, _, _, _, hc⟩
  · obtain ⟨_, _, _, hc⟩ := quiesce_cases hq
    exact Or.inr (Or.inr ⟨r, by rw [hc]⟩)
  · exact Or.inl (by rw [hc])
  · exact Or.inr (Or.inl ⟨resp, by rw [hc]⟩)
  · exact Or.inr (Or.inl ⟨resp, by rw [hc]⟩)

/-- The submission gate keeps the order of the fulfilments. -/
theorem fifo_appendLogs {flags : Flags} {part : RaftPart} {s : Host} {T : TermID}
    {L C : LogID} {pT : TermID} {pL : LogID} {r : Submitted} {ids : List Nat}
    (hf : s.Fifo ids) (h : s.appendLogs flags part T L C pT pL = .ok r) :
    r.host.Fifo ids := by
  obtain ⟨⟨h1, h2⟩, hpw, hc, hl⟩ := hf
  rcases appendLogs_cases h with ⟨hh, _⟩ | ⟨_, _, _, _, hh, _⟩ |
    ⟨_, _, _, _, _, hh, _⟩
  · rw [hh]; exact ⟨⟨h1, h2⟩, hpw, hc, hl⟩
  · rw [hh]; exact ⟨⟨h1, h2⟩, hpw, hc, hl⟩
  · rw [hh]
    refine ⟨⟨h2, Nat.lt_succ_self _⟩, hpw, ?_, ?_⟩
    · intro id hid
      exact lt_trans (hc id hid) h2
    · intro _ id hid
      exact hc id hid

/-- The continuation, run while a request is on going, keeps the order of the
fulfilments and appends its own. -/
theorem fifo_appendLogsInternal {flags : Flags} {part : RaftPart} {s : Host} {t : Try}
    {s' : Host} {c : Completion} {ids : List Nat}
    (hf : s.Fifo ids) (hbusy : s.requestOnGoing = true)
    (h : s.appendLogsInternal flags part t = .ok (s', c)) :
    s'.Fifo (ids ++ c.fulfilled.map Prod.fst) := by
  obtain ⟨⟨h1, h2⟩, hpw, hc, hl⟩ := hf
  have hold := hl hbusy
  rcases appendLogsInternal_cases h with ⟨r, hq, _⟩ | ⟨_, resp, req, _, _, hs, _, hcomp⟩ |
    ⟨_, resp, _, _, _, _, _, hs, hcomp⟩ | ⟨_, resp, req, _, _, _, _, _, hs, _, hcomp⟩
  · obtain ⟨_, _, hs, hcomp⟩ := quiesce_cases hq
    rw [hs, hcomp]
    refine ⟨⟨lt_trans h1 h2, Nat.lt_succ_self _⟩, ?_, ?_, ?_⟩
    · rw [List.pairwise_append]
      refine ⟨hpw, by simp [h1], ?_⟩
      intro a ha b hb
      simp only [List.map_cons, List.map_nil, List.mem_cons, List.mem_singleton,
        List.not_mem_nil, or_false] at hb
      rcases hb with hb | hb
      · rw [hb]; exact hold a ha
      · rw [hb]; exact lt_trans (hold a ha) h1
    · intro id hid
      simp only [List.map_cons, List.map_nil, List.mem_append, List.mem_cons,
        List.not_mem_nil, or_false] at hid
      show id < s.promiseSeq
      rcases hid with hid | hid | hid
      · exact lt_trans (hc id hid) h2
      · rw [hid]; exact lt_trans h1 h2
      · rw [hid]; exact h2
    · intro hb
      simp [answered] at hb
  · rw [hs, hcomp]
    simp only [List.map_nil, List.append_nil]
    exact ⟨⟨h1, h2⟩, hpw, hc, hl⟩
  · rw [hs, hcomp]
    refine ⟨⟨h1, h2⟩, ?_, ?_, ?_⟩
    · rw [List.pairwise_append]
      refine ⟨hpw, by simp, ?_⟩
      intro a ha b hb
      simp only [List.map_cons, List.map_nil, List.mem_singleton] at hb
      rw [hb]; exact hold a ha
    · intro id hid
      simp only [List.map_cons, List.map_nil, List.mem_append, List.mem_singleton] at hid
      show id < s.cachingPromise.id
      rcases hid with hid | hid
      · exact hc id hid
      · rw [hid]; exact h1
    · intro hb
      simp at hb
  · rw [hs, hcomp]
    refine ⟨⟨h2, Nat.lt_succ_self _⟩, ?_, ?_, ?_⟩
    · rw [List.pairwise_append]
      refine ⟨hpw, by simp, ?_⟩
      intro a ha b hb
      simp only [List.map_cons, List.map_nil, List.mem_singleton] at hb
      rw [hb]; exact hold a ha
    · intro id hid
      simp only [List.map_cons, List.map_nil, List.mem_append, List.mem_singleton] at hid
      show id < s.promiseSeq
      rcases hid with hid | hid
      · exact lt_trans (hc id hid) h2
      · rw [hid]; exact lt_trans h1 h2
    · intro _ id hid
      simp only [List.map_cons, List.map_nil, List.mem_append, List.mem_singleton] at hid
      show id < s.cachingPromise.id
      rcases hid with hid | hid
      · exact hc id hid
      · rw [hid]; exact h1

/-- The submission gate leaves no promise behind. -/
theorem settled_appendLogs {flags : Flags} {part : RaftPart} {s : Host} {T : TermID}
    {L C : LogID} {pT : TermID} {pL : LogID} {r : Submitted} {first seq0 : Nat}
    {ids : List Nat} (hs : s.Settled first seq0 ids)
    (h : s.appendLogs flags part T L C pT pL = .ok r) : r.host.Settled first seq0 ids := by
  rcases appendLogs_cases h with ⟨hh, _⟩ | ⟨_, _, _, _, hh, _⟩ |
    ⟨hidle, _, _, _, _, hh, _⟩
  · rw [hh]; exact hs
  · rw [hh]; exact ⟨hs.seq_le, hs.caching_tracked, hs.live_tracked, hs.complete⟩
  · rw [hh]
    refine ⟨Nat.le_succ_of_le hs.seq_le, Or.inr hs.seq_le, fun _ => hs.caching_tracked, ?_⟩
    intro id hid
    rcases hs.complete id hid with h1 | h1 | ⟨_, h1⟩ | h1
    · exact Or.inl h1
    · exact Or.inr (Or.inr (Or.inl ⟨h1, rfl⟩))
    · rw [hidle] at h1; cases h1
    · rcases Nat.eq_or_lt_of_le h1 with h2 | h2
      · exact Or.inr (Or.inl h2.symm)
      · exact Or.inr (Or.inr (Or.inr h2))

/-- The continuation, run while a request is on going, leaves no promise behind. -/
theorem settled_appendLogsInternal {flags : Flags} {part : RaftPart} {s : Host} {t : Try}
    {s' : Host} {c : Completion} {first seq0 : Nat} {ids : List Nat}
    (hs : s.Settled first seq0 ids) (hbusy : s.requestOnGoing = true)
    (h : s.appendLogsInternal flags part t = .ok (s', c)) :
    s'.Settled first seq0 (ids ++ c.fulfilled.map Prod.fst) := by
  rcases appendLogsInternal_cases h with ⟨r, hq, _⟩ | ⟨_, resp, req, _, _, hs', _, hcomp⟩ |
    ⟨_, resp, _, _, _, _, _, hs', hcomp⟩ | ⟨_, resp, req, _, _, _, _, _, hs', _, hcomp⟩
  · obtain ⟨_, _, hs', hcomp⟩ := quiesce_cases hq
    rw [hs', hcomp]
    refine ⟨Nat.le_succ_of_le hs.seq_le, Or.inr hs.seq_le,
      fun hb => (by simp [answered] at hb), ?_⟩
    intro id hid
    rcases hs.complete id hid with h1 | h1 | ⟨h1, _⟩ | h1
    · exact Or.inl (List.mem_append_left _ h1)
    · exact Or.inl (by simp [h1])
    · exact Or.inl (by simp [h1])
    · rcases Nat.eq_or_lt_of_le h1 with h2 | h2
      · exact Or.inr (Or.inl h2.symm)
      · exact Or.inr (Or.inr (Or.inr h2))
  · rw [hs', hcomp]
    simp only [List.map_nil, List.append_nil]
    exact ⟨hs.seq_le, hs.caching_tracked, hs.live_tracked, hs.complete⟩
  · rw [hs', hcomp]
    refine ⟨hs.seq_le, hs.caching_tracked, fun hb => (by simp at hb), ?_⟩
    intro id hid
    rcases hs.complete id hid with h1 | h1 | ⟨h1, _⟩ | h1
    · exact Or.inl (List.mem_append_left _ h1)
    · exact Or.inr (Or.inl h1)
    · exact Or.inl (by simp [h1, delivered, rebased])
    · exact Or.inr (Or.inr (Or.inr h1))
  · rw [hs', hcomp]
    refine ⟨Nat.le_succ_of_le hs.seq_le, Or.inr hs.seq_le, fun _ => hs.caching_tracked, ?_⟩
    intro id hid
    rcases hs.complete id hid with h1 | h1 | ⟨h1, _⟩ | h1
    · exact Or.inl (List.mem_append_left _ h1)
    · exact Or.inr (Or.inr (Or.inl ⟨h1, hbusy⟩))
    · exact Or.inl (by simp [h1])
    · rcases Nat.eq_or_lt_of_le h1 with h2 | h2
      · exact Or.inr (Or.inl h2.symm)
      · exact Or.inr (Or.inr (Or.inr h2))

end Host

namespace Channel

/-- Every step of an exclusive channel keeps the order of the fulfilments and appends its
own. -/
theorem step_fifo {flags : Flags} {part : RaftPart} {c c' : Channel} {a : Action}
    {ids : List Nat} (hex : c.Exclusive) (hf : c.host.Fifo ids)
    (hstep : step flags part c a = some c') :
    c'.host.Fifo (ids ++ (events flags part c a).map Prod.fst) := by
  have hbusy_of : 0 < c.underWay → c.host.requestOnGoing = true := by
    intro hpos
    cases hb : c.host.requestOnGoing
    · have := hex.2 hb
      omega
    · rfl
  cases a with
  | appendLogs T L C pT pL =>
    simp only [step] at hstep
    split at hstep
    · cases hstep
    · rename_i r hr
      cases hstep
      simp only [events, List.map_nil, List.append_nil]
      exact Host.fifo_appendLogs hf hr
  | send i =>
    simp only [step] at hstep
    simp only [events, List.map_nil, List.append_nil]
    split at hstep
    · cases hstep
    · split at hstep <;> cases hstep <;> exact hf
  | handOff i =>
    simp only [step] at hstep
    simp only [events, List.map_nil, List.append_nil]
    split at hstep
    · cases hstep
    · cases hstep
      exact hf
  | complete i t =>
    simp only [step] at hstep
    split at hstep
    · cases hstep
    · rename_i req hget
      have hlen := length_eraseIdx_of_get? hget
      split at hstep
      · cases hstep
      · rename_i r hr
        cases hstep
        obtain ⟨s', comp⟩ := r
        have hbusy := hbusy_of (by simp only [underWay]; omega)
        simp only [events, hget, hr]
        exact Host.fifo_appendLogsInternal hf hbusy hr
  | completeRefused i =>
    simp only [step] at hstep
    split at hstep
    · cases hstep
    · rename_i resp hget
      have hlen := length_eraseIdx_of_get? hget
      split at hstep
      · cases hstep
      · rename_i r hr
        cases hstep
        obtain ⟨s', comp⟩ := r
        have hbusy := hbusy_of (by simp only [underWay]; omega)
        simp only [events, hget, hr]
        exact Host.fifo_appendLogsInternal hf hbusy hr
  | pause =>
    cases hstep
    simp only [events, List.map_nil, List.append_nil]
    exact hf
  | resume =>
    cases hstep
    simp only [events, List.map_nil, List.append_nil]
    exact hf
  | stop =>
    cases hstep
    simp only [events, List.map_nil, List.append_nil]
    exact hf

/-- Along every run of an exclusive channel the fulfilments stay in order. -/
theorem run_fifo {flags : Flags} {part : RaftPart} :
    ∀ (acts : List Action) (c c' : Channel) (pre : List Nat),
      c.Exclusive → c.host.Fifo pre → run flags part c acts = some c' →
      c'.host.Fifo (pre ++ (runLog flags part c acts).map Prod.fst) := by
  intro acts
  induction acts with
  | nil =>
    intro c c' pre _ hf hrun
    simp only [run] at hrun
    cases hrun
    simpa [runLog] using hf
  | cons a rest ih =>
    intro c c' pre hex hf hrun
    simp only [run] at hrun
    cases hs : step flags part c a with
    | none => simp [hs] at hrun
    | some c1 =>
      simp only [hs] at hrun
      have h1 := ih c1 c' (pre ++ (events flags part c a).map Prod.fst)
        (step_exclusive hex hs) (step_fifo hex hf hs) hrun
      simpa [runLog, hs, List.append_assoc] using h1

/-- Every step of an exclusive channel leaves no promise behind. -/
theorem step_settled {flags : Flags} {part : RaftPart} {c c' : Channel} {a : Action}
    {first seq0 : Nat} {ids : List Nat} (hex : c.Exclusive)
    (hs : c.host.Settled first seq0 ids) (hstep : step flags part c a = some c') :
    c'.host.Settled first seq0 (ids ++ (events flags part c a).map Prod.fst) := by
  have hbusy_of : 0 < c.underWay → c.host.requestOnGoing = true := by
    intro hpos
    cases hb : c.host.requestOnGoing
    · have := hex.2 hb
      omega
    · rfl
  have hsame : ∀ d : Host, d.promiseSeq = c.host.promiseSeq →
      d.cachingPromise.id = c.host.cachingPromise.id → d.promise.id = c.host.promise.id →
      d.requestOnGoing = c.host.requestOnGoing → d.Settled first seq0 ids := by
    intro d h1 h2 h3 h4
    refine ⟨by rw [h1]; exact hs.seq_le, by rw [h2]; exact hs.caching_tracked, ?_, ?_⟩
    · rw [h3, h4]; exact hs.live_tracked
    · rw [h1, h2, h3, h4]; exact hs.complete
  cases a with
  | appendLogs T L C pT pL =>
    simp only [step] at hstep
    split at hstep
    · cases hstep
    · rename_i r hr
      cases hstep
      simp only [events, List.map_nil, List.append_nil]
      exact Host.settled_appendLogs hs hr
  | send i =>
    simp only [step] at hstep
    simp only [events, List.map_nil, List.append_nil]
    split at hstep
    · cases hstep
    · split at hstep <;> cases hstep <;> exact hs
  | handOff i =>
    simp only [step] at hstep
    simp only [events, List.map_nil, List.append_nil]
    split at hstep
    · cases hstep
    · cases hstep
      exact hs
  | complete i t =>
    simp only [step] at hstep
    split at hstep
    · cases hstep
    · rename_i req hget
      have hlen := length_eraseIdx_of_get? hget
      split at hstep
      · cases hstep
      · rename_i r hr
        cases hstep
        obtain ⟨s', comp⟩ := r
        have hbusy := hbusy_of (by simp only [underWay]; omega)
        simp only [events, hget, hr]
        exact Host.settled_appendLogsInternal hs hbusy hr
  | completeRefused i =>
    simp only [step] at hstep
    split at hstep
    · cases hstep
    · rename_i resp hget
      have hlen := length_eraseIdx_of_get? hget
      split at hstep
      · cases hstep
      · rename_i r hr
        cases hstep
        obtain ⟨s', comp⟩ := r
        have hbusy := hbusy_of (by simp only [underWay]; omega)
        simp only [events, hget, hr]
        exact Host.settled_appendLogsInternal hs hbusy hr
  | pause =>
    cases hstep
    simp only [events, List.map_nil, List.append_nil]
    exact hsame _ rfl rfl rfl rfl
  | resume =>
    cases hstep
    simp only [events, List.map_nil, List.append_nil]
    exact hsame _ rfl rfl rfl rfl
  | stop =>
    cases hstep
    simp only [events, List.map_nil, List.append_nil]
    exact hsame _ rfl rfl rfl rfl

/-- Along every run of an exclusive channel no promise is left behind. -/
theorem run_settled {flags : Flags} {part : RaftPart} {first seq0 : Nat} :
    ∀ (acts : List Action) (c c' : Channel) (pre : List Nat),
      c.Exclusive → c.host.Settled first seq0 pre → run flags part c acts = some c' →
      c'.host.Settled first seq0 (pre ++ (runLog flags part c acts).map Prod.fst) := by
  intro acts
  induction acts with
  | nil =>
    intro c c' pre _ hf hrun
    simp only [run] at hrun
    cases hrun
    simpa [runLog] using hf
  | cons a rest ih =>
    intro c c' pre hex hf hrun
    simp only [run] at hrun
    cases hs : step flags part c a with
    | none => simp [hs] at hrun
    | some c1 =>
      simp only [hs] at hrun
      have h1 := ih c1 c' (pre ++ (events flags part c a).map Prod.fst)
        (step_exclusive hex hs) (step_settled hex hf hs) hrun
      simpa [runLog, hs, List.append_assoc] using h1

/-- In a strictly increasing list a smaller member comes before a greater one. -/
theorem mem_before_of_lt {l : List Nat} (hpw : l.Pairwise (fun a b => a < b)) {p q : Nat}
    (hp : p ∈ l) (hq : q ∈ l) (hlt : p < q) :
    ∃ pre post, l = pre ++ q :: post ∧ p ∈ pre := by
  obtain ⟨pre, post, hl⟩ := List.append_of_mem hq
  refine ⟨pre, post, hl, ?_⟩
  rw [hl] at hp hpw
  rcases List.mem_append.mp hp with h | h
  · exact h
  · rw [List.pairwise_append] at hpw
    obtain ⟨_, hpost, _⟩ := hpw
    rcases List.mem_cons.mp h with h | h
    · rw [h] at hlt
      exact absurd hlt (lt_irrefl _)
    · have := (List.pairwise_cons.mp hpost).1 p h
      exact absurd (lt_trans this hlt) (lt_irrefl _)

/-- C23: in every run from a channel with nothing under way whose promise identities are
in order of construction (the initial state in particular), the promises are fulfilled
in the order of their construction and each at most once (the identities in the log of
fulfilments are strictly increasing); at the end the live promise is older than the
caching promise, the promise in the caching slot has never been fulfilled, and while a
request is on going neither has the live promise; every run of the completion handler
fulfils nothing, the live promise alone, or the live promise and then the caching
promise; and, when the run starts with no request on going, no promise is left behind:
every promise constructed since the start and the caching promise of the start has been
fulfilled unless it is still in the caching slot or is the live promise of a request on
going; and whenever, at some point of the run, a request is on going and the caching
promise of that point is fulfilled by the end of the run, the live promise of that point
has been fulfilled before it. -/
theorem fifo_resolution (flags : Flags) (part : RaftPart) (s0 : Host)
    (acts : List Action) (c : Channel)
    (hids : s0.promise.id < s0.cachingPromise.id ∧ s0.cachingPromise.id < s0.promiseSeq)
    (hrun : run flags part (start s0) acts = some c) :
    ((runLog flags part (start s0) acts).map Prod.fst).Pairwise (fun a b => a < b) ∧
    c.host.promise.id < c.host.cachingPromise.id ∧
    c.host.cachingPromise.id ∉ (runLog flags part (start s0) acts).map Prod.fst ∧
    (c.host.requestOnGoing = true →
      c.host.promise.id ∉ (runLog flags part (start s0) acts).map Prod.fst) ∧
    (∀ t s' comp, c.host.appendLogsInternal flags part t = .ok (s', comp) →
      comp.fulfilled = [] ∨ (∃ r, comp.fulfilled = [(c.host.promise.id, r)]) ∨
      (∃ r, comp.fulfilled = [(c.host.promise.id, r), (c.host.cachingPromise.id, r)])) ∧
    (s0.requestOnGoing = false →
      (∀ id, (id = s0.cachingPromise.id ∨ (s0.promiseSeq ≤ id ∧ id < c.host.promiseSeq)) →
        id ∈ (runLog flags part (start s0) acts).map Prod.fst ∨
        id = c.host.cachingPromise.id ∨
        (id = c.host.promise.id ∧ c.host.requestOnGoing = true)) ∧
      (∀ (acts1 acts2 : List Action) (c1 : Channel), acts = acts1 ++ acts2 →
        run flags part (start s0) acts1 = some c1 → c1.host.requestOnGoing = true →
        c1.host.cachingPromise.id ∈ (runLog flags part (start s0) acts).map Prod.fst →
        ∃ pre post, (runLog flags part (start s0) acts).map Prod.fst =
            pre ++ c1.host.cachingPromise.id :: post ∧
          c1.host.promise.id ∈ pre)) := by
  have hstart : (start s0).Exclusive :=
    ⟨by simp [underWay, start], fun _ => by simp [underWay, start]⟩
  have h0 : (start s0).host.Fifo [] :=
    ⟨hids, List.Pairwise.nil, fun id hid => (by cases hid), fun _ id hid => (by cases hid)⟩
  have hf := run_fifo acts (start s0) c [] hstart h0 hrun
  simp only [List.nil_append] at hf
  obtain ⟨⟨h1, _⟩, hpw, hc, hl⟩ := hf
  refine ⟨hpw, h1, ?_, ?_, ?_, ?_⟩
  · intro hmem
    exact lt_irrefl _ (hc _ hmem)
  · intro hbusy hmem
    exact lt_irrefl _ (hl hbusy _ hmem)
  · intro t s' comp h
    exact Host.appendLogsInternal_fulfilled h
  · intro hidle
    have hs0 : (start s0).host.Settled s0.cachingPromise.id s0.promiseSeq [] :=
      { seq_le := le_refl _
        caching_tracked := Or.inl rfl
        live_tracked := fun hb => by
          have hb1 : s0.requestOnGoing = true := hb
          rw [hidle] at hb1
          cases hb1
        complete := fun id hid => by
          rcases hid with hid | hid
          · exact Or.inr (Or.inl hid)
          · exact Or.inr (Or.inr (Or.inr hid)) }
    have hs := run_settled acts (start s0) c [] hstart hs0 hrun
    simp only [List.nil_append] at hs
    constructor
    · intro id hid
      have htracked : id = s0.cachingPromise.id ∨ s0.promiseSeq ≤ id := by
        rcases hid with hid | hid
        · exact Or.inl hid
        · exact Or.inr hid.1
      rcases hs.complete id htracked with h | h | h | h
      · exact Or.inl h
      · exact Or.inr (Or.inl h)
      · exact Or.inr (Or.inr h)
      · rcases hid with hid | hid
        · rw [hid] at h
          exact absurd (lt_of_lt_of_le hids.2 hs.seq_le) (not_lt.mpr h)
        · exact absurd hid.2 (not_lt.mpr h)
    · intro acts1 acts2 c1 _ hrun1 hbusy1 hq
      have hf1 := run_fifo acts1 (start s0) c1 [] hstart h0 hrun1
      have hs1 := run_settled acts1 (start s0) c1 [] hstart hs0 hrun1
      have hlt : c1.host.promise.id < c1.host.cachingPromise.id := hf1.1.1
      have htracked := hs1.live_tracked hbusy1
      have hqc : c1.host.cachingPromise.id < c.host.cachingPromise.id := hc _ hq
      have hp : c1.host.promise.id ∈ (runLog flags part (start s0) acts).map Prod.fst := by
        rcases hs.complete _ htracked with h | h | ⟨h, hb⟩ | h
        · exact h
        · rw [h] at hlt
          exact absurd (lt_trans hlt hqc) (lt_irrefl _)
        · have := hl hb _ hq
          rw [← h] at this
          exact absurd (lt_trans hlt this) (lt_irrefl _)
        · have hseq : c.host.cachingPromise.id < c.host.promiseSeq := by assumption
          exact absurd (lt_trans (lt_trans hlt hqc) hseq) (not_lt.mpr h)
      exact mem_before_of_lt hpw hp hq hlt

/-- Witness of `fifo_resolution`: a straight append with one submission coalesced behind
it, delivered, then the adopted request fails with an exception: promise 1, then promise
2, then promise 3 are fulfilled; promise 1, live when the submission was coalesced, is
fulfilled before promise 2, the caching promise of that moment. -/
theorem fifo_resolution_witness :
    (runLog smallFlags samplePart (start Host.init)
      [.appendLogs 2 7 5 2 5, .send 0, .handOff 0, .appendLogs 2 9 5 2 7,
       .complete 0 (.value ⟨ErrorCode.SUCCEEDED, 2, 7, 2, 5⟩), .send 0, .handOff 0,
       .complete 0 .exception]).map Prod.fst = [1, 2, 3] ∧
    ((runLog smallFlags samplePart (start Host.init)
      [.appendLogs 2 7 5 2 5, .send 0, .handOff 0, .appendLogs 2 9 5 2 7,
       .complete 0 (.value ⟨ErrorCode.SUCCEEDED, 2, 7, 2, 5⟩), .send 0, .handOff 0,
       .complete 0 .exception]).map Prod.fst).Pairwise (fun a b => a < b) ∧
    (∃ pre post, [1, 2, 3] = pre ++ 2 :: post ∧ 1 ∈ pre) :=
  ⟨rfl,
    (fifo_resolution smallFlags samplePart Host.init
      [.appendLogs 2 7 5 2 5, .send 0, .handOff 0, .appendLogs 2 9 5 2 7,
       .complete 0 (.value ⟨ErrorCode.SUCCEEDED, 2, 7, 2, 5⟩), .send 0, .handOff 0,
       .complete 0 .exception] _ ⟨by decide, by decide⟩ rfl).1,
    ((fifo_resolution smallFlags samplePart Host.init
      [.appendLogs 2 7 5 2 5, .send 0, .handOff 0, .appendLogs 2 9 5 2 7,
       .complete 0 (.value ⟨ErrorCode.SUCCEEDED, 2, 7, 2, 5⟩), .send 0, .handOff 0,
       .complete 0 .exception] _ ⟨by decide, by decide⟩ rfl).2.2.2.2.2 rfl).2
      [.appendLogs 2 7 5 2 5, .send 0, .handOff 0, .appendLogs 2 9 5 2 7]
      [.complete 0 (.value ⟨ErrorCode.SUCCEEDED, 2, 7, 2, 5⟩), .send 0, .handOff 0,
       .complete 0 .exception] _ rfl rfl rfl (by decide)⟩

end Channel

/-! ## Draining a range in batches -/

/-- A log that holds every id of a run of `m` ids from `i` on, all of term `term`, yields
exactly `m` records of that term from `i`. -/
theorem Wal.scan_full (w : Wal) (term : Int) :
    ∀ (m : Nat) (i : Int),
      (∀ j : Int, i ≤ j → j < i + m → ∃ rec, w.record j = some rec ∧ rec.logTerm = term) →
      (w.scan m i).length = m ∧ ∀ rec ∈ w.scan m i, rec.logTerm = term := by
  intro m
  induction m with
  | zero => intro i _; simp [Wal.scan]
  | succ k ih =>
    intro i h
    obtain ⟨rec, hrec, hterm⟩ := h i (le_refl _) (by push_cast; omega)
    obtain ⟨hlen, hall⟩ := ih (i + 1) (fun j h1 h2 => h j (by omega) (by push_cast; omega))
    simp only [Wal.scan, hrec, List.length_cons, hlen, List.mem_cons, true_and]
    rintro r (hr | hr)
    · rw [hr]; exact hterm
    · exact hall r hr

/-- A log that holds every id of a run of `m` ids from `i` on yields the record of id
`i + j` at position `j`. -/
theorem Wal.scan_get (w : Wal) :
    ∀ (m : Nat) (i : Int),
      (∀ j : Int, i ≤ j → j < i + m → ∃ rec, w.record j = some rec) →
      ∀ j : Nat, j < m → (w.scan m i).get? j = w.record (i + j) := by
  intro m
  induction m with
  | zero => intro i _ j hj; omega
  | succ k ih =>
    intro i h j hj
    obtain ⟨rec, hrec⟩ := h i (le_refl _) (by push_cast; omega)
    cases j with
    | zero => simp [Wal.scan, hrec]
    | succ j =>
      have hj1 := ih (i + 1) (fun x h1 h2 => h x (by omega) (by push_cast; omega)) j (by omega)
      simp only [Wal.scan, hrec, List.get?_cons_succ, hj1]
      congr 1
      push_cast
      ring

/-- The iterator over `[b + 1, b + n]` of a log that holds all those ids with one term. -/
theorem Wal.iterator_full (w : Wal) (term b : Int) (n : Nat)
    (h : ∀ i : Int, b < i → i ≤ b + n → ∃ rec, w.record i = some rec ∧ rec.logTerm = term) :
    (w.iterator (b + 1) (b + n)).length = n ∧
    ∀ rec ∈ w.iterator (b + 1) (b + n), rec.logTerm = term := by
  have hn : (b + n + 1 - (b + 1)).toNat = n := by omega
  unfold Wal.iterator
  rw [hn]
  exact Wal.scan_full w term n (b + 1) (fun j h1 h2 => h j (by omega) (by omega))

namespace Host

/-- Over a range held in full with one term the built request carries that term and the
first `max_appendlog_batch_size` records of the range. -/
theorem prepareAppendLogRequest_uniform (flags : Flags) (part : RaftPart) (s : Host)
    (term b : Int) (n : Nat) (hpos : 0 < n)
    (hb : s.lastLogIdSent = b) (hL : s.logIdToSend = b + n)
    (hwal : ∀ i : Int, b < i → i ≤ b + n →
      ∃ rec, part.wal.record i = some rec ∧ rec.logTerm = term) :
    ∃ req, prepareAppendLogRequest flags part s = .ok req ∧
      req.log_term = term ∧
      req.log_str_list =
        ((part.wal.iterator (b + 1) (b + n)).take flags.max_appendlog_batch_size).map
          (fun r => ({ cluster := r.logSource, log_str := r.logMsg } : LogEntry)) ∧
      req.log_str_list.length = min flags.max_appendlog_batch_size n ∧
      req.last_log_id_sent = b ∧ req.last_log_id = b + n ∧
      req.current_term = s.logTermToSend ∧ req.committed_log_id = s.committedLogId := by
  obtain ⟨hlen, hall⟩ := Wal.iterator_full part.wal term b n hwal
  cases hit : part.wal.iterator (b + 1) (b + n) with
  | nil => rw [hit] at hlen; simp at hlen; omega
  | cons r0 rest =>
    rw [hit] at hlen hall
    have hr0 : r0.logTerm = term := hall r0 (List.mem_cons_self _ _)
    have htw : (r0 :: rest).takeWhile (fun x => decide (x.logTerm = r0.logTerm)) =
        r0 :: rest := by
      rw [List.takeWhile_eq_self_iff]
      intro x hx
      simp [hall x hx, hr0]
    have hprep : prepareAppendLogRequest flags part s =
        .ok { space := part.spaceId
              part := part.partitionId
              current_term := s.logTermToSend
              last_log_id := s.logIdToSend
              leader_ip := part.address.1
              leader_port := part.address.2
              committed_log_id := s.committedLogId
              last_log_term_sent := s.lastLogTermSent
              last_log_id_sent := s.lastLogIdSent
              log_term := r0.logTerm
              log_str_list :=
                collectLogs r0.logTerm flags.max_appendlog_batch_size (r0 :: rest) 0 } := by
      simp only [prepareAppendLogRequest, hb, hL, hit]
    refine ⟨_, hprep, hr0, ?_, ?_, hb, hL, rfl, rfl⟩
    · show collectLogs r0.logTerm flags.max_appendlog_batch_size (r0 :: rest) 0 = _
      rw [collectLogs_eq, htw]
      rfl
    · show (collectLogs r0.logTerm flags.max_appendlog_batch_size (r0 :: rest) 0).length = _
      rw [collectLogs_eq, htw]
      simp only [Nat.sub_zero, List.length_map, List.length_take, hlen]

end Host

namespace Host

/-- The drain from a state with `n > 0` ids still to send, all held by the log with one
term, status OK and nothing pending: with enough fuel the driver sends
`⌈n / max_appendlog_batch_size⌉` requests, the `k`-th from baseline `b + k * batch`,
fulfils the live promise once, with the last answer, and quiesces at the target. -/
theorem drain_core (flags : Flags) (part : RaftPart) (term L : Int)
    (hB : 1 ≤ flags.max_appendlog_batch_size) :
    ∀ (n : Nat) (s : Host) (req : AppendLogRequest) (fuel : Nat) (b : Int),
      0 < n → s.lastLogIdSent = b → b + n = L → s.logIdToSend = L →
      s.stopped = false → s.paused = false → s.promise.value = none →
      s.pendingReq = emptyTup →
      (∀ i : Int, b < i → i ≤ L → ∃ rec, part.wal.record i = some rec ∧ rec.logTerm = term) →
      prepareAppendLogRequest flags part s = .ok req →
      (n + flags.max_appendlog_batch_size - 1) / flags.max_appendlog_batch_size ≤ fuel →
      ∃ s' sent final,
        drain flags part fuel s req = some (s', sent, [(s.promise.id, final)]) ∧
        sent.length =
          (n + flags.max_appendlog_batch_size - 1) / flags.max_appendlog_batch_size ∧
        (∀ k q, sent.get? k = some q →
          q.last_log_id_sent = b + ((k * flags.max_appendlog_batch_size : Nat) : Int) ∧
          q.last_log_id = L ∧ q.log_term = term ∧
          q.log_str_list =
            ((part.wal.iterator (q.last_log_id_sent + 1) L).take
              flags.max_appendlog_batch_size).map
              (fun r => ({ cluster := r.logSource, log_str := r.logMsg } : LogEntry)) ∧
          q.log_str_list.length =
            min flags.max_appendlog_batch_size (n - k * flags.max_appendlog_batch_size)) ∧
        (∃ q, sent.getLast? = some q ∧ final = ackAll q) ∧
        final.error_code = ErrorCode.SUCCEEDED ∧ final.last_log_id = L ∧
        s'.lastLogIdSent = L ∧ s'.requestOnGoing = false ∧
        s'.promise.id = s.promise.id ∧ s'.promise.value = some final := by
  intro n
  induction n using Nat.strong_induction_on with
  | _ n ih =>
    intro s req fuel b hpos hb hbn hL hstopped hpaused hlive hpend hwal hreq hfuel
    have hBpos : 0 < flags.max_appendlog_batch_size := hB
    have hL1 : s.logIdToSend = b + n := by rw [hL, hbn]
    have hwal1 : ∀ i : Int, b < i → i ≤ b + n →
        ∃ rec, part.wal.record i = some rec ∧ rec.logTerm = term := by
      intro i h1 h2
      exact hwal i h1 (by rw [← hbn]; exact h2)
    obtain ⟨req1, hreq1, hterm, hlist, hlen, hsent, hlast, _, _⟩ :=
      prepareAppendLogRequest_uniform flags part s term b n hpos hb hL1 hwal1
    rw [hreq] at hreq1
    cases hreq1
    rw [hbn] at hlist hlast
    have hst : s.checkStatus = ErrorCode.SUCCEEDED := by
      simp [checkStatus, hstopped, hpaused]
    have hsend : s.sendAppendLogRequest req = .toTransport req := by
      simp [sendAppendLogRequest, hst]
    have hceil : 1 ≤ (n + flags.max_appendlog_batch_size - 1) /
        flags.max_appendlog_batch_size :=
      Nat.div_pos (by omega) hBpos
    obtain ⟨f, hf⟩ : ∃ f, fuel = f + 1 := ⟨fuel - 1, by omega⟩
    subst hf
    have hack : (ackAll req).last_log_id =
        b + ((min flags.max_appendlog_batch_size n : Nat) : Int) := by
      simp only [ackAll, hsent, hlen]
    have hfirst : ∀ q, q = req →
        q.last_log_id_sent = b + ((0 * flags.max_appendlog_batch_size : Nat) : Int) ∧
        q.last_log_id = L ∧ q.log_term = term ∧
        q.log_str_list =
          ((part.wal.iterator (q.last_log_id_sent + 1) L).take
            flags.max_appendlog_batch_size).map
            (fun r => ({ cluster := r.logSource, log_str := r.logMsg } : LogEntry)) ∧
        q.log_str_list.length =
          min flags.max_appendlog_batch_size (n - 0 * flags.max_appendlog_batch_size) := by
      intro q hq
      subst hq
      refine ⟨by rw [hsent]; simp, hlast, hterm, by rw [hsent]; exact hlist, ?_⟩
      rw [hlen]; simp
    by_cases hcase : flags.max_appendlog_batch_size < n
    · -- more to send
      have hmin : min flags.max_appendlog_batch_size n = flags.max_appendlog_batch_size := by
        omega
      rw [hmin] at hack
      have hlt : (ackAll req).last_log_id < s.logIdToSend := by
        rw [hack, hL1]
        have h : b + (flags.max_appendlog_batch_size : Int) < b + (n : Int) := by omega
        exact h
      have hb1 : (s.rebased (ackAll req)).lastLogIdSent =
          b + (flags.max_appendlog_batch_size : Int) := hack
      have hbn1 : b + (flags.max_appendlog_batch_size : Int) +
          ((n - flags.max_appendlog_batch_size : Nat) : Int) = L := by
        rw [← hbn]; omega
      have hwal2 : ∀ i : Int, b + (flags.max_appendlog_batch_size : Int) < i → i ≤ L →
          ∃ rec, part.wal.record i = some rec ∧ rec.logTerm = term :=
        fun i h1 h2 => hwal i (by omega) h2
      have hwal3 : ∀ i : Int, b + (flags.max_appendlog_batch_size : Int) < i →
          i ≤ b + (flags.max_appendlog_batch_size : Int) +
            ((n - flags.max_appendlog_batch_size : Nat) : Int) →
          ∃ rec, part.wal.record i = some rec ∧ rec.logTerm = term :=
        fun i h1 h2 => hwal2 i h1 (by rw [← hbn1]; exact h2)
      obtain ⟨next, hnext, _⟩ :=
        prepareAppendLogRequest_uniform flags part (s.rebased (ackAll req)) term
          (b + (flags.max_appendlog_batch_size : Int)) (n - flags.max_appendlog_batch_size)
          (by omega) hb1 (by rw [hbn1]; exact hL) hwal3
      have hhandler := appendLogsInternal_more flags part s (ackAll req) next rfl hst hlt
        hnext
      have hfuel1 : (n - flags.max_appendlog_batch_size + flags.max_appendlog_batch_size - 1) /
          flags.max_appendlog_batch_size + 1 =
          (n + flags.max_appendlog_batch_size - 1) / flags.max_appendlog_batch_size := by
        have : n + flags.max_appendlog_batch_size - 1 =
            (n - flags.max_appendlog_batch_size + flags.max_appendlog_batch_size - 1) +
              flags.max_appendlog_batch_size := by omega
        rw [this, Nat.add_div_right _ hBpos]
      obtain ⟨s', sent, final, hdrain, hcount, hreqs, ⟨ql, hql, hfin⟩, hf1, hf2, hs1, hs2, hs3,
          hs4⟩ :=
        ih (n - flags.max_appendlog_batch_size) (by omega) (s.rebased (ackAll req)) next f
          (b + (flags.max_appendlog_batch_size : Int)) (by omega) hb1 hbn1 hL hstopped hpaused
          hlive hpend hwal2 hnext (by omega)
      refine ⟨s', req :: sent, final, ?_, ?_, ?_, ⟨ql, ?_, hfin⟩, hf1, hf2, hs1, hs2, hs3, hs4⟩
      · simp only [drain, hsend, hhandler, hdrain]
        rfl
      · rw [List.length_cons, hcount, hfuel1]
      · intro k q hq
        cases k with
        | zero =>
          simp only [List.get?_cons_zero, Option.some.injEq] at hq
          exact hfirst q hq.symm
        | succ k =>
          simp only [List.get?_cons_succ] at hq
          obtain ⟨h1, h2, h3, h4, h5⟩ := hreqs k q hq
          refine ⟨?_, h2, h3, h4, ?_⟩
          · rw [h1, Nat.succ_mul]
            push_cast
            ring
          · rw [h5, Nat.succ_mul, Nat.sub_sub, Nat.add_comm]
      · cases sent with
        | nil => simp at hql
        | cons a rest => rw [List.getLast?_cons_cons]; exact hql
    · -- fully delivered
      have hmin : min flags.max_appendlog_batch_size n = n := by omega
      rw [hmin, hbn] at hack
      have hge : s.logIdToSend ≤ (ackAll req).last_log_id := by
        rw [hack, hL]
      have hhandler := appendLogsInternal_delivered flags part s (ackAll req) rfl hst hge
        hlive hpend
      have hone : (n + flags.max_appendlog_batch_size - 1) / flags.max_appendlog_batch_size =
          1 := by
        apply Nat.div_eq_of_lt_le <;> omega
      refine ⟨{ s.delivered (ackAll req) with requestOnGoing := false }, [req], ackAll req,
        ?_, ?_, ?_, ⟨req, rfl, rfl⟩, rfl, hack, hack, rfl, rfl, rfl⟩
      · simp only [drain, hsend, hhandler]
      · rw [hone]; rfl
      · intro k q hq
        cases k with
        | zero =>
          simp only [List.get?_cons_zero, Option.some.injEq] at hq
          exact hfirst q hq.symm
        | succ k => simp at hq

end Host

namespace Channel

/-- C26 (batch-cap drain terminates): with `max_appendlog_batch_size = B ≥ 1`, a log that
holds every id of `(base, L]` with one term, and a follower that answers every request
with `SUCCEEDED` and `last_log_id = last_log_id_sent + number of entries`, after the
accept of a submission targeting `L` from baseline `base` in a reachable state the driver,
given enough fuel, returns: it sends exactly `⌈(L - base) / B⌉` requests, the `k`-th from
baseline `base + k * B` carrying the records of the next `min B (remaining)` consecutive
ids, fulfils the live promise (the one the submitter observes) exactly once, with the
answer to the last request, and ends with `last_log_id_sent = L` and no request on
going. -/
theorem batch_cap_drain (flags : Flags) (part : RaftPart) (c : Channel)
    (T : Int) (L C : Int) (pT : Int) (base : Int) (term : Int)
    (r : Host.Submitted) (req : AppendLogRequest) (fuel : Nat)
    (hreach : c.Reachable flags part)
    (hB : 1 ≤ flags.max_appendlog_batch_size)
    (hwal : ∀ i : Int, base < i → i ≤ L →
      ∃ rec, part.wal.record i = some rec ∧ rec.logTerm = term)
    (hacc : c.host.appendLogs flags part T L C pT base = .ok r)
    (hreq : r.req = some req)
    (hfuel : ((L - base).toNat + flags.max_appendlog_batch_size - 1) /
      flags.max_appendlog_batch_size ≤ fuel) :
    ∃ s' sent final,
      Host.drain flags part fuel r.host req = some (s', sent, [(r.host.promise.id, final)]) ∧
      r.ret = .ofPromise r.host.promise.id ∧
      sent.length = ((L - base).toNat + flags.max_appendlog_batch_size - 1) /
        flags.max_appendlog_batch_size ∧
      (∀ k q, sent.get? k = some q →
        q.last_log_id_sent = base + ((k * flags.max_appendlog_batch_size : Nat) : Int) ∧
        q.last_log_id = L ∧ q.log_term = term ∧
        q.log_str_list.length =
          min flags.max_appendlog_batch_size
            ((L - base).toNat - k * flags.max_appendlog_batch_size) ∧
        ∀ j : Nat, j < q.log_str_list.length →
          ∃ rec, part.wal.record
              (base + ((k * flags.max_appendlog_batch_size : Nat) : Int) + 1 + (j : Int)) =
                some rec ∧
            q.log_str_list.get? j =
              some { cluster := rec.logSource, log_str := rec.logMsg }) ∧
      (∃ q, sent.getLast? = some q ∧ final = ackAll q) ∧
      final.error_code = ErrorCode.SUCCEEDED ∧ final.last_log_id = L ∧
      s'.lastLogIdSent = L ∧ s'.requestOnGoing = false ∧
      s'.promise.value = some final := by
  obtain ⟨hg, _⟩ := hreach.good_exclusive
  rcases Host.appendLogs_cases hacc with ⟨_, hnone, _⟩ | ⟨_, _, _, _, _, hnone, _⟩ |
    ⟨hidle, hst, hle, _, _, hhost, hret, req1, hreq1, hprep⟩
  · rw [hnone] at hreq; cases hreq
  · rw [hnone] at hreq; cases hreq
  · rw [hreq] at hreq1
    cases hreq1
    have hlt : base < L := by
      have h := Host.prepareAppendLogRequest_range hprep
      rw [hhost] at h
      exact h
    have hstatus : c.host.stopped = false ∧ c.host.paused = false := by
      unfold Host.checkStatus at hst
      split_ifs at hst with h1 h2
      exact ⟨by simpa using h1, by simpa using h2⟩
    have hn : base + (((L - base).toNat : Nat) : Int) = L := by omega
    obtain ⟨s', sent, final, hdrain, hcount, hreqs, hlast, hf1, hf2, hs1, hs2, _, hs4⟩ :=
      Host.drain_core flags part term L hB (L - base).toNat r.host req fuel base (by omega)
        (by rw [hhost]; rfl) hn (by rw [hhost]; rfl) (by rw [hhost]; exact hstatus.1)
        (by rw [hhost]; exact hstatus.2) (by rw [hhost]; exact hg.caching_open)
        (by rw [hhost]; rfl) hwal hprep hfuel
    refine ⟨s', sent, final, hdrain, ?_, hcount, ?_, hlast, hf1, hf2, hs1, hs2, hs4⟩
    · rw [hret, hhost]; rfl
    · intro k q hq
      obtain ⟨h1, h2, h3, h4, h5⟩ := hreqs k q hq
      refine ⟨h1, h2, h3, h5, ?_⟩
      intro j hj
      rw [h5] at hj
      have hjB : j < flags.max_appendlog_batch_size := lt_of_lt_of_le hj (Nat.min_le_left _ _)
      have hjn : j < (L - base).toNat - k * flags.max_appendlog_batch_size :=
        lt_of_lt_of_le hj (Nat.min_le_right _ _)
      have hget : (part.wal.iterator (q.last_log_id_sent + 1) L).get? j =
          part.wal.record (q.last_log_id_sent + 1 + (j : Int)) := by
        unfold Wal.iterator
        apply Wal.scan_get
        · intro x hx1 hx2
          obtain ⟨rec, hrec, _⟩ := hwal x (by rw [h1] at hx1; omega) (by omega)
          exact ⟨rec, hrec⟩
        · rw [h1]; omega
      obtain ⟨rec, hrec, _⟩ := hwal (q.last_log_id_sent + 1 + (j : Int))
        (by rw [h1]; omega) (by rw [h1]; omega)
      rw [h1] at hrec
      refine ⟨rec, hrec, ?_⟩
      rw [h4, List.get?_eq_getElem?, List.getElem?_map, List.getElem?_take, if_pos hjB,
        ← List.get?_eq_getElem?, hget, h1, hrec]
      rfl

/-- Witness of `batch_cap_drain`: batch size 2, baseline 5, target 9 over a log whose
record of id `i` has message `[i]`: two requests are sent, from baselines 5 and 7,
carrying the records `[6, 7]` and then `[8, 9]`, the promise is fulfilled once, and the
channel ends idle with baseline 9. -/
theorem batch_cap_drain_witness :
    ∃ r req s' sent final,
      idleAtFive.appendLogs smallFlags numberedPart 2 9 5 2 5 = .ok r ∧ r.req = some req ∧
      Host.drain smallFlags numberedPart 2 r.host req =
        some (s', sent, [(r.host.promise.id, final)]) ∧
      sent.map (fun q => (q.last_log_id_sent, q.log_str_list.map (fun e => e.log_str))) =
        [(5, [[6], [7]]), (7, [[8], [9]])] ∧
      final.last_log_id = 9 ∧ s'.lastLogIdSent = 9 ∧ s'.requestOnGoing = false ∧
      s'.promise.value = some final := by
  have hwal : ∀ i : Int, 5 < i → i ≤ 9 →
      ∃ rec, numberedPart.wal.record i = some rec ∧ rec.logTerm = 2 := by
    intro i h1 h2
    refine ⟨{ logTerm := 2, logSource := 0, logMsg := [i.toNat] }, ?_, rfl⟩
    show (if 1 ≤ i ∧ i ≤ 20 then some _ else none) = some _
    rw [if_pos ⟨by omega, by omega⟩]
  obtain ⟨s', sent, final, hdrain, _, _, _, _, _, hf2, hs1, hs2, hs4⟩ :=
    batch_cap_drain smallFlags numberedPart (start idleAtFive) 2 9 5 2 5 2 _ _ 2
      ⟨idleAtFive, [], ⟨rfl, rfl, rfl, rfl⟩, by decide, rfl⟩ (by decide) hwal rfl rfl
      (by decide)
  refine ⟨_, _, s', sent, final, rfl, rfl, hdrain, ?_, hf2, hs1, hs2, hs4⟩
  have h := congrArg (fun o => (Option.map (fun x => x.2.1) o).getD []) hdrain
  have hsent : sent = _ := h.symm
  rw [hsent]
  rfl

end Channel

/-! ## The target never decreases -/

namespace Host

/-- What `appendLogs` does to `log_id_to_send`: nothing when no request is built, and the
accept branch sets it to the submitted log id, which is not below the old target. -/
theorem appendLogs_target {flags : Flags} {part : RaftPart} {s : Host} {T : TermID}
    {L C : LogID} {pT : TermID} {pL : LogID} {r : Submitted}
    (h : s.appendLogs flags part T L C pT pL = .ok r) :
    s.logIdToSend ≤ r.host.logIdToSend ∧
    (r.req = none → r.host.logIdToSend = s.logIdToSend) ∧
    (∀ req, r.req = some req → r.host.logIdToSend = L ∧ s.logIdToSend ≤ L) := by
  rcases appendLogs_cases h with ⟨hh, hnone, _⟩ | ⟨_, _, _, _, hh, hnone, _⟩ |
    ⟨_, _, hL, _, _, hh, _, req, hreq, _⟩
  · rw [hh]
    exact ⟨le_refl _, fun _ => rfl, fun q hq => by rw [hnone] at hq; cases hq⟩
  · rw [hh]
    exact ⟨le_refl _, fun _ => rfl, fun q hq => by rw [hnone] at hq; cases hq⟩
  · rw [hh]
    exact ⟨hL, fun hq => (by rw [hreq] at hq; cases hq), fun _ _ => ⟨rfl, hL⟩⟩

/-- What the continuation does to `log_id_to_send` in a state with consistent
bookkeeping: adopting the pending request raises it to the pending log id, every other
path leaves it. -/
theorem appendLogsInternal_target {flags : Flags} {part : RaftPart} {s : Host} {t : Try}
    {s' : Host} {c : Completion} (hg : s.Good)
    (h : s.appendLogsInternal flags part t = .ok (s', c)) :
    s.logIdToSend ≤ s'.logIdToSend ∧
    (s.Adopting t →
      s'.logIdToSend = s.pendingReq.2.1 ∧ s.logIdToSend < s'.logIdToSend) ∧
    (¬ s.Adopting t → s'.logIdToSend = s.logIdToSend) := by
  rcases appendLogsInternal_cases h with ⟨r, hq, hwhy⟩ | ⟨_, resp, req, ht, hwhy, hs, _, _⟩ |
    ⟨_, resp, ht, _, _, _, hpend, hs, _⟩ |
    ⟨hst, resp, req, ht, hcode, hge, _, hpend, hs, _, _⟩
  · obtain ⟨_, _, hs, _⟩ := quiesce_cases hq
    subst hs
    refine ⟨le_refl _, ?_, fun _ => rfl⟩
    rintro ⟨resp, ht, hcode, hst, _, _⟩
    rcases hwhy with ⟨h1, _⟩ | ⟨h1, _⟩ | ⟨h1, h2, _⟩
    · rw [h1] at ht; cases ht
    · exact absurd hst h1
    · rw [h1] at ht
      cases ht
      exact absurd hcode h2
  · subst hs
    refine ⟨le_refl _, ?_, fun _ => rfl⟩
    rintro ⟨resp1, ht1, hcode, _, hge, _⟩
    rw [ht] at ht1
    cases ht1
    rcases hwhy with ⟨_, hlt⟩ | hgap
    · exact absurd hge (not_le.mpr hlt)
    · rw [hgap] at hcode; cases hcode
  · subst hs
    refine ⟨le_refl _, ?_, fun _ => rfl⟩
    rintro ⟨_, _, _, _, _, hne⟩
    exact absurd hpend hne
  · subst hs
    have hlt := hg.pending_ahead hpend
    exact ⟨le_of_lt hlt, fun _ => ⟨rfl, hlt⟩,
      fun hn => absurd ⟨resp, ht, hcode, hst, hge, hpend⟩ hn⟩

end Host

namespace Channel

/-- No step from a state with consistent bookkeeping lowers `log_id_to_send`. -/
theorem step_target {flags : Flags} {part : RaftPart} {c c' : Channel} {a : Action}
    (hg : c.host.Good) (hstep : step flags part c a = some c') :
    c.host.logIdToSend ≤ c'.host.logIdToSend := by
  cases a with
  | appendLogs T L C pT pL =>
    simp only [step] at hstep
    split at hstep
    · cases hstep
    · rename_i r hr
      cases hstep
      exact (Host.appendLogs_target hr).1
  | send i =>
    simp only [step] at hstep
    split at hstep
    · cases hstep
    · split at hstep <;> cases hstep <;> exact le_refl _
  | handOff i =>
    simp only [step] at hstep
    split at hstep
    · cases hstep
    · cases hstep
      exact le_refl _
  | complete i t =>
    simp only [step] at hstep
    split at hstep
    · cases hstep
    · split at hstep
      · cases hstep
      · rename_i r hr
        cases hstep
        exact (Host.appendLogsInternal_target hg hr).1
  | completeRefused i =>
    simp only [step] at hstep
    split at hstep
    · cases hstep
    · split at hstep
      · cases hstep
      · rename_i r hr
        cases hstep
        exact (Host.appendLogsInternal_target hg hr).1
  | pause => cases hstep; exact le_refl _
  | resume => cases hstep; exact le_refl _
  | stop => cases hstep; exact le_refl _

/-- No run from a state with consistent bookkeeping lowers `log_id_to_send`. -/
theorem run_target {flags : Flags} {part : RaftPart} :
    ∀ (acts : List Action) (c c' : Channel), c.host.Good →
      run flags part c acts = some c' → c.host.logIdToSend ≤ c'.host.logIdToSend := by
  intro acts
  induction acts with
  | nil =>
    intro c c' _ hrun
    simp only [run] at hrun
    cases hrun
    exact le_refl _
  | cons a rest ih =>
    intro c c' hg hrun
    simp only [run] at hrun
    cases hs : step flags part c a with
    | none => simp [hs] at hrun
    | some c1 =>
      simp only [hs] at hrun
      exact le_trans (step_target hg hs) (ih c1 c' (step_good hg hs) hrun)

/-- C31: in every reachable state, a call of `appendLogs` that returns never lowers
`log_id_to_send`: it leaves it when no request is built (heartbeat, stale, coalesce,
reject and status-error paths) and the accept branch sets it to the submitted log id,
which is at least the old value; a run of the completion handler that returns never
lowers it: it leaves it on the exception path, on every response other than `SUCCEEDED`
(gap and error paths) and on every path that does not adopt the pending request, and
adopting the pending request sets it to the pending log id, which is strictly greater;
hence it never decreases along any run. -/
theorem target_monotone (flags : Flags) (part : RaftPart) (c : Channel)
    (hreach : c.Reachable flags part) :
    (∀ (T : TermID) (L C : LogID) (pT : TermID) (pL : LogID) (r : Host.Submitted),
      c.host.appendLogs flags part T L C pT pL = .ok r →
      c.host.logIdToSend ≤ r.host.logIdToSend ∧
      (r.req = none → r.host.logIdToSend = c.host.logIdToSend) ∧
      (∀ req, r.req = some req → r.host.logIdToSend = L ∧ c.host.logIdToSend ≤ L)) ∧
    (∀ (t : Host.Try) (s' : Host) (comp : Host.Completion),
      c.host.appendLogsInternal flags part t = .ok (s', comp) →
      c.host.logIdToSend ≤ s'.logIdToSend ∧
      (t = .exception → s'.logIdToSend = c.host.logIdToSend) ∧
      (∀ resp, t = .value resp → resp.error_code ≠ ErrorCode.SUCCEEDED →
        s'.logIdToSend = c.host.logIdToSend) ∧
      (¬ c.host.Adopting t → s'.logIdToSend = c.host.logIdToSend) ∧
      (c.host.Adopting t →
        s'.logIdToSend = c.host.pendingReq.2.1 ∧ c.host.logIdToSend < s'.logIdToSend)) ∧
    (∀ (acts : List Action) (c' : Channel), run flags part c acts = some c' →
      c.host.logIdToSend ≤ c'.host.logIdToSend) := by
  have hg := hreach.good_exclusive.1
  refine ⟨fun T L C pT pL r h => Host.appendLogs_target h, ?_,
    fun acts c' hrun => run_target acts c c' hg hrun⟩
  intro t s' comp h
  obtain ⟨h1, h2, h3⟩ := Host.appendLogsInternal_target hg h
  refine ⟨h1, ?_, ?_, h3, h2⟩
  · intro ht
    apply h3
    rintro ⟨resp, hv, _⟩
    rw [ht] at hv
    cases hv
  · intro resp ht hcode
    apply h3
    rintro ⟨resp1, hv, hc, _⟩
    rw [ht] at hv
    cases hv
    exact hcode hc

/-- Witness of `target_monotone`: the sample channel has target 7 and the submission for
`L = 11` pending; the response `{SUCCEEDED, last_log_id = 7}` makes the handler adopt it
and the target becomes 11; a transport exception leaves the target at 7. -/
theorem target_monotone_witness :
    coalescedSample.host.logIdToSend = 7 ∧
    (∃ s' comp, coalescedSample.host.appendLogsInternal smallFlags samplePart
        (.value ⟨ErrorCode.SUCCEEDED, 2, 7, 2, 5⟩) = .ok (s', comp) ∧
      s'.logIdToSend = 11 ∧ coalescedSample.host.logIdToSend < s'.logIdToSend) ∧
    (∃ s' comp, coalescedSample.host.appendLogsInternal smallFlags samplePart
        .exception = .ok (s', comp) ∧ s'.logIdToSend = 7) := by
  have hall := target_monotone smallFlags samplePart coalescedSample coalescedSample_reachable
  have ha : ∃ x, coalescedSample.host.appendLogsInternal smallFlags samplePart
      (.value ⟨ErrorCode.SUCCEEDED, 2, 7, 2, 5⟩) = .ok x := ⟨_, rfl⟩
  have he : ∃ x, coalescedSample.host.appendLogsInternal smallFlags samplePart
      .exception = .ok x := ⟨_, rfl⟩
  obtain ⟨⟨s1, c1⟩, h1⟩ := ha
  obtain ⟨⟨s2, c2⟩, h2⟩ := he
  refine ⟨rfl, ⟨s1, c1, h1, ?_⟩, ⟨s2, c2, h2, ?_⟩⟩
  · exact (hall.2.1 _ s1 c1 h1).2.2.2.2
      ⟨_, rfl, rfl, rfl, by decide, by decide⟩
  · exact (hall.2.1 _ s2 c2 h2).2.1 rfl

end Channel

/-! ## The all-zero tuple -/

namespace Host

/-- The submission gate keeps an observer behind every pending request. -/
theorem waiting_appendLogs {flags : Flags} {part : RaftPart} {s : Host} {T : TermID}
    {L C : LogID} {pT : TermID} {pL : LogID} {r : Submitted} (hw : s.Waiting)
    (h : s.appendLogs flags part T L C pT pL = .ok r) : r.host.Waiting := by
  rcases appendLogs_cases h with ⟨hh, _⟩ | ⟨_, _, _, _, hh, _⟩ | ⟨_, _, _, _, _, hh, _⟩
  · rw [hh]; exact hw
  · rw [hh]; exact fun _ => Nat.succ_pos _
  · rw [hh]; exact fun hne => absurd rfl hne

/-- The continuation keeps an observer behind every pending request. -/
theorem waiting_appendLogsInternal {flags : Flags} {part : RaftPart} {s : Host} {t : Try}
    {s' : Host} {c : Completion} (hw : s.Waiting)
    (h : s.appendLogsInternal flags part t = .ok (s', c)) : s'.Waiting := by
  rcases appendLogsInternal_cases h with ⟨r, hq, _⟩ | ⟨_, resp, req, _, _, hs, _, _⟩ |
    ⟨_, resp, _, _, _, _, _, hs, _⟩ | ⟨_, resp, req, _, _, _, _, _, hs, _, _⟩
  · obtain ⟨_, _, hs, _⟩ := quiesce_cases hq
    subst hs
    exact fun hne => absurd rfl hne
  · subst hs; exact hw
  · subst hs; exact hw
  · subst hs
    exact fun hne => absurd rfl hne

end Host

namespace Channel

/-- Every step keeps an observer behind every pending request. -/
theorem step_waiting {flags : Flags} {part : RaftPart} {c c' : Channel} {a : Action}
    (hw : c.host.Waiting) (hstep : step flags part c a = some c') : c'.host.Waiting := by
  cases a with
  | appendLogs T L C pT pL =>
    simp only [step] at hstep
    split at hstep
    · cases hstep
    · rename_i r hr
      cases hstep
      exact Host.waiting_appendLogs hw hr
  | send i =>
    simp only [step] at hstep
    split at hstep
    · cases hstep
    · split at hstep <;> cases hstep <;> exact hw
  | handOff i =>
    simp only [step] at hstep
    split at hstep
    · cases hstep
    · cases hstep
      exact hw
  | complete i t =>
    simp only [step] at hstep
    split at hstep
    · cases hstep
    · split at hstep
      · cases hstep
      · rename_i r hr
        cases hstep
        exact Host.waiting_appendLogsInternal hw hr
  | completeRefused i =>
    simp only [step] at hstep
    split at hstep
    · cases hstep
    · split at hstep
      · cases hstep
      · rename_i r hr
        cases hstep
        exact Host.waiting_appendLogsInternal hw hr
  | pause => cases hstep; exact hw
  | resume => cases hstep; exact hw
  | stop => cases hstep; exact hw

/-- In a reachable state every pending request has an observer on the caching promise. -/
theorem Reachable.waiting {flags : Flags} {part : RaftPart} {c : Channel}
    (h : c.Reachable flags part) : c.host.Waiting := by
  obtain ⟨s0, acts, h0, _, hrun⟩ := h
  exact run_induction (fun d => d.host.Waiting) (fun _ _ => True)
    (fun _ _ _ hP _ hs => step_waiting hP hs) acts (start s0) c
    (fun hne => absurd h0.2.1 hne) (allowed_true flags part acts (start s0)) hrun

/-- C32: in every state reachable from an idle state with `log_id_to_send ≥ 0`: a call of
`appendLogs` that coalesces (it returns a future that is not ready and builds no request)
stores the submitted tuple, whose log id is above `log_id_to_send`, hence at least 1, so
the tuple is not the all-zero tuple and `noRequest` is false after it; whenever the
caching promise has an observer (a submission coalesced and not yet adopted or cleared)
`pending_req` has a log id strictly greater than `log_id_to_send`, at least 1, and
differs from the all-zero tuple; `noRequest` is true exactly when the caching promise has
no observer; an idle state has no observer on the caching promise; and whenever the
completion handler ends without chaining a request it leaves the channel idle with no
observer on the caching promise, having either fulfilled the live and the caching promise
(`setResponse`) or, on the fully delivered branch, found the caching promise without
observers. -/
theorem empty_encoding_sound (flags : Flags) (part : RaftPart) (c : Channel)
    (hreach : c.Reachable flags part) :
    (∀ (T : TermID) (L C : LogID) (pT : TermID) (pL : LogID) (r : Host.Submitted),
      c.host.appendLogs flags part T L C pT pL = .ok r →
      r.ret.immediateCode = none → r.req = none →
      r.host.pendingReq = (T, L, C, pT, pL) ∧ c.host.logIdToSend < L ∧ 1 ≤ L ∧
      r.host.pendingReq ≠ emptyTup ∧ r.host.noRequest = false ∧
      r.host.cachingPromise.size = c.host.cachingPromise.size + 1) ∧
    (0 < c.host.cachingPromise.size →
      c.host.logIdToSend < c.host.pendingReq.2.1 ∧ 1 ≤ c.host.pendingReq.2.1 ∧
      c.host.pendingReq ≠ emptyTup) ∧
    (c.host.noRequest = true ↔ c.host.cachingPromise.size = 0) ∧
    (c.host.requestOnGoing = false → c.host.cachingPromise.size = 0) ∧
    (∀ (t : Host.Try) (s' : Host) (comp : Host.Completion),
      c.host.appendLogsInternal flags part t = .ok (s', comp) → comp.newReq = none →
      s'.requestOnGoing = false ∧ s'.cachingPromise.size = 0 ∧
      ((∃ r, comp.fulfilled = [(c.host.promise.id, r), (c.host.cachingPromise.id, r)]) ∨
        ((∃ r, comp.fulfilled = [(c.host.promise.id, r)]) ∧
          c.host.noRequest = true ∧ c.host.cachingPromise.size = 0))) := by
  have hg := hreach.good_exclusive.1
  have hw := hreach.waiting
  have hone : ∀ x : Int, 0 < x → 1 ≤ x := fun x hx => by omega
  refine ⟨?_, ?_, ?_, ?_, ?_⟩
  · intro T L C pT pL r h hret hnone
    rcases Host.appendLogs_cases h with ⟨_, _, resp, hready⟩ | ⟨_, _, hL, _, hh, _⟩ |
      ⟨_, _, _, _, _, _, _, req, hreq, _⟩
    · rw [hready] at hret
      cases hret
    · have hpos : 0 < L := lt_of_le_of_lt hg.target_nonneg hL
      rw [hh]
      refine ⟨rfl, hL, hone L hpos, Host.ne_emptyTup_of_pos hpos, ?_, rfl⟩
      simp only [Host.noRequest, decide_eq_false_iff_not]
      exact Host.ne_emptyTup_of_pos hpos
    · rw [hreq] at hnone
      cases hnone
  · intro hsize
    have hne : c.host.pendingReq ≠ emptyTup := by
      intro he
      have h0 := hg.no_waiters he
      rw [h0] at hsize
      exact absurd hsize (lt_irrefl _)
    have hlt := hg.pending_ahead hne
    exact ⟨hlt, hone _ (lt_of_le_of_lt hg.target_nonneg hlt), hne⟩
  · constructor
    · intro hno
      exact hg.no_waiters (by simpa [Host.noRequest] using hno)
    · intro hsize
      have hpend : c.host.pendingReq = emptyTup := by
        by_contra hne
        have := hw hne
        rw [hsize] at this
        exact absurd this (lt_irrefl _)
      simp [Host.noRequest, hpend]
  · intro hidle
    exact hg.no_waiters (hg.idle_clear hidle)
  · intro t s' comp h hnew
    rcases Host.appendLogsInternal_cases h with ⟨r, hq, _⟩ | ⟨_, resp, req, _, _, _, _, hc⟩ |
      ⟨_, resp, _, _, _, _, hpend, hs, hc⟩ | ⟨_, resp, req, _, _, _, _, _, _, _, hc⟩
    · obtain ⟨_, _, hs, hc⟩ := Host.quiesce_cases hq
      subst hs hc
      exact ⟨rfl, rfl, Or.inl ⟨r, rfl⟩⟩
    · rw [hc] at hnew
      cases hnew
    · subst hs hc
      have hsize := hg.no_waiters hpend
      refine ⟨rfl, hsize, Or.inr ⟨⟨resp, rfl⟩, ?_, hsize⟩⟩
      simp [Host.noRequest, hpend]
    · rw [hc] at hnew
      cases hnew

/-- Witness of `empty_encoding_sound`: the sample channel has two observers on the caching
promise, target 7 and the pending tuple `(2, 11, 5, 2, 9)`: its log id 11 is above the
target, the tuple is not all-zero and `noRequest` is false. -/
theorem empty_encoding_sound_witness :
    coalescedSample.host.cachingPromise.size = 2 ∧
    coalescedSample.host.pendingReq = (2, 11, 5, 2, 9) ∧
    coalescedSample.host.logIdToSend = 7 ∧
    coalescedSample.host.noRequest = false ∧
    (coalescedSample.host.logIdToSend < coalescedSample.host.pendingReq.2.1 ∧
      1 ≤ coalescedSample.host.pendingReq.2.1 ∧
      coalescedSample.host.pendingReq ≠ emptyTup) :=
  ⟨rfl, rfl, rfl, rfl,
    (empty_encoding_sound smallFlags samplePart coalescedSample
      coalescedSample_reachable).2.1 (by decide)⟩

end Channel

/-! ## Progress of a built request -/

/-- An iterator that is valid at its first position stands on the record of the first id
of the range, and the range is not empty. -/
theorem Wal.iterator_head (w : Wal) (first last : Int) (r : WalRecord)
    (rest : List WalRecord) (h : w.iterator first last = r :: rest) :
    w.record first = some r ∧ first ≤ last := by
  unfold Wal.iterator at h
  cases hn : (last + 1 - first).toNat with
  | zero =>
    rw [hn] at h
    simp [Wal.scan] at h
  | succ n =>
    rw [hn] at h
    refine ⟨?_, by omega⟩
    cases hrec : w.record first with
    | none => simp [Wal.scan, hrec] at h
    | some r0 =>
      simp only [Wal.scan, hrec, List.cons.injEq] at h
      rw [h.1]

namespace Host

/-- C33: whenever the Wal iterator over `[last_log_id_sent + 1, log_id_to_send]` is valid
(the range is not empty), `prepareAppendLogRequest` returns a request; the iterator then
stands on the record of id `last_log_id_sent + 1`, whose term is the term of the batch;
with `max_appendlog_batch_size ≥ 1` the request carries at least one entry and its first
entry is that record; with `max_appendlog_batch_size = 0` it carries no entry. -/
theorem prepareAppendLogRequest_progress (flags : Flags) (part : RaftPart) (s : Host)
    (hvalid : part.wal.iterator (s.lastLogIdSent + 1) s.logIdToSend ≠ []) :
    ∃ req rec, prepareAppendLogRequest flags part s = .ok req ∧
      part.wal.record (s.lastLogIdSent + 1) = some rec ∧
      s.lastLogIdSent < s.logIdToSend ∧
      req.last_log_id_sent = s.lastLogIdSent ∧
      req.log_term = rec.logTerm ∧
      (1 ≤ flags.max_appendlog_batch_size →
        1 ≤ req.log_str_list.length ∧
        req.log_str_list.head? =
          some { cluster := rec.logSource, log_str := rec.logMsg }) ∧
      (flags.max_appendlog_batch_size = 0 → req.log_str_list = []) := by
  cases hit : part.wal.iterator (s.lastLogIdSent + 1) s.logIdToSend with
  | nil => exact absurd hit hvalid
  | cons r rest =>
    obtain ⟨hrec, hle⟩ := Wal.iterator_head part.wal _ _ r rest hit
    have hprep : prepareAppendLogRequest flags part s =
        .ok { space := part.spaceId
              part := part.partitionId
              current_term := s.logTermToSend
              last_log_id := s.logIdToSend
              leader_ip := part.address.1
              leader_port := part.address.2
              committed_log_id := s.committedLogId
              last_log_term_sent := s.lastLogTermSent
              last_log_id_sent := s.lastLogIdSent
              log_term := r.logTerm
              log_str_list :=
                collectLogs r.logTerm flags.max_appendlog_batch_size (r :: rest) 0 } := by
      simp only [prepareAppendLogRequest, hit]
    refine ⟨_, r, hprep, hrec, Int.lt_of_add_one_le hle, rfl, rfl, ?_, ?_⟩
    · intro hB
      have hpos : 0 < flags.max_appendlog_batch_size := hB
      constructor
      · show 1 ≤ (collectLogs r.logTerm flags.max_appendlog_batch_size (r :: rest) 0).length
        simp [collectLogs, hpos]
      · show (collectLogs r.logTerm flags.max_appendlog_batch_size (r :: rest) 0).head? = _
        simp [collectLogs, hpos]
    · intro h0
      show collectLogs r.logTerm flags.max_appendlog_batch_size (r :: rest) 0 = []
      simp [collectLogs, h0]

/-- Witness of `prepareAppendLogRequest_progress`: baseline 5 and target 7 over the log
whose record of id `i` has message `[i]`.  With batch size 2 the request is built and its
first entry is the record of id 6; with batch size 0 the request is built without any
entry. -/
theorem prepareAppendLogRequest_progress_witness :
    (∃ req, prepareAppendLogRequest smallFlags numberedPart (idleAtFive.accepted 2 7 5 2 5) =
        .ok req ∧
      1 ≤ req.log_str_list.length ∧
      req.log_str_list.head? = some { cluster := 0, log_str := [6] }) ∧
    (∃ req, prepareAppendLogRequest zeroBatchFlags numberedPart
        (idleAtFive.accepted 2 7 5 2 5) = .ok req ∧
      req.log_str_list = []) := by
  constructor
  · obtain ⟨req, rec, h, hrec, _, _, _, h1, _⟩ :=
      prepareAppendLogRequest_progress smallFlags numberedPart
        (idleAtFive.accepted 2 7 5 2 5) (by decide)
    have hsix : numberedPart.wal.record ((idleAtFive.accepted 2 7 5 2 5).lastLogIdSent + 1) =
        some { logTerm := 2, logSource := 0, logMsg := [6] } := rfl
    rw [hsix] at hrec
    cases hrec
    exact ⟨req, h, h1 (by decide)⟩
  · obtain ⟨req, rec, h, _, _, _, _, _, h0⟩ :=
      prepareAppendLogRequest_progress zeroBatchFlags numberedPart
        (idleAtFive.accepted 2 7 5 2 5) (by decide)
    exact ⟨req, h, h0 rfl⟩

end Host

/-! ## The bound on the observers of the caching promise -/

namespace Host

/-- The submission gate keeps the observers of the caching promise within
`max_outstanding_requests + 1`. -/
theorem capped_appendLogs {flags : Flags} {part : RaftPart} {s : Host} {T : TermID}
    {L C : LogID} {pT : TermID} {pL : LogID} {r : Submitted}
    (hcap : s.cachingPromise.size ≤ flags.max_outstanding_requests + 1)
    (h : s.appendLogs flags part T L C pT pL = .ok r) :
    r.host.cachingPromise.size ≤ flags.max_outstanding_requests + 1 := by
  rcases appendLogs_cases h with ⟨hh, _⟩ | ⟨_, _, _, hsize, hh, _⟩ |
    ⟨_, _, _, _, _, hh, _⟩
  · rw [hh]; exact hcap
  · rw [hh]; exact Nat.succ_le_succ hsize
  · rw [hh]; exact Nat.zero_le _

/-- The continuation keeps the observers of the caching promise within
`max_outstanding_requests + 1`. -/
theorem capped_appendLogsInternal {flags : Flags} {part : RaftPart} {s : Host} {t : Try}
    {s' : Host} {c : Completion}
    (hcap : s.cachingPromise.size ≤ flags.max_outstanding_requests + 1)
    (h : s.appendLogsInternal flags part t = .ok (s', c)) :
    s'.cachingPromise.size ≤ flags.max_outstanding_requests + 1 := by
  rcases appendLogsInternal_cases h with ⟨r, hq, _⟩ | ⟨_, resp, req, _, _, hs, _, _⟩ |
    ⟨_, resp, _, _, _, _, _, hs, _⟩ | ⟨_, resp, req, _, _, _, _, _, hs, _, _⟩
  · obtain ⟨_, _, hs, _⟩ := quiesce_cases hq
    subst hs
    exact Nat.zero_le _
  · subst hs; exact hcap
  · subst hs; exact hcap
  · subst hs
    exact Nat.zero_le _

end Host

namespace Channel

/-- Every step keeps the observers of the caching promise within
`max_outstanding_requests + 1`. -/
theorem step_capped {flags : Flags} {part : RaftPart} {c c' : Channel} {a : Action}
    (hcap : c.host.cachingPromise.size ≤ flags.max_outstanding_requests + 1)
    (hstep : step flags part c a = some c') :
    c'.host.cachingPromise.size ≤ flags.max_outstanding_requests + 1 := by
  cases a with
  | appendLogs T L C pT pL =>
    simp only [step] at hstep
    split at hstep
    · cases hstep
    · rename_i r hr
      cases hstep
      exact Host.capped_appendLogs hcap hr
  | send i =>
    simp only [step] at hstep
    split at hstep
    · cases hstep
    · split at hstep <;> cases hstep <;> exact hcap
  | handOff i =>
    simp only [step] at hstep
    split at hstep
    · cases hstep
    · cases hstep
      exact hcap
  | complete i t =>
    simp only [step] at hstep
    split at hstep
    · cases hstep
    · split at hstep
      · cases hstep
      · rename_i r hr
        cases hstep
        exact Host.capped_appendLogsInternal hcap hr
  | completeRefused i =>
    simp only [step] at hstep
    split at hstep
    · cases hstep
    · split at hstep
      · cases hstep
      · rename_i r hr
        cases hstep
        exact Host.capped_appendLogsInternal hcap hr
  | pause => cases hstep; exact hcap
  | resume => cases hstep; exact hcap
  | stop => cases hstep; exact hcap

/-- In a reachable state the caching promise has at most `max_outstanding_requests + 1`
observers. -/
theorem Reachable.capped {flags : Flags} {part : RaftPart} {c : Channel}
    (h : c.Reachable flags part) :
    c.host.cachingPromise.size ≤ flags.max_outstanding_requests + 1 := by
  obtain ⟨s0, acts, h0, _, hrun⟩ := h
  exact run_induction
    (fun d => d.host.cachingPromise.size ≤ flags.max_outstanding_requests + 1)
    (fun _ _ => True) (fun _ _ _ hP _ hs => step_capped hP hs) acts (start s0) c
    (by show s0.cachingPromise.size ≤ _; rw [h0.2.2.1]; exact Nat.zero_le _)
    (allowed_true flags part acts (start s0)) hrun

/-- C21, as amended: in every state reachable from an idle state, whatever the sequence
of submissions and completions, the caching promise is unresolved and has at most
`max_outstanding_requests + 1` observers, and so it has after every further step; a call
of `appendLogs` adds an observer to it only when it has at most `max_outstanding_requests`
of them, and a submission that would be coalesced is rejected with `E_TOO_MANY_REQUESTS`
once it has more. -/
theorem backpressure_bound (flags : Flags) (part : RaftPart) (c : Channel)
    (hreach : c.Reachable flags part) :
    c.host.cachingPromise.size ≤ flags.max_outstanding_requests + 1 ∧
    c.host.cachingPromise.value = none ∧
    (∀ a c', step flags part c a = some c' →
      c'.host.cachingPromise.size ≤ flags.max_outstanding_requests + 1) ∧
    (∀ (T : TermID) (L C : LogID) (pT : TermID) (pL : LogID) (r : Host.Submitted),
      c.host.appendLogs flags part T L C pT pL = .ok r →
      (r.host.cachingPromise.size = c.host.cachingPromise.size + 1 →
        c.host.cachingPromise.size ≤ flags.max_outstanding_requests) ∧
      (c.host.requestOnGoing = true → c.host.checkStatus = ErrorCode.SUCCEEDED →
        c.host.logIdToSend < L →
        flags.max_outstanding_requests < c.host.cachingPromise.size →
        r.host = c.host ∧
        r.ret = .ready (AppendLogResponse.withCode ErrorCode.E_TOO_MANY_REQUESTS))) := by
  have hcap := hreach.capped
  refine ⟨hcap, hreach.good_exclusive.1.caching_open, fun a c' hs => step_capped hcap hs, ?_⟩
  intro T L C pT pL r h
  constructor
  · intro hgrow
    rcases Host.appendLogs_cases h with ⟨hh, _⟩ | ⟨_, _, _, hsize, _⟩ |
      ⟨_, _, _, _, _, hh, _⟩
    · rw [hh] at hgrow
      omega
    · exact hsize
    · rw [hh] at hgrow
      have h0 : (0 : Nat) = c.host.cachingPromise.size + 1 := hgrow
      omega
  · intro hbusy hst hlt hover
    have h3 : ¬ (c.host.cachingPromise.size ≤ flags.max_outstanding_requests) :=
      not_le.mpr hover
    have hres : c.host.appendLogs flags part T L C pT pL =
        .ok { host := c.host
              ret := .ready (AppendLogResponse.withCode ErrorCode.E_TOO_MANY_REQUESTS)
              req := none } := by
      have hne : L ≠ c.host.logIdToSend := ne_of_gt hlt
      have hnlt : ¬ L < c.host.logIdToSend := not_lt.mpr (le_of_lt hlt)
      simp [Host.appendLogs, hne, hnlt, hbusy, hst, h3, hover]
    rw [hres] at h
    cases h
    exact ⟨rfl, rfl⟩

/-- Witness of `backpressure_bound`: the sample channel with three submissions coalesced
against a threshold of two has 3 observers on the caching promise, which is the bound,
and the next submission is rejected. -/
theorem backpressure_bound_witness :
    crowdedSample.host.cachingPromise.size = 3 ∧
    crowdedSample.host.cachingPromise.size ≤ smallFlags.max_outstanding_requests + 1 ∧
    (∃ r, crowdedSample.host.appendLogs smallFlags samplePart 2 15 5 2 13 = .ok r ∧
      r.host = crowdedSample.host ∧
      r.ret = .ready (AppendLogResponse.withCode ErrorCode.E_TOO_MANY_REQUESTS)) :=
  ⟨rfl,
    (backpressure_bound smallFlags samplePart crowdedSample crowdedSample_reachable).1,
    _, rfl,
    ((backpressure_bound smallFlags samplePart crowdedSample
      crowdedSample_reachable).2.2.2 2 15 5 2 13 _ rfl).2 rfl rfl (by decide) (by decide)⟩

end Channel

end nebula.raftex
